import Mathlib

/-!
Verification development for the data_normalize-validate repository.

`src/validate.py` (strict validator: validate_invoice, validate_expense,
validate_document) and `src/normalize.py` (confidence-scoring validator:
validate_invoice_data) are embedded shallowly.  Python values are modelled
by `JVal`; Python numbers (int/float/bool) are modelled exactly, with
floats as rationals; Python exceptions crossing a function boundary are
modelled with `Except PyErr`.

Notes on modelling scope:
* Python float arithmetic is modelled by exact rational arithmetic.
* `str()` rendering of interpolated values inside a few report messages is
  approximated by `jrepr` (the claims below never depend on those
  characters; only on message identity/shape).
* `datetime.strptime(s, "%Y-%m-%d")` is modelled per CPython's TimeRE:
  exactly 4 year digits, 1-2 month/day digits, calendar-validated.
* `datetime.fromisoformat` is modelled for date-only strings
  (YYYY-MM-DD, zero padded, calendar-validated); non-strings raise.
-/

/-- Characters treated as whitespace by str.strip / lstrip (ASCII part). -/
def isSpaceB (c : Char) : Bool := c = ' ' || c = '\t' || c = '\n' || c = '\r' || c = '\x0b' || c = '\x0c'

/-- Remove leading and trailing whitespace from a character list. -/
def trimChars (cs : List Char) : List Char :=
  ((cs.dropWhile isSpaceB).reverse.dropWhile isSpaceB).reverse

/-- Python str.strip() on a string (ASCII whitespace). -/
def pyStrip (s : String) : String := ⟨trimChars s.data⟩

/-- ASCII lower-casing of one character, as in str.lower for ASCII. -/
def lowerCh (c : Char) : Char :=
  if c.val ≥ 65 && c.val ≤ 90 then Char.ofNat (c.val.toNat + 32) else c

/-- ASCII lower-casing of a string. -/
def pyLower (s : String) : String := ⟨s.data.map lowerCh⟩

/-- Decimal digit test. -/
def isDigitB (c : Char) : Bool := c.val ≥ 48 && c.val ≤ 57

/-- Value of a decimal digit character. -/
def digVal (c : Char) : Nat := c.val.toNat - 48

/-- Value of a list of decimal digit characters (most significant first). -/
def digitsVal (cs : List Char) : Nat := cs.foldl (fun a c => a * 10 + digVal c) 0

/-- Parse a non-empty all-digit character list to a natural number. -/
def parseNatDigits (cs : List Char) : Option Nat :=
  if cs ≠ [] ∧ cs.all isDigitB then some (digitsVal cs) else none

/-- Split a character list on a separator character (like str.split(sep)). -/
def splitCh (sep : Char) (cs : List Char) : List (List Char) :=
  match cs with
  | [] => [[]]
  | c :: rest =>
    let r := splitCh sep rest
    if c = sep then [] :: r
    else match r with
         | [] => [[c]]
         | t :: ts => (c :: t) :: ts

/-- Gregorian leap-year test. -/
def isLeap (y : Nat) : Bool := (y % 4 = 0 && y % 100 ≠ 0) || y % 400 = 0

/-- Number of days in a month (Gregorian). -/
def daysInMonth (y m : Nat) : Nat :=
  if m = 2 then (if isLeap y then 29 else 28)
  else if m = 4 || m = 6 || m = 9 || m = 11 then 30
  else 31

/-- A calendar date (year, month, day). -/
structure Ymd where
  y : Nat
  m : Nat
  d : Nat
  deriving DecidableEq

/-- Lexicographic order on dates, the order datetime comparison uses. -/
def ymdLt (a b : Ymd) : Bool :=
  a.y < b.y || (a.y = b.y && (a.m < b.m || (a.m = b.m && a.d < b.d)))

/-- Lexicographic non-strict order on dates. -/
def ymdLe (a b : Ymd) : Bool := a = b || ymdLt a b

/-- Parse one YMD component list given digit-count bounds and a range check. -/
def parseTok (cs : List Char) (lo hi : Nat) : Option Nat :=
  if cs.length ≥ lo ∧ cs.length ≤ hi then parseNatDigits cs else none

/-- Model of datetime.strptime(s, "%Y-%m-%d"): exactly four year digits,
one or two month and day digits, month and day range checks and calendar
validation; the whole string must be consumed. -/
def strptimeYmd (s : String) : Option Ymd :=
  match splitCh '-' s.data with
  | [ys, ms, ds] =>
    match parseTok ys 4 4, parseTok ms 1 2, parseTok ds 1 2 with
    | some y, some m, some d =>
      if 1 ≤ y ∧ 1 ≤ m ∧ m ≤ 12 ∧ 1 ≤ d ∧ d ≤ daysInMonth y m then some ⟨y, m, d⟩ else none
    | _, _, _ => none
  | _ => none

/-- Model of datetime.fromisoformat for date-only strings: exactly
YYYY-MM-DD with zero padding, calendar-validated. -/
def fromisoformatStr (s : String) : Option Ymd :=
  match splitCh '-' s.data with
  | [ys, ms, ds] =>
    match parseTok ys 4 4, parseTok ms 2 2, parseTok ds 2 2 with
    | some y, some m, some d =>
      if 1 ≤ y ∧ 1 ≤ m ∧ m ≤ 12 ∧ 1 ≤ d ∧ d ≤ daysInMonth y m then some ⟨y, m, d⟩ else none
    | _, _, _ => none
  | _ => none

/-- Shape test for the regex ^\d\x7b4\x7d-\d\x7b2\x7d-\d\x7b2\x7d$ used by
normalize.py for date-format validation (no range checks). -/
def isoShape (s : String) : Bool :=
  match s.data with
  | [a, b, c, d, h1, e, f, h2, g, k] =>
    isDigitB a && isDigitB b && isDigitB c && isDigitB d && h1 = '-' &&
    isDigitB e && isDigitB f && h2 = '-' && isDigitB g && isDigitB k
  | _ => false

theorem strptimeYmd_sample1 : strptimeYmd "2023-05-15" = some ⟨2023, 5, 15⟩ := by decide

theorem strptimeYmd_sample2 : strptimeYmd "2023-5-1" = some ⟨2023, 5, 1⟩ := by decide

theorem strptimeYmd_sample3 : strptimeYmd "2023-02-29" = none := by decide

theorem fromisoformatStr_sample : fromisoformatStr "2023-5-1" = none := by decide

theorem isoShape_sample : isoShape "9999-99-99" = true := by decide

theorem pyStrip_sample : pyStrip "  a b  " = "a b" := by decide

theorem pyLower_sample : pyLower "Expense_REPORT" = "expense_report" := by decide

/-- JSON-like values as produced by Python json parsing: None, bool, int,
float (modelled as an exact rational), str, list, dict (association list
in insertion order, keys unique in any value coming from Python). -/
inductive JVal where
  | null
  | boolV (b : Bool)
  | intV (n : Int)
  | floatV (q : ℚ)
  | str (s : String)
  | arr (xs : List JVal)
  | obj (fields : List (String × JVal))

/-- Python exceptions that the embedded code can raise. -/
inductive PyErr where
  | typeError
  | valueError
  | attributeError
  deriving DecidableEq

/-- Dictionary lookup: first binding of the key, as in a Python dict. -/
def getField (r : List (String × JVal)) (k : String) : Option JVal :=
  (r.find? (fun kv => kv.1 == k)).map (fun kv => kv.2)

/-- Key-presence test (field in d). -/
def hasKey (r : List (String × JVal)) (k : String) : Bool :=
  (getField r k).isSome

/-- Test for the None value. -/
def isNullV : JVal → Bool
  | .null => true
  | _ => false

/-- Presence with a non-None value: field in d and d[field] is not None. -/
def hasNonNull (r : List (String × JVal)) (k : String) : Bool :=
  match getField r k with
  | some v => !(isNullV v)
  | none => false

/-- Dictionary write d[k] = v: update the first binding in place, or
append a new binding, as a Python dict does. -/
def dictSet {α : Type} (l : List (String × α)) (k : String) (v : α) : List (String × α) :=
  match l with
  | [] => [(k, v)]
  | kv :: rest => if kv.1 = k then (k, v) :: rest else kv :: dictSet rest k v

/-- Dictionary merge d.update(kvs). -/
def dictUpdate {α : Type} (l : List (String × α)) (kvs : List (String × α)) : List (String × α) :=
  kvs.foldl (fun a kv => dictSet a kv.1 kv.2) l

/-- Membership in validate.py PLACEHOLDER_VALUES = ["", "N/A", "null", None],
under Python equality (no non-string value equals those strings). -/
def isPlaceholderV : JVal → Bool
  | .null => true
  | .str s => s == "" || s == "N/A" || s == "null"
  | _ => false

/-- validate.py is_empty: placeholder, or a string that strips to empty. -/
def is_empty : JVal → Bool
  | .null => true
  | .str s => s == "" || s == "N/A" || s == "null" || pyStrip s == ""
  | _ => false

/-- Python truthiness of a value. -/
def pyTruthy : JVal → Bool
  | .null => false
  | .boolV b => b
  | .intV n => n ≠ 0
  | .floatV q => q ≠ 0
  | .str s => s ≠ ""
  | .arr xs => !xs.isEmpty
  | .obj kvs => !kvs.isEmpty

/-- Exponent part of a Python float literal: empty, or e/E with optional
sign and at least one digit, consuming the rest of the string. -/
def parseExp (cs : List Char) : Option Int :=
  match cs with
  | [] => some 0
  | e :: r =>
    if e = 'e' ∨ e = 'E' then
      match r with
      | '+' :: ds => (parseNatDigits ds).map (fun n => (n : Int))
      | '-' :: ds => (parseNatDigits ds).map (fun n => -(n : Int))
      | ds => (parseNatDigits ds).map (fun n => (n : Int))
    else none

/-- Python float(string) literal parsing: strip whitespace, optional sign,
digits with optional fractional part and optional exponent.  (Underscore
separators and inf/nan literals are outside the modelled fragment.) -/
def parseFloatStr (cs0 : List Char) : Option ℚ :=
  let cs1 := trimChars cs0
  let sgn : ℚ := match cs1 with
    | '-' :: _ => -1
    | _ => 1
  let cs := match cs1 with
    | '+' :: r => r
    | '-' :: r => r
    | r => r
  let ip := cs.takeWhile isDigitB
  let rest := cs.dropWhile isDigitB
  match rest with
  | '.' :: r2 =>
    let fp := r2.takeWhile isDigitB
    let rest2 := r2.dropWhile isDigitB
    if ip = [] ∧ fp = [] then none
    else (parseExp rest2).map (fun e =>
      sgn * ((digitsVal ip : ℚ) + (digitsVal fp : ℚ) / (10 : ℚ) ^ fp.length) * (10 : ℚ) ^ e)
  | _ =>
    if ip = [] then none
    else (parseExp rest).map (fun e => sgn * (digitsVal ip : ℚ) * (10 : ℚ) ^ e)

/-- Python float(value): numbers and bools convert, strings are parsed,
everything else raises (modelled as none). -/
def pyFloat : JVal → Option ℚ
  | .intV n => some (n : ℚ)
  | .floatV q => some q
  | .boolV b => some (if b then 1 else 0)
  | .str s => parseFloatStr s.data
  | _ => none

/-- Numeric value under isinstance(value, (int, float)), which in Python
also accepts bool (a subclass of int). -/
def pyNumVal : JVal → Option ℚ
  | .intV n => some (n : ℚ)
  | .floatV q => some q
  | .boolV b => some (if b then 1 else 0)
  | _ => none

/-- Best-effort str() rendering used only inside interpolated report
messages (Python float repr is approximated; no claim depends on it). -/
def jrepr : JVal → String
  | .null => "None"
  | .boolV b => cond b "True" "False"
  | .intV n => toString n
  | .floatV q => toString q
  | .str s => s
  | .arr _ => "[list]"
  | .obj _ => "[dict]"

/-- Python type tags used in the validate.py field tables. -/
inductive PyTy where
  | pstr
  | pdict
  | plist
  | pfloat
  deriving DecidableEq

/-- isinstance(value, ty) for the tags used by validate.py.  Note that a
Python int or bool is not an instance of float. -/
def isInst : JVal → PyTy → Bool
  | .str _, .pstr => true
  | .obj _, .pdict => true
  | .arr _, .plist => true
  | .floatV _, .pfloat => true
  | _, _ => false

/-- Rendering of the expected-type class in report messages (Python prints
the class repr; apostrophes are elided, no claim depends on it). -/
def tyName : PyTy → String
  | .pstr => "<class str>"
  | .pdict => "<class dict>"
  | .plist => "<class list>"
  | .pfloat => "<class float>"

/-- INVOICE_REQUIRED_FIELDS table of validate.py, in source order. -/
def INVOICE_REQUIRED_FIELDS : List (String × PyTy) :=
  [("document_type", .pstr), ("invoice_number", .pstr), ("invoice_date", .pstr),
   ("vendor_information", .pdict), ("buyer_information", .pdict),
   ("item_details", .plist), ("total_amount", .pfloat)]

/-- INVOICE_OPTIONAL_FIELDS table of validate.py, in source order. -/
def INVOICE_OPTIONAL_FIELDS : List (String × PyTy) :=
  [("due_date", .pstr), ("purchase_order_number", .pstr), ("payment_terms", .pstr),
   ("subtotal_amount", .pfloat), ("total_discount", .pfloat), ("vat_amount", .pfloat),
   ("amount_in_words", .pstr), ("currency", .pstr), ("remarks", .pstr)]

/-- EXPENSE_REQUIRED_FIELDS table of validate.py, in source order. -/
def EXPENSE_REQUIRED_FIELDS : List (String × PyTy) :=
  [("document_type", .pstr), ("employee_name", .pstr),
   ("expense_items", .plist), ("total_amount", .pfloat)]

/-- EXPENSE_OPTIONAL_FIELDS table of validate.py, in source order. -/
def EXPENSE_OPTIONAL_FIELDS : List (String × PyTy) :=
  [("report_id", .pstr), ("employee_id", .pstr), ("department", .pstr),
   ("report_date", .pstr), ("period_start", .pstr), ("period_end", .pstr),
   ("subtotal_amount", .pfloat), ("vat_amount", .pfloat), ("approval_name", .pstr),
   ("approval_status", .pstr), ("currency", .pstr), ("remarks", .pstr)]

/-- validate.py date_format(value): strptime %Y-%m-%d succeeds; a
TypeError on a non-string argument is caught and yields False. -/
def date_format (v : JVal) : Bool :=
  match v with
  | .str s => (strptimeYmd s).isSome
  | _ => false

/-- Report of the strict validator. -/
structure DRes where
  status : String
  invalid_fields : List (String × String)
  logical_checks : List String
  deriving DecidableEq

/-- Record one invalid field: sets status to fail and writes the entry. -/
def markInvalid (st : DRes) (k m : String) : DRes :=
  { status := "fail", invalid_fields := dictSet st.invalid_fields k m,
    logical_checks := st.logical_checks }

/-- Record one logical-check failure: sets status to fail and appends. -/
def markCheck (st : DRes) (m : String) : DRes :=
  { status := "fail", invalid_fields := st.invalid_fields,
    logical_checks := st.logical_checks ++ [m] }

/-- validate.py find_empty_fields: required fields whose value is empty. -/
def find_empty_fields (data : List (String × JVal)) (required : List (String × PyTy)) : List (String × String) :=
  required.foldl
    (fun acc f =>
      if is_empty ((getField data f.1).getD .null) then
        dictSet acc f.1 "Required field cannot be empty"
      else acc)
    []

/-- Step of the invoice required-field loop of validate_invoice. -/
def reqStepInv (invoice : List (String × JVal)) (st : DRes) (f : String × PyTy) : DRes :=
  let value := (getField invoice f.1).getD .null
  if ¬ hasKey invoice f.1 then markInvalid st f.1 "Missing required field"
  else if ¬ isInst value f.2 then
    markInvalid st f.1 ("Invalid type for required field. Expected " ++ tyName f.2)
  else if f.1 = "invoice_date" then
    if ¬ isInst value .pstr ∨ ¬ date_format value then
      markInvalid st f.1 "Invalid date format. Expected YYYY-MM-DD"
    else st
  else if f.1 = "item_details" then
    match value with
    | .arr xs => if xs.length = 0 then markInvalid st f.1 "item_details must be a non-empty list" else st
    | _ => markInvalid st f.1 "item_details must be a non-empty list"
  else st

/-- Step of the invoice optional-field loop of validate_invoice. -/
def optStepInv (invoice : List (String × JVal)) (st : DRes) (f : String × PyTy) : DRes :=
  match getField invoice f.1 with
  | some v =>
    if isPlaceholderV v then st
    else
      let st1 := if ¬ isInst v f.2 then
        markInvalid st f.1 ("Invalid type for optional field. Expected " ++ tyName f.2)
      else st
      if f.1 = "due_date" then
        if ¬ isInst v .pstr ∨ ¬ date_format v then
          markInvalid st1 f.1 "Invalid date format. Expected YYYY-MM-DD"
        else st1
      else st1
  | none => st

/-- Invoice total-summary logical check of validate_invoice: runs when
subtotal_amount, vat_amount and total_amount are present and non-None;
a missing or None total_discount defaults to 0.0; float() conversion
failures are caught and recorded as a logical-check entry. -/
def invTotalCheck (invoice : List (String × JVal)) (st : DRes) : DRes :=
  let subtotal := (getField invoice "subtotal_amount").getD .null
  let vat := (getField invoice "vat_amount").getD .null
  let discount0 := (getField invoice "total_discount").getD .null
  let total := (getField invoice "total_amount").getD .null
  if !(isNullV subtotal) && !(isNullV vat) && !(isNullV total) then
    let discount := if isNullV discount0 then .floatV 0 else discount0
    match pyFloat subtotal, pyFloat vat, pyFloat discount, pyFloat total with
    | some s, some v, some d, some t =>
      if |t - (s + v - d)| > 1/100 then
        markCheck st ("Incorrect total summary: (" ++ jrepr subtotal ++ " + " ++ jrepr vat ++
          " - " ++ jrepr discount ++ " != " ++ jrepr total ++ ")")
      else st
    | _, _, _, _ => markCheck st "Error in logical total calculation"
  else st

/-- validate.py validate_invoice (raises no exception on any dict input). -/
def validate_invoice (invoice : List (String × JVal)) : DRes :=
  let st0 : DRes := { status := "pass", invalid_fields := [], logical_checks := [] }
  let empty := find_empty_fields invoice INVOICE_REQUIRED_FIELDS
  let st1 := if empty.isEmpty then st0 else
    { status := "fail", invalid_fields := dictUpdate st0.invalid_fields empty,
      logical_checks := st0.logical_checks }
  let st2 := INVOICE_REQUIRED_FIELDS.foldl (reqStepInv invoice) st1
  let st3 := INVOICE_OPTIONAL_FIELDS.foldl (optStepInv invoice) st2
  invTotalCheck invoice st3

/-- Step of the expense required-field loop of validate_expense. -/
def reqStepExp (expense : List (String × JVal)) (st : DRes) (f : String × PyTy) : DRes :=
  let value := (getField expense f.1).getD .null
  if ¬ hasKey expense f.1 then markInvalid st f.1 "Missing required field"
  else if ¬ isInst value f.2 then
    markInvalid st f.1 ("Invalid type. Expected " ++ tyName f.2)
  else if f.1 = "expense_items" then
    match value with
    | .arr xs => if xs.length = 0 then markInvalid st f.1 "expense_items must be a non-empty list" else st
    | _ => markInvalid st f.1 "expense_items must be a non-empty list"
  else st

/-- Step of the expense optional-field loop of validate_expense. -/
def optStepExp (expense : List (String × JVal)) (st : DRes) (f : String × PyTy) : DRes :=
  match getField expense f.1 with
  | some v =>
    if isPlaceholderV v then st
    else
      let st1 := if ¬ isInst v f.2 then
        markInvalid st f.1 ("Invalid type for optional field. Expected " ++ tyName f.2)
      else st
      if f.1 = "report_date" ∨ f.1 = "period_start" ∨ f.1 = "period_end" then
        if ¬ isInst v .pstr ∨ ¬ date_format v then
          markInvalid st1 f.1 "Invalid date format. Expected YYYY-MM-DD"
        else st1
      else st1
  | none => st

/-- Expense total-summary logical check (no discount term). -/
def expTotalCheck (expense : List (String × JVal)) (st : DRes) : DRes :=
  let subtotal := (getField expense "subtotal_amount").getD .null
  let vat := (getField expense "vat_amount").getD .null
  let total := (getField expense "total_amount").getD .null
  if !(isNullV subtotal) && !(isNullV vat) && !(isNullV total) then
    match pyFloat subtotal, pyFloat vat, pyFloat total with
    | some s, some v, some t =>
      if |t - (s + v)| > 1/100 then
        markCheck st ("Incorrect total summary: (" ++ jrepr subtotal ++ " + " ++ jrepr vat ++
          " != " ++ jrepr total ++ ")")
      else st
    | _, _, _ => markCheck st "Error in logical total calculation"
  else st

/-- Expense period-ordering logical check: runs when period_start and
period_end are truthy strings in valid YYYY-MM-DD format; records a
failure when period_start parses to a later date than period_end.  (The
source wraps this in try/except, but no exception is reachable: both
values already passed date_format.) -/
def expPeriodCheck (expense : List (String × JVal)) (st : DRes) : DRes :=
  let start := (getField expense "period_start").getD .null
  let stop := (getField expense "period_end").getD .null
  if pyTruthy start && pyTruthy stop && date_format start && date_format stop then
    match start, stop with
    | .str s1, .str s2 =>
      match strptimeYmd s1, strptimeYmd s2 with
      | some d1, some d2 => if ymdLt d2 d1 then markCheck st "period_start is after period_end" else st
      | _, _ => st
    | _, _ => st
  else st

/-- Expense per-item date loop: item.get("date") on a non-dict element
raises AttributeError; otherwise a present, non-placeholder date that is
not a valid YYYY-MM-DD string is an invalid-field entry. -/
def expItemsLoop (expense : List JVal) (st : DRes) (idx : Nat) : Except PyErr DRes :=
  match expense with
  | [] => .ok st
  | it :: rest =>
    match it with
    | .obj fields =>
      let dv := (getField fields "date").getD .null
      let st1 :=
        if ¬ isPlaceholderV dv ∧ (¬ isInst dv .pstr ∨ ¬ date_format dv) then
          markInvalid st ("expense_items " ++ toString (idx + 1)) "Invalid date format. Expected YYYY-MM-DD"
        else st
      expItemsLoop rest st1 (idx + 1)
    | _ => .error .attributeError

/-- validate.py validate_expense. -/
def validate_expense (expense : List (String × JVal)) : Except PyErr DRes :=
  let st0 : DRes := { status := "pass", invalid_fields := [], logical_checks := [] }
  let empty := find_empty_fields expense EXPENSE_REQUIRED_FIELDS
  let st1 := if empty.isEmpty then st0 else
    { status := "fail", invalid_fields := dictUpdate st0.invalid_fields empty,
      logical_checks := st0.logical_checks }
  let st2 := EXPENSE_REQUIRED_FIELDS.foldl (reqStepExp expense) st1
  let st3 := EXPENSE_OPTIONAL_FIELDS.foldl (optStepExp expense) st2
  let st4 := expTotalCheck expense st3
  let st5 := expPeriodCheck expense st4
  let items := (getField expense "expense_items").getD (.arr [])
  match items with
  | .arr xs => expItemsLoop xs st5 0
  | _ => .ok st5

/-- validate.py validate_document: document_type (default empty string)
is lower-cased and dispatched; a present non-string document_type makes
.lower() raise AttributeError. -/
def validate_document (document : List (String × JVal)) : Except PyErr DRes :=
  match (getField document "document_type").getD (.str "") with
  | .str s =>
    if pyLower s = "invoice" then .ok (validate_invoice document)
    else if pyLower s = "expense_report" then validate_expense document
    else .ok { status := "fail",
               invalid_fields := [("document_type", "Unknown or missing document_type")],
               logical_checks := [] }
  | _ => .error .attributeError

/-- required_fields of the invoice_validation_rules table in normalize.py. -/
def requiredFieldsN : List String := ["invoice_number", "invoice_date", "total_amount"]

/-- important_fields of the invoice_validation_rules table. -/
def importantFieldsN : List String := ["vendor_name", "due_date", "subtotal", "tax_amount", "line_items"]

/-- field_types of the invoice_validation_rules table, in source order,
with the expected-type tag as a string exactly as in the source. -/
def fieldTypesN : List (String × String) :=
  [("invoice_number", "string"), ("invoice_date", "date"), ("due_date", "date"),
   ("total_amount", "number"), ("subtotal", "number"), ("tax_amount", "number"),
   ("line_items", "array"), ("vendor_name", "string"), ("client_name", "string"),
   ("payment_terms", "string")]

/-- Keys of the formats table of invoice_validation_rules. -/
def formatsKeysN : List String := ["invoice_date", "due_date", "invoice_number"]

/-- Keys of the constraints table (each with min 0 and no max). -/
def constraintFieldsN : List String := ["total_amount", "subtotal", "tax_amount"]

/-- Keys of the placeholder_patterns table of confidence_rules. -/
def placeholderFieldsN : List String := ["invoice_number", "vendor_name", "client_name"]

/-- Case-insensitive full match of the placeholder_patterns regexes:
N/A, Unknown, TBD plus 0+ for invoice_number and None for the others. -/
def phMatch (f : String) (s : String) : Bool :=
  let ls := pyLower s
  if f = "invoice_number" then
    ls == "n/a" || ls == "unknown" || ls == "tbd" ||
      (!s.data.isEmpty && s.data.all (fun c => c = '0'))
  else
    ls == "n/a" || ls == "unknown" || ls == "tbd" || ls == "none"

/-- Validation metrics accumulated by validate_invoice_data. -/
structure VMetrics where
  reqPresent : Nat
  impPresent : Nat
  logValid : Nat
  logTotal : Nat
  fieldsWith : Nat
  suspicious : Nat

/-- Mutable result-and-metrics state of validate_invoice_data. -/
structure VSt where
  valid : Bool
  errors : List String
  warnings : List String
  m : VMetrics

/-- Append one error and invalidate, as the paired statements do. -/
def addErrN (st : VSt) (msg : String) : VSt :=
  { st with valid := false, errors := st.errors ++ [msg] }

/-- Step of the required-fields loop of validate_invoice_data. -/
def reqStepN (r : List (String × JVal)) (st : VSt) (f : String) : VSt :=
  if ¬ hasNonNull r f then addErrN st ("Missing required field: " ++ f)
  else { st with m := { st.m with reqPresent := st.m.reqPresent + 1, fieldsWith := st.m.fieldsWith + 1 } }

/-- Step of the important-fields loop of validate_invoice_data. -/
def impStepN (r : List (String × JVal)) (st : VSt) (f : String) : VSt :=
  if hasNonNull r f then
    { st with m := { st.m with impPresent := st.m.impPresent + 1, fieldsWith := st.m.fieldsWith + 1 } }
  else { st with warnings := st.warnings ++ ["Missing important field: " ++ f] }

/-- Predicate for the other-fields completeness count: a field outside
the required and important tables with a non-None value. -/
def extraPred (kv : String × JVal) : Bool :=
  !(requiredFieldsN.contains kv.1) && !(importantFieldsN.contains kv.1) && !(isNullV kv.2)

/-- Step of the loop over the record counting other non-None fields. -/
def extraStepN (st : VSt) (kv : String × JVal) : VSt :=
  if extraPred kv then
    { st with m := { st.m with fieldsWith := st.m.fieldsWith + 1 } }
  else st

/-- Type-validation error for one field of the field_types table:
string/number/array instance tests (a bool counts as a number), and for
date fields a string test followed by the format regex (both date-typed
fields are in the formats table; the fromisoformat fallback is kept for
faithfulness but unreachable with this table). -/
def typeErrMsg (f ty : String) (v : JVal) : Option String :=
  if ty = "string" then
    match v with
    | .str _ => none
    | _ => some ("Field \"" ++ f ++ "\" must be a string")
  else if ty = "number" then
    match pyNumVal v with
    | some _ => none
    | none => some ("Field \"" ++ f ++ "\" must be a number")
  else if ty = "array" then
    match v with
    | .arr _ => none
    | _ => some ("Field \"" ++ f ++ "\" must be an array")
  else if ty = "date" then
    match v with
    | .str s =>
      if formatsKeysN.contains f then
        if ¬ isoShape s then
          some ("Field \"" ++ f ++ "\" has invalid date format. Expected: YYYY-MM-DD")
        else none
      else
        match fromisoformatStr s with
        | some _ => none
        | none => some ("Field \"" ++ f ++ "\" contains an invalid date")
    | _ => some ("Field \"" ++ f ++ "\" must be a date string")
  else none

/-- Suspicious placeholder-value warning for one field value. -/
def phWarnMsg (f : String) (v : JVal) : Option String :=
  match v with
  | .str s =>
    if phMatch f s then
      some ("Field \"" ++ f ++ "\" appears to contain a placeholder value: \"" ++ s ++ "\"")
    else none
  | _ => none

/-- Step of the field_types loop: type checks, then the suspicious
placeholder-value check with its warning. -/
def typeStepN (r : List (String × JVal)) (st : VSt) (ft : String × String) : VSt :=
  if hasNonNull r ft.1 then
    let v := (getField r ft.1).getD .null
    let st1 :=
      match typeErrMsg ft.1 ft.2 v with
      | some m => addErrN st m
      | none => st
    if placeholderFieldsN.contains ft.1 then
      match phWarnMsg ft.1 v with
      | some w =>
        { st1 with
            warnings := st1.warnings ++ [w]
            m := { st1.m with suspicious := st1.m.suspicious + 1 } }
      | none => st1
    else st1
  else st

/-- Step of the constraints loop: value < 0 on a non-numeric value is a
Python TypeError. -/
def consStepN (r : List (String × JVal)) (f : String) (st : VSt) : Except PyErr VSt :=
  if hasNonNull r f then
    match pyNumVal ((getField r f).getD .null) with
    | some q => if q < 0 then .ok (addErrN st ("Field \"" ++ f ++ "\" must be at least 0")) else .ok st
    | none => .error .typeError
  else .ok st

/-- Constraints loop of validate_invoice_data. -/
def consGo (r : List (String × JVal)) (fs : List String) (st : VSt) : Except PyErr VSt :=
  match fs with
  | [] => .ok st
  | f :: rest =>
    match consStepN r f st with
    | .error e => .error e
    | .ok st1 => consGo r rest st1

/-- One logical check of the rules table: name, fields, error message. -/
structure LCheck where
  name : String
  fields : List String
  msg : String

/-- logical_checks of invoice_validation_rules, in source order. -/
def logicalChecksN : List LCheck :=
  [⟨"dates_chronology", ["invoice_date", "due_date"], "Due date must be on or after invoice date"⟩,
   ⟨"amount_calculation", ["subtotal", "tax_amount", "total_amount"], "Total amount should equal subtotal plus tax amount"⟩,
   ⟨"line_items_sum", ["line_items", "subtotal"], "Line items should sum to subtotal"⟩]

/-- Contribution of one line item to the line_items_sum check: a numeric
total, else quantity times unit_price when both numeric, else 0; .get on
a non-dict item raises AttributeError. -/
def lineItemContribution (it : JVal) : Except PyErr ℚ :=
  match it with
  | .obj fields =>
    match pyNumVal ((getField fields "total").getD .null) with
    | some t => .ok t
    | none =>
      match pyNumVal ((getField fields "quantity").getD .null),
            pyNumVal ((getField fields "unit_price").getD .null) with
      | some q, some p => .ok (q * p)
      | _, _ => .ok 0
  | _ => .error .attributeError

/-- Accumulating sum over the line items. -/
def sumLineItems (items : List JVal) (acc : ℚ) : Except PyErr ℚ :=
  match items with
  | [] => .ok acc
  | it :: rest =>
    match lineItemContribution it with
    | .error e => .error e
    | .ok c => sumLineItems rest (acc + c)

/-- validate_logical_check of normalize.py, for a check whose fields are
all present and non-None.  dates_chronology parses both dates with
fromisoformat (TypeError on non-strings, ValueError on non-ISO strings,
neither caught by the caller); amount_calculation adds and subtracts the
raw values (TypeError unless all three are numbers or bools);
line_items_sum trivially passes for a non-list or empty line_items. -/
def runCheckN (r : List (String × JVal)) (c : LCheck) : Except PyErr Bool :=
  if c.name = "dates_chronology" then
    match (getField r "invoice_date").getD .null with
    | .str s1 =>
      match fromisoformatStr s1 with
      | some d1 =>
        match (getField r "due_date").getD .null with
        | .str s2 =>
          match fromisoformatStr s2 with
          | some d2 => .ok (ymdLe d1 d2)
          | none => .error .valueError
        | _ => .error .typeError
      | none => .error .valueError
    | _ => .error .typeError
  else if c.name = "amount_calculation" then
    match pyNumVal ((getField r "subtotal").getD .null),
          pyNumVal ((getField r "tax_amount").getD .null),
          pyNumVal ((getField r "total_amount").getD .null) with
    | some s, some t, some tot => .ok (|s + t - tot| < 1/100)
    | _, _, _ => .error .typeError
  else if c.name = "line_items_sum" then
    match (getField r "line_items").getD .null with
    | .arr items =>
      if items.length = 0 then .ok true
      else
        match sumLineItems items 0 with
        | .error e => .error e
        | .ok sum =>
          match pyNumVal ((getField r "subtotal").getD .null) with
          | some s => .ok (|sum - s| < 1/100)
          | none => .error .typeError
    | _ => .ok true
  else .ok true

/-- Step of the logical-checks loop: only applicable checks are counted
and evaluated. -/
def logStepN (r : List (String × JVal)) (st : VSt) (c : LCheck) : Except PyErr VSt :=
  if c.fields.all (hasNonNull r) then
    match runCheckN r c with
    | .error e => .error e
    | .ok b =>
      let st1 := { st with m := { st.m with logTotal := st.m.logTotal + 1 } }
      if b then .ok { st1 with m := { st1.m with logValid := st1.m.logValid + 1 } }
      else .ok (addErrN st1 c.msg)
  else .ok st

/-- Logical-checks loop of validate_invoice_data. -/
def logGo (r : List (String × JVal)) (cs : List LCheck) (st : VSt) : Except PyErr VSt :=
  match cs with
  | [] => .ok st
  | c :: rest =>
    match logStepN r st c with
    | .error e => .error e
    | .ok st1 => logGo r rest st1

/-- Weighted confidence score before clamping, from the metric counters:
0.5 required + 0.2 important + 0.2 logical + 0.1 completeness, minus 0.1
per suspicious value capped at 5; an unevaluated component scores 1. -/
def scoreOf (m : VMetrics) : ℚ :=
  let reqScore : ℚ :=
    if (requiredFieldsN.length : ℚ) > 0 then (m.reqPresent : ℚ) / (requiredFieldsN.length : ℚ) else 1
  let impScore : ℚ :=
    if (importantFieldsN.length : ℚ) > 0 then (m.impPresent : ℚ) / (importantFieldsN.length : ℚ) else 1
  let logScore : ℚ := if m.logTotal > 0 then (m.logValid : ℚ) / (m.logTotal : ℚ) else 1
  let completeness : ℚ := min 1 ((m.fieldsWith : ℚ) / 10)
  let penalty : ℚ := (1/10) * ((min m.suspicious 5 : Nat) : ℚ)
  (1/2) * reqScore + (1/5) * impScore + (1/5) * logScore + (1/10) * completeness - penalty

/-- Clamp to the unit interval, max(0, min(1, c)). -/
def clamp01 (q : ℚ) : ℚ := max 0 (min 1 q)

/-- Qualitative confidence bands. -/
def levelOf (c : ℚ) : String :=
  if c ≥ 9/10 then "High"
  else if c ≥ 7/10 then "Medium"
  else if c ≥ 1/2 then "Low"
  else "Very Low"

/-- Report of the confidence-scoring validator.  confidence_level is
optional because the early non-dict return does not set it. -/
structure VRes where
  valid : Bool
  errors : List String
  warnings : List String
  confidence : ℚ
  confidence_level : Option String

/-- Sequencing of exception-prone steps. -/
def bindE {α β : Type} (x : Except PyErr α) (f : α → Except PyErr β) : Except PyErr β :=
  match x with
  | .error e => .error e
  | .ok a => f a

/-- normalize.py validate_invoice_data. -/
def validate_invoice_data (v : JVal) : Except PyErr VRes :=
  match v with
  | .obj r =>
    let st0 : VSt := ⟨true, [], [], ⟨0, 0, 0, 0, 0, 0⟩⟩
    let st1 := requiredFieldsN.foldl (reqStepN r) st0
    let st2 := importantFieldsN.foldl (impStepN r) st1
    let st3 := r.foldl extraStepN st2
    let st4 := fieldTypesN.foldl (typeStepN r) st3
    bindE (consGo r constraintFieldsN st4) (fun st5 =>
      bindE (logGo r logicalChecksN st5) (fun st6 =>
        let conf := clamp01 (scoreOf st6.m)
        .ok ⟨st6.valid, st6.errors, st6.warnings, conf, some (levelOf conf)⟩))
  | _ => .ok ⟨false, ["Invalid invoice data: must be a JSON object"], [], 0, none⟩

deriving instance DecidableEq for Except

/-- Missing-required-field message for one field, when emitted. -/
def reqErrFor (r : List (String × JVal)) (f : String) : Option String :=
  if hasNonNull r f then none else some ("Missing required field: " ++ f)

/-- Errors of the required-fields loop, declaratively. -/
def reqMsgsL (r : List (String × JVal)) : List String :=
  requiredFieldsN.filterMap (reqErrFor r)

/-- Missing-important-field warning for one field, when emitted. -/
def impWarnFor (r : List (String × JVal)) (f : String) : Option String :=
  if hasNonNull r f then none else some ("Missing important field: " ++ f)

/-- Warnings of the important-fields loop, declaratively. -/
def impWarnsL (r : List (String × JVal)) : List String :=
  importantFieldsN.filterMap (impWarnFor r)

/-- Type error emitted for one entry of the field_types table. -/
def typeErrFor (r : List (String × JVal)) (ft : String × String) : Option String :=
  if hasNonNull r ft.1 then typeErrMsg ft.1 ft.2 ((getField r ft.1).getD .null) else none

/-- Errors of the field_types loop, declaratively. -/
def typeErrsL (r : List (String × JVal)) : List String :=
  fieldTypesN.filterMap (typeErrFor r)

/-- Placeholder warning emitted for one entry of the field_types table. -/
def typeWarnFor (r : List (String × JVal)) (ft : String × String) : Option String :=
  if hasNonNull r ft.1 && placeholderFieldsN.contains ft.1 then
    phWarnMsg ft.1 ((getField r ft.1).getD .null)
  else none

/-- Warnings of the field_types loop, declaratively. -/
def typeWarnsL (r : List (String × JVal)) : List String :=
  fieldTypesN.filterMap (typeWarnFor r)

/-- Constraint error emitted for one constrained field (assuming the
loop raises no TypeError). -/
def consErrFor (r : List (String × JVal)) (f : String) : Option String :=
  if hasNonNull r f then
    match pyNumVal ((getField r f).getD .null) with
    | some q => if q < 0 then some ("Field \"" ++ f ++ "\" must be at least 0") else none
    | none => none
  else none

/-- Errors of the constraints loop, declaratively. -/
def consErrsL (r : List (String × JVal)) : List String :=
  constraintFieldsN.filterMap (consErrFor r)

/-- A logical check is applicable when all its fields are present and
non-None. -/
def applicableCheck (r : List (String × JVal)) (c : LCheck) : Bool :=
  c.fields.all (hasNonNull r)

/-- Error message emitted by one logical check (assuming no exception). -/
def logErrFor (r : List (String × JVal)) (c : LCheck) : Option String :=
  if applicableCheck r c ∧ runCheckN r c = .ok false then some c.msg else none

/-- Errors of the logical-checks loop, declaratively. -/
def logErrsL (r : List (String × JVal)) : List String :=
  logicalChecksN.filterMap (logErrFor r)

/-- All errors of validate_invoice_data on a dict, in report order. -/
def allErrsL (r : List (String × JVal)) : List String :=
  reqMsgsL r ++ typeErrsL r ++ consErrsL r ++ logErrsL r

/-- All warnings of validate_invoice_data on a dict, in report order. -/
def allWarnsL (r : List (String × JVal)) : List String :=
  impWarnsL r ++ typeWarnsL r

/-- Count of required fields present and non-None. -/
def reqPresentCount (r : List (String × JVal)) : Nat :=
  requiredFieldsN.countP (fun f => hasNonNull r f)

/-- Count of important fields present and non-None. -/
def impPresentCount (r : List (String × JVal)) : Nat :=
  importantFieldsN.countP (fun f => hasNonNull r f)

/-- Count of non-None fields outside the required/important tables. -/
def extraCount (r : List (String × JVal)) : Nat := r.countP extraPred

/-- fields_with_values metric, declaratively. -/
def fieldsWithCount (r : List (String × JVal)) : Nat :=
  reqPresentCount r + impPresentCount r + extraCount r

/-- One suspicious placeholder hit in the field_types loop. -/
def suspiciousHit (r : List (String × JVal)) (ft : String × String) : Bool :=
  hasNonNull r ft.1 && placeholderFieldsN.contains ft.1 &&
    (phWarnMsg ft.1 ((getField r ft.1).getD .null)).isSome

/-- suspicious_values metric, declaratively. -/
def suspiciousCount (r : List (String × JVal)) : Nat :=
  fieldTypesN.countP (suspiciousHit r)

/-- logical_checks_total metric, declaratively. -/
def logTotalCount (r : List (String × JVal)) : Nat :=
  logicalChecksN.countP (applicableCheck r)

/-- logical_checks_valid metric, declaratively. -/
def logValidCount (r : List (String × JVal)) : Nat :=
  logicalChecksN.countP (fun c => applicableCheck r c && decide (runCheckN r c = .ok true))

/-- The metric record assembled from the declarative counts. -/
def declaredMetrics (r : List (String × JVal)) : VMetrics :=
  ⟨reqPresentCount r, impPresentCount r, logValidCount r, logTotalCount r,
   fieldsWithCount r, suspiciousCount r⟩

/-- Logical sub-score of the confidence formula: passed over evaluated,
a perfect 1 when no check was evaluated. -/
def logScoreQ (r : List (String × JVal)) : ℚ :=
  if logTotalCount r > 0 then (logValidCount r : ℚ) / (logTotalCount r : ℚ) else 1

/-- The blended confidence formula exactly as the specification states
it, over the declarative counts. -/
def confFormula (r : List (String × JVal)) : ℚ :=
  clamp01 ((1/2) * ((reqPresentCount r : ℚ) / 3) + (1/5) * ((impPresentCount r : ℚ) / 5) +
    (1/5) * logScoreQ r + (1/10) * min 1 ((fieldsWithCount r : ℚ) / 10) -
    (1/10) * ((min (suspiciousCount r) 5 : Nat) : ℚ))

/-- Messages appended by the invoice total-summary logical check,
declaratively (empty when the check does not fire). -/
def invTotalMsgs (invoice : List (String × JVal)) : List String :=
  let subtotal := (getField invoice "subtotal_amount").getD .null
  let vat := (getField invoice "vat_amount").getD .null
  let discount0 := (getField invoice "total_discount").getD .null
  let total := (getField invoice "total_amount").getD .null
  if !(isNullV subtotal) && !(isNullV vat) && !(isNullV total) then
    let discount := if isNullV discount0 then .floatV 0 else discount0
    match pyFloat subtotal, pyFloat vat, pyFloat discount, pyFloat total with
    | some s, some v, some d, some t =>
      if |t - (s + v - d)| > 1/100 then
        [("Incorrect total summary: (" ++ jrepr subtotal ++ " + " ++ jrepr vat ++
          " - " ++ jrepr discount ++ " != " ++ jrepr total ++ ")")]
      else []
    | _, _, _, _ => ["Error in logical total calculation"]
  else []

/-- Messages appended by the expense total-summary logical check. -/
def expTotalMsgs (expense : List (String × JVal)) : List String :=
  let subtotal := (getField expense "subtotal_amount").getD .null
  let vat := (getField expense "vat_amount").getD .null
  let total := (getField expense "total_amount").getD .null
  if !(isNullV subtotal) && !(isNullV vat) && !(isNullV total) then
    match pyFloat subtotal, pyFloat vat, pyFloat total with
    | some s, some v, some t =>
      if |t - (s + v)| > 1/100 then
        [("Incorrect total summary: (" ++ jrepr subtotal ++ " + " ++ jrepr vat ++
          " != " ++ jrepr total ++ ")")]
      else []
    | _, _, _ => ["Error in logical total calculation"]
  else []

/-- Messages appended by the expense period-ordering logical check. -/
def expPeriodMsgs (expense : List (String × JVal)) : List String :=
  let start := (getField expense "period_start").getD .null
  let stop := (getField expense "period_end").getD .null
  if pyTruthy start && pyTruthy stop && date_format start && date_format stop then
    match start, stop with
    | .str s1, .str s2 =>
      match strptimeYmd s1, strptimeYmd s2 with
      | some d1, some d2 => if ymdLt d2 d1 then ["period_start is after period_end"] else []
      | _, _ => []
    | _, _ => []
  else []

/-- Effective discount used by the invoice total-summary check: 0 when
total_discount is absent or None, otherwise its float() value. -/
def effDiscount (invoice : List (String × JVal)) : Option ℚ :=
  match (getField invoice "total_discount").getD .null with
  | .null => some 0
  | v => pyFloat v

/-- The three amount fields of the strict invoice check are present and
non-None. -/
def invAmountsPresent (invoice : List (String × JVal)) : Bool :=
  !(isNullV ((getField invoice "subtotal_amount").getD .null)) &&
  !(isNullV ((getField invoice "vat_amount").getD .null)) &&
  !(isNullV ((getField invoice "total_amount").getD .null))

/-- Digit character for a value below ten. -/
def digCh (n : Nat) : Char :=
  match n with
  | 0 => '0' | 1 => '1' | 2 => '2' | 3 => '3' | 4 => '4'
  | 5 => '5' | 6 => '6' | 7 => '7' | 8 => '8' | _ => '9'

/-- Decimal digit characters of a natural number, most significant first. -/
def natChars (n : Nat) : List Char :=
  if _h : n < 10 then [digCh n]
  else natChars (n / 10) ++ [digCh (n % 10)]
decreasing_by exact Nat.div_lt_self (by omega) (by omega)

/-- Left-pad a digit list with zeros to a given width. -/
def padTo (k : Nat) (cs : List Char) : List Char :=
  List.replicate (k - cs.length) '0' ++ cs

/-- Two-digit zero-padded rendering. -/
def pad2 (n : Nat) : List Char := padTo 2 (natChars n)

/-- Four-digit zero-padded rendering. -/
def pad4 (n : Nat) : List Char := padTo 4 (natChars n)

/-- ISO-8601 date rendering YYYY-MM-DD. -/
def fmtYmd (y m d : Nat) : String := ⟨pad4 y ++ '-' :: (pad2 m ++ '-' :: pad2 d)⟩

/-- Day/month/4-digit-year numeric date pattern with the given separator,
with month and day plausibility ranges. -/
def parseDMY (sep : Char) (t : List Char) : Option Ymd :=
  match splitCh sep t with
  | [ds, ms, ys] =>
    match parseTok ds 1 2, parseTok ms 1 2, parseTok ys 4 4 with
    | some d, some m, some y =>
      if 1 ≤ m ∧ m ≤ 12 ∧ 1 ≤ d ∧ d ≤ 31 then some ⟨y, m, d⟩ else none
    | _, _, _ => none
  | _ => none

/-- Month/day/4-digit-year numeric date pattern with the given separator. -/
def parseMDY (sep : Char) (t : List Char) : Option Ymd :=
  match splitCh sep t with
  | [ms, ds, ys] =>
    match parseTok ms 1 2, parseTok ds 1 2, parseTok ys 4 4 with
    | some m, some d, some y =>
      if 1 ≤ m ∧ m ≤ 12 ∧ 1 ≤ d ∧ d ≤ 31 then some ⟨y, m, d⟩ else none
    | _, _, _ => none
  | _ => none

/-- 4-digit-year/month/day numeric date pattern with the given separator. -/
def parseYMDsep (sep : Char) (t : List Char) : Option Ymd :=
  match splitCh sep t with
  | [ys, ms, ds] =>
    match parseTok ys 4 4, parseTok ms 1 2, parseTok ds 1 2 with
    | some y, some m, some d =>
      if 1 ≤ m ∧ m ≤ 12 ∧ 1 ≤ d ∧ d ≤ 31 then some ⟨y, m, d⟩ else none
    | _, _, _ => none
  | _ => none

/-- Modelled from the spec: the fixed month-name table of the normalizer
(no normalizer module exists under src/), carrying full and abbreviated
Thai month names and full and abbreviated English month names. -/
def monthNames : List (String × Nat) :=
  [("มกราคม", 1), ("กุมภาพันธ์", 2), ("มีนาคม", 3), ("เมษายน", 4), ("พฤษภาคม", 5),
   ("มิถุนายน", 6), ("กรกฎาคม", 7), ("สิงหาคม", 8), ("กันยายน", 9), ("ตุลาคม", 10),
   ("พฤศจิกายน", 11), ("ธันวาคม", 12),
   ("ม.ค.", 1), ("ก.พ.", 2), ("มี.ค.", 3), ("เม.ย.", 4), ("พ.ค.", 5), ("มิ.ย.", 6),
   ("ก.ค.", 7), ("ส.ค.", 8), ("ก.ย.", 9), ("ต.ค.", 10), ("พ.ย.", 11), ("ธ.ค.", 12),
   ("january", 1), ("february", 2), ("march", 3), ("april", 4), ("may", 5), ("june", 6),
   ("july", 7), ("august", 8), ("september", 9), ("october", 10), ("november", 11),
   ("december", 12),
   ("jan", 1), ("feb", 2), ("mar", 3), ("apr", 4), ("jun", 6), ("jul", 7), ("aug", 8),
   ("sep", 9), ("oct", 10), ("nov", 11), ("dec", 12)]

/-- Case-insensitive lookup in the month-name table. -/
def monthLookup (cs : List Char) : Option Nat :=
  (monthNames.find? (fun p => pyLower p.1 == pyLower ⟨cs⟩)).map (fun p => p.2)

/-- Modelled from the spec: the localized date pattern
day month-name 4-digit-year, with Buddhist-era correction when the
parsed year exceeds 2500. -/
def parseMonthName (t : List Char) : Option Ymd :=
  match (splitCh ' ' t).filter (fun x => !x.isEmpty) with
  | [ds, mn, ys] =>
    match parseTok ds 1 2, monthLookup mn, parseTok ys 4 4 with
    | some d, some m, some y =>
      if 1 ≤ d ∧ d ≤ 31 then some ⟨if y > 2500 then y - 543 else y, m, d⟩ else none
    | _, _, _ => none
  | _ => none

/-- Modelled from the spec: normalize_date of the missing normalizer.
Empty input is null; the formats YYYY-MM-DD, DD/MM/YYYY, MM/DD/YYYY,
DD-MM-YYYY, YYYY/MM/DD are tried in that priority order; then the
localized month-name pattern with Buddhist-era correction; an
unrecognized value is returned trimmed and unchanged. -/
def normalize_date (s : String) : Option String :=
  let t := trimChars s.data
  if t.isEmpty then none
  else if isoShape ⟨t⟩ then some ⟨t⟩
  else
    match parseDMY '/' t with
    | some x => some (fmtYmd x.y x.m x.d)
    | none =>
      match parseMDY '/' t with
      | some x => some (fmtYmd x.y x.m x.d)
      | none =>
        match parseDMY '-' t with
        | some x => some (fmtYmd x.y x.m x.d)
        | none =>
          match parseYMDsep '/' t with
          | some x => some (fmtYmd x.y x.m x.d)
          | none =>
            match parseMonthName t with
            | some x => some (fmtYmd x.y x.m x.d)
            | none => some ⟨t⟩

/-- Modelled from the spec: the fixed currency-symbol table. -/
def currencyTable : List (String × String) :=
  [("฿", "THB"), ("บาท", "THB"), ("thb", "THB"), ("$", "USD"), ("usd", "USD"),
   ("€", "EUR"), ("eur", "EUR"), ("£", "GBP"), ("gbp", "GBP")]

/-- Magnitude parsing of a numeric string: commas stripped, at most one
decimal point, at least one digit. -/
def parseMagnitude (cs : List Char) : Option ℚ :=
  let cs1 := cs.filter (fun c => c ≠ ',')
  match splitCh '.' cs1 with
  | [ip] =>
    if !ip.isEmpty ∧ ip.all isDigitB then some ((digitsVal ip : ℚ)) else none
  | [ip, fp] =>
    if (!ip.isEmpty ∨ !fp.isEmpty) ∧ ip.all isDigitB ∧ fp.all isDigitB then
      some ((digitsVal ip : ℚ) + (digitsVal fp : ℚ) / (10 : ℚ) ^ fp.length)
    else none
  | _ => none

/-- Magnitude and currency token of a trimmed numeric string: the leading
run of digits, commas and dots is the magnitude, the rest (trimmed) is
looked up case-insensitively in the currency table; an unparseable
magnitude degrades to (null, null). -/
def parseMagCur (t : List Char) : Option ℚ × Option String :=
  let mag := t.takeWhile (fun c => isDigitB c || c = ',' || c = '.')
  let rest := trimChars (t.drop mag.length)
  match parseMagnitude mag with
  | some q =>
    (some q, (currencyTable.find? (fun p => pyLower p.1 == pyLower ⟨rest⟩)).map (fun p => p.2))
  | none => (none, none)

/-- Modelled from the spec: normalize_numeric of the missing normalizer.
None or empty is (null, null); an already-numeric value is itself with no
currency; a string is parsed into magnitude and currency token; anything
unparseable degrades to (null, null) without raising. -/
def normalize_numeric (v : JVal) : Option ℚ × Option String :=
  match v with
  | .null => (none, none)
  | .intV n => (some (n : ℚ), none)
  | .floatV q => (some q, none)
  | .str s =>
    let t := trimChars s.data
    if t.isEmpty then (none, none) else parseMagCur t
  | _ => (none, none)

/-- Modelled from the spec: recursive whitespace trimming of every string
value at every nesting depth. -/
def deepTrim : JVal → JVal
  | .str s => .str (pyStrip s)
  | .arr xs => .arr (xs.attach.map (fun x => deepTrim x.1))
  | .obj kvs => .obj (kvs.attach.map (fun kv => (kv.1.1, deepTrim kv.1.2)))
  | .null => .null
  | .boolV b => .boolV b
  | .intV n => .intV n
  | .floatV q => .floatV q
decreasing_by
  · have h1 := List.sizeOf_lt_of_mem x.2
    have h3 := JVal.arr.sizeOf_spec xs
    omega
  · have h1 := List.sizeOf_lt_of_mem kv.2
    have h2 : sizeOf kv.1 = 1 + sizeOf kv.1.1 + sizeOf kv.1.2 := rfl
    have h3 := JVal.obj.sizeOf_spec kvs
    omega

/-- Numeric fields of the generic invoice schema. -/
def numericFieldsS : List String := ["total_amount", "subtotal", "tax_amount"]

/-- Date fields of the generic invoice schema. -/
def dateFieldsS : List String := ["invoice_date", "due_date"]

/-- Numeric sub-fields of a line item. -/
def itemNumericFieldsS : List String := ["quantity", "unit_price", "discount", "amount"]

/-- Date sub-fields of a line item. -/
def itemDateFieldsS : List String := ["date"]

/-- Optional fields subject to empty-to-null forcing. -/
def optionalFieldsS : List String :=
  ["vendor_name", "due_date", "subtotal", "tax_amount", "line_items", "client_name", "payment_terms"]

/-- Apply the date normalizer to one field value: None stays None, a
string is normalized (null when empty), a non-string is deep-trimmed. -/
def normDateField (v : JVal) : JVal :=
  match v with
  | .null => .null
  | .str s =>
    match normalize_date s with
    | some out => .str out
    | none => .null
  | other => deepTrim other

/-- Apply the numeric normalizer to one field value, producing the
canonical value and any discovered currency. -/
def normNumField (v : JVal) : JVal × Option String :=
  match normalize_numeric v with
  | (some q, c) => (.floatV q, c)
  | (none, _) => (.null, none)

/-- Routing for one line-item sub-field. -/
def normItemField (k : String) (v : JVal) : JVal × Option String :=
  if itemNumericFieldsS.contains k then normNumField v
  else if itemDateFieldsS.contains k then (normDateField v, none)
  else (deepTrim v, none)

/-- Normalize the fields of one mapping with the given per-field routine,
returning the first discovered currency (earlier fields win). -/
def normFieldsGo (f : String → JVal → JVal × Option String) :
    List (String × JVal) → List (String × JVal) × Option String
  | [] => ([], none)
  | (k, v) :: rest =>
    let p := f k v
    let pr := normFieldsGo f rest
    ((k, p.1) :: pr.1, p.2.orElse (fun _ => pr.2))

/-- Normalize one line item: a mapping is normalized field by field, any
other element is deep-trimmed. -/
def normItem (it : JVal) : JVal × Option String :=
  match it with
  | .obj kvs =>
    let p := normFieldsGo normItemField kvs
    (.obj p.1, p.2)
  | v => (deepTrim v, none)

/-- Normalize every line item, threading the first discovered currency. -/
def normItemsGo : List JVal → List JVal × Option String
  | [] => ([], none)
  | it :: rest =>
    let p := normItem it
    let pr := normItemsGo rest
    (p.1 :: pr.1, p.2.orElse (fun _ => pr.2))

/-- Routing for one top-level field of the generic invoice schema. -/
def normTopField (k : String) (v : JVal) : JVal × Option String :=
  if numericFieldsS.contains k then normNumField v
  else if dateFieldsS.contains k then (normDateField v, none)
  else if k = "line_items" then
    match v with
    | .arr items =>
      let p := normItemsGo items
      (.arr p.1, p.2)
    | other => (deepTrim other, none)
  else (deepTrim v, none)

/-- amount value of a canonical line item, 0 when missing or non-numeric. -/
def itemAmount (it : JVal) : ℚ :=
  match it with
  | .obj kvs =>
    match (getField kvs "amount").getD .null with
    | .floatV q => q
    | .intV n => (n : ℚ)
    | _ => 0
  | _ => 0

/-- Sum of line-item amounts. -/
def sumAmounts (items : List JVal) : ℚ :=
  items.foldl (fun a it => a + itemAmount it) 0

/-- Modelled from the spec: derived recomputation of the missing
normalizer; with a line-item array present, its amounts overwrite
subtotal, and with a numeric tax field present, total is recomputed as
subtotal plus tax. -/
def derivedPhase (r : List (String × JVal)) : List (String × JVal) :=
  match (getField r "line_items").getD .null with
  | .arr items =>
    let s0 := sumAmounts items
    let r1 := dictSet r "subtotal" (.floatV s0)
    match (getField r1 "tax_amount").getD .null with
    | .floatV t => dictSet r1 "total_amount" (.floatV (s0 + t))
    | .intV t => dictSet r1 "total_amount" (.floatV (s0 + (t : ℚ)))
    | _ => r1
  | _ => r

/-- Empty-to-null forcing for one optional field value. -/
def nullFieldVal (k : String) (v : JVal) : JVal :=
  if optionalFieldsS.contains k then
    match v with
    | .str s => if s = "" then .null else .str s
    | w => w
  else v

/-- Modelled from the spec: optional-field nulling of the missing
normalizer. -/
def nullingPhase (r : List (String × JVal)) : List (String × JVal) :=
  r.map (fun kv => (kv.1, nullFieldVal kv.1 kv.2))

/-- Modelled from the spec: locale markers inspected in the vendor-name
currency fallback. -/
def thaiMarkers : List String := ["จำกัด", "ไทย"]

/-- One list starts with another. -/
def startsSeg : List Char → List Char → Bool
  | [], _ => true
  | _ :: _, [] => false
  | a :: as, b :: bs => a = b && startsSeg as bs

/-- One list occurs inside another. -/
def containsSeg (needle hay : List Char) : Bool :=
  match hay with
  | [] => needle.isEmpty
  | _ :: t => startsSeg needle hay || containsSeg needle t

/-- Vendor-name currency inference fallback. -/
def vendorCurrency (r : List (String × JVal)) : Option String :=
  match (getField r "vendor_name").getD .null with
  | .str s => if thaiMarkers.any (fun mk => containsSeg mk.data s.data) then some "THB" else none
  | _ => none

/-- Modelled from the spec: currency resolution of the missing
normalizer.  An explicit non-null currency field wins; otherwise the
first currency discovered during normalization; otherwise the vendor
fallback; otherwise an explicit null. -/
def currencyPhase (r : List (String × JVal)) (holder : Option String) : List (String × JVal) :=
  match (getField r "currency").getD .null with
  | .null =>
    match holder with
    | some c => dictSet r "currency" (.str c)
    | none =>
      match vendorCurrency r with
      | some c => dictSet r "currency" (.str c)
      | none => dictSet r "currency" .null
  | _ => r

/-- Modelled from the spec: normalize of the missing normalizer module
(no normalizer exists under src/), over the generic invoice schema:
per-field routing threading a currency holder, derived recomputation,
optional-field nulling, then currency resolution. -/
def normalizeRecord (r : List (String × JVal)) : List (String × JVal) :=
  let p := normFieldsGo normTopField r
  currencyPhase (nullingPhase (derivedPhase p.1)) p.2

/-- The invalid_invoice example shipped at the bottom of normalize.py. -/
def invalidInvoiceRec : List (String × JVal) :=
  [("invoice_date", .str "05/15/2023"), ("due_date", .str "2023-04-15"),
   ("vendor_name", .str "N/A"), ("total_amount", .str "1250.50"),
   ("subtotal", .floatV 1000), ("tax_amount", .floatV 200)]

/-- An expense report whose expense_items holds a non-dict element. -/
def badExpenseRec : List (String × JVal) :=
  [("document_type", .str "expense_report"), ("employee_name", .str "a"),
   ("expense_items", .arr [.str "x"]), ("total_amount", .floatV 1)]

/-- A fully valid invoice for the strict validator except that its
invoice_date is later than its due_date. -/
def c4rec : List (String × JVal) :=
  [("document_type", .str "invoice"), ("invoice_number", .str "1"),
   ("invoice_date", .str "2024-02-02"), ("vendor_information", .obj []),
   ("buyer_information", .obj []), ("item_details", .arr [.obj []]),
   ("total_amount", .floatV 1), ("due_date", .str "2024-01-01")]

/-- A valid expense report whose period_start is after period_end. -/
def expPeriodRec : List (String × JVal) :=
  [("document_type", .str "expense_report"), ("employee_name", .str "a"),
   ("expense_items", .arr [.obj [("date", .str "2024-01-02")]]), ("total_amount", .floatV 1),
   ("period_start", .str "2024-02-02"), ("period_end", .str "2024-01-01")]

/-- A record with both chronology dates for the confidence validator,
due date earlier than invoice date. -/
def datesRec : List (String × JVal) :=
  [("invoice_date", .str "2023-06-15"), ("due_date", .str "2023-05-15")]

/-- A strict invoice whose total differs from subtotal plus vat by
exactly the 0.01 tolerance. -/
def c7invRec : List (String × JVal) :=
  [("document_type", .str "invoice"), ("invoice_number", .str "1"),
   ("invoice_date", .str "2024-01-01"), ("vendor_information", .obj []),
   ("buyer_information", .obj []), ("item_details", .arr [.obj []]),
   ("total_amount", .floatV 0), ("subtotal_amount", .floatV 0),
   ("vat_amount", .floatV (1/100))]

/-- A record for the confidence validator whose total differs from
subtotal plus tax by exactly the 0.01 tolerance. -/
def c7normRec : List (String × JVal) :=
  [("subtotal", .floatV 0), ("tax_amount", .floatV (1/100)), ("total_amount", .floatV 0)]

/-- A valid expense report whose three amounts reconcile exactly. -/
def expTolRec : List (String × JVal) :=
  [("document_type", .str "expense_report"), ("employee_name", .str "a"),
   ("expense_items", .arr [.obj []]), ("total_amount", .floatV 3),
   ("subtotal_amount", .floatV 1), ("vat_amount", .floatV 2)]

/-- Report returned by the confidence-scoring validator on c7normRec. -/
def c7rep : VRes :=
  ⟨false,
   ["Missing required field: invoice_number", "Missing required field: invoice_date",
    "Total amount should equal subtotal plus tax amount"],
   ["Missing important field: vendor_name", "Missing important field: due_date",
    "Missing important field: line_items"],
   clamp01 (scoreOf ⟨1, 2, 0, 1, 3, 0⟩),
   some (levelOf (clamp01 (scoreOf ⟨1, 2, 0, 1, 3, 0⟩)))⟩

/-- A record carrying only the placeholder vendor name. -/
def c8rec : List (String × JVal) := [("vendor_name", .str "N/A")]

/-- A fully valid invoice for the strict validator. -/
def validInvRec : List (String × JVal) :=
  [("document_type", .str "invoice"), ("invoice_number", .str "1"),
   ("invoice_date", .str "2024-01-01"), ("vendor_information", .obj []),
   ("buyer_information", .obj []), ("item_details", .arr [.obj []]),
   ("total_amount", .floatV 1)]

/-- Status invariant of a strict-validator report: the status is one of
pass and fail, and it is fail exactly when an invalid-field entry or a
logical-check entry was recorded. -/
def InvD (st : DRes) : Prop :=
  (st.status = "pass" ∨ st.status = "fail") ∧
    (st.status = "fail" ↔ (st.invalid_fields ≠ [] ∨ st.logical_checks ≠ []))

theorem dictSet_ne_nil {α : Type} (l : List (String × α)) (k : String) (v : α) :
    dictSet l k v ≠ [] := by
  cases l with
  | nil => simp [dictSet]
  | cons kv rest =>
    simp only [dictSet]
    split <;> simp

theorem foldl_dictSet_ne_nil {α : Type} (kvs : List (String × α)) :
    ∀ l : List (String × α), l ≠ [] → kvs.foldl (fun a kv => dictSet a kv.1 kv.2) l ≠ [] := by
  induction kvs with
  | nil => intro l h; simpa using h
  | cons kv rest ih =>
    intro l h
    exact ih (dictSet l kv.1 kv.2) (dictSet_ne_nil l kv.1 kv.2)

theorem dictUpdate_ne_nil_of_right {α : Type} (l kvs : List (String × α)) (h : kvs ≠ []) :
    dictUpdate l kvs ≠ [] := by
  cases kvs with
  | nil => exact absurd rfl h
  | cons kv rest =>
    exact foldl_dictSet_ne_nil rest (dictSet l kv.1 kv.2) (dictSet_ne_nil l kv.1 kv.2)

theorem markInvalid_inv {st : DRes} (k m : String) (_h : InvD st) : InvD (markInvalid st k m) := by
  refine ⟨Or.inr rfl, ?_⟩
  simp [markInvalid, dictSet_ne_nil]

theorem markCheck_inv {st : DRes} (m : String) (_h : InvD st) : InvD (markCheck st m) := by
  refine ⟨Or.inr rfl, ?_⟩
  simp [markCheck]

theorem reqStepInv_inv (r : List (String × JVal)) (st : DRes) (f : String × PyTy) (h : InvD st) :
    InvD (reqStepInv r st f) := by
  unfold reqStepInv
  dsimp only
  repeat' split
  all_goals first | exact h | exact markInvalid_inv _ _ h

theorem optStepInv_inv (r : List (String × JVal)) (st : DRes) (f : String × PyTy) (h : InvD st) :
    InvD (optStepInv r st f) := by
  unfold optStepInv
  dsimp only
  repeat' split
  all_goals first
    | exact h
    | exact markInvalid_inv _ _ h
    | exact markInvalid_inv _ _ (markInvalid_inv _ _ h)

theorem reqStepExp_inv (r : List (String × JVal)) (st : DRes) (f : String × PyTy) (h : InvD st) :
    InvD (reqStepExp r st f) := by
  unfold reqStepExp
  dsimp only
  repeat' split
  all_goals first | exact h | exact markInvalid_inv _ _ h

theorem optStepExp_inv (r : List (String × JVal)) (st : DRes) (f : String × PyTy) (h : InvD st) :
    InvD (optStepExp r st f) := by
  unfold optStepExp
  dsimp only
  repeat' split
  all_goals first
    | exact h
    | exact markInvalid_inv _ _ h
    | exact markInvalid_inv _ _ (markInvalid_inv _ _ h)

theorem foldl_inv {β : Type} (step : DRes → β → DRes)
    (hstep : ∀ st b, InvD st → InvD (step st b)) :
    ∀ (l : List β) (st : DRes), InvD st → InvD (l.foldl step st) := by
  intro l
  induction l with
  | nil => intro st h; exact h
  | cons b rest ih => intro st h; exact ih (step st b) (hstep st b h)

theorem invTotalCheck_inv (r : List (String × JVal)) (st : DRes) (h : InvD st) :
    InvD (invTotalCheck r st) := by
  unfold invTotalCheck
  dsimp only
  repeat' split
  all_goals first | exact h | exact markCheck_inv _ h

theorem expTotalCheck_inv (r : List (String × JVal)) (st : DRes) (h : InvD st) :
    InvD (expTotalCheck r st) := by
  unfold expTotalCheck
  dsimp only
  repeat' split
  all_goals first | exact h | exact markCheck_inv _ h

theorem expPeriodCheck_inv (r : List (String × JVal)) (st : DRes) (h : InvD st) :
    InvD (expPeriodCheck r st) := by
  unfold expPeriodCheck
  dsimp only
  repeat' split
  all_goals first | exact h | exact markCheck_inv _ h

theorem expItemsLoop_inv (items : List JVal) :
    ∀ (st : DRes) (idx : Nat) (rep : DRes), expItemsLoop items st idx = .ok rep →
      InvD st → InvD rep := by
  induction items with
  | nil =>
    intro st idx rep h hst
    simp only [expItemsLoop] at h
    cases h
    exact hst
  | cons it rest ih =>
    intro st idx rep h hst
    cases it with
    | obj fields =>
      simp only [expItemsLoop] at h
      split at h
      · exact ih _ _ _ h (markInvalid_inv _ _ hst)
      · exact ih _ _ _ h hst
    | null => simp [expItemsLoop] at h
    | boolV b => simp [expItemsLoop] at h
    | intV n => simp [expItemsLoop] at h
    | floatV q => simp [expItemsLoop] at h
    | str s => simp [expItemsLoop] at h
    | arr xs => simp [expItemsLoop] at h

theorem init_inv : InvD { status := "pass", invalid_fields := [], logical_checks := [] } := by
  constructor
  · exact Or.inl rfl
  · simp

theorem st1_inv (empty : List (String × String)) :
    InvD (if empty.isEmpty then { status := "pass", invalid_fields := [], logical_checks := [] }
          else { status := "fail", invalid_fields := dictUpdate [] empty, logical_checks := [] }) := by
  split
  · exact init_inv
  · next hne =>
    refine ⟨Or.inr rfl, ?_⟩
    constructor
    · intro _
      refine Or.inl ?_
      apply dictUpdate_ne_nil_of_right
      intro hnil
      exact hne (by simp [hnil])
    · intro _; rfl

theorem validate_invoice_inv (r : List (String × JVal)) : InvD (validate_invoice r) := by
  unfold validate_invoice
  dsimp only
  apply invTotalCheck_inv
  apply foldl_inv _ (optStepInv_inv r)
  apply foldl_inv _ (reqStepInv_inv r)
  exact st1_inv _

theorem validate_expense_inv (r : List (String × JVal)) (rep : DRes)
    (h : validate_expense r = .ok rep) : InvD rep := by
  unfold validate_expense at h
  dsimp only at h
  split at h
  · refine expItemsLoop_inv _ _ _ _ h ?_
    apply expPeriodCheck_inv
    apply expTotalCheck_inv
    apply foldl_inv _ (optStepExp_inv r)
    apply foldl_inv _ (reqStepExp_inv r)
    exact st1_inv _
  · cases h
    apply expPeriodCheck_inv
    apply expTotalCheck_inv
    apply foldl_inv _ (optStepExp_inv r)
    apply foldl_inv _ (reqStepExp_inv r)
    exact st1_inv _

/-- C10: for every mapping input on which the strict validator returns a
report, the report status is fail exactly when the invalid_fields mapping
or the logical_checks sequence is non-empty, and is pass otherwise. -/
theorem strict_status_iff_nonempty (r : List (String × JVal)) (rep : DRes)
    (h : validate_document r = .ok rep) :
    (rep.status = "fail" ↔ (rep.invalid_fields ≠ [] ∨ rep.logical_checks ≠ [])) ∧
      (rep.status ≠ "fail" → rep.status = "pass") := by
  have hinv : InvD rep := by
    unfold validate_document at h
    split at h
    · split at h
      · cases h
        exact validate_invoice_inv r
      · split at h
        · exact validate_expense_inv r rep h
        · cases h
          refine ⟨Or.inr rfl, ?_⟩
          simp
    · cases h
  refine ⟨hinv.2, ?_⟩
  intro hne
  rcases hinv.1 with hp | hf
  · exact hp
  · exact absurd hf hne

/-- Witness for C10 at a concrete valid invoice. -/
theorem strict_status_iff_nonempty_witness :
    validate_document validInvRec = .ok ⟨"pass", [], []⟩ ∧
      (("pass" : String) = "fail" ↔ ((([] : List (String × String)) ≠ []) ∨ (([] : List String) ≠ []))) := by
  have h : validate_document validInvRec = .ok ⟨"pass", [], []⟩ := by decide
  refine ⟨h, ?_⟩
  have h2 := (strict_status_iff_nonempty validInvRec ⟨"pass", [], []⟩ h).1
  exact h2

/-- C6 counterexample: a record whose document_type is the integer 1 is
neither invoice nor expense_report, yet the strict validator raises
AttributeError instead of returning the unknown-document_type report. -/
theorem unknown_doctype_counterexample :
    validate_document [("document_type", JVal.intV 1)] = .error .attributeError := by decide

/-- C6 amended: for every record whose document_type is missing or is a
string that case-insensitively is neither invoice nor expense_report,
the strict validator returns status fail with exactly the single entry
document_type mapped to "Unknown or missing document_type" and no
logical checks. -/
theorem unknown_doctype_report (r : List (String × JVal))
    (h : getField r "document_type" = none ∨
      ∃ s, getField r "document_type" = some (.str s) ∧
        pyLower s ≠ "invoice" ∧ pyLower s ≠ "expense_report") :
    validate_document r =
      .ok { status := "fail",
            invalid_fields := [("document_type", "Unknown or missing document_type")],
            logical_checks := [] } := by
  unfold validate_document
  rcases h with h | ⟨s, hs, h1, h2⟩
  · rw [h]
    simp [pyLower]
  · rw [hs]
    simp only [Option.getD_some]
    rw [if_neg h1, if_neg h2]

/-- Witness for the amended C6 at a concrete record. -/
theorem unknown_doctype_report_witness :
    validate_document [("document_type", JVal.str "receipt")] =
      .ok { status := "fail",
            invalid_fields := [("document_type", "Unknown or missing document_type")],
            logical_checks := [] } :=
  unknown_doctype_report _ (Or.inr ⟨"receipt", rfl, by decide, by decide⟩)

theorem reqStepInv_checks (r : List (String × JVal)) (st : DRes) (f : String × PyTy) :
    (reqStepInv r st f).logical_checks = st.logical_checks := by
  unfold reqStepInv
  dsimp only
  repeat' split
  all_goals simp [markInvalid]

theorem optStepInv_checks (r : List (String × JVal)) (st : DRes) (f : String × PyTy) :
    (optStepInv r st f).logical_checks = st.logical_checks := by
  unfold optStepInv
  dsimp only
  repeat' split
  all_goals simp [markInvalid]

theorem reqStepExp_checks (r : List (String × JVal)) (st : DRes) (f : String × PyTy) :
    (reqStepExp r st f).logical_checks = st.logical_checks := by
  unfold reqStepExp
  dsimp only
  repeat' split
  all_goals simp [markInvalid]

theorem optStepExp_checks (r : List (String × JVal)) (st : DRes) (f : String × PyTy) :
    (optStepExp r st f).logical_checks = st.logical_checks := by
  unfold optStepExp
  dsimp only
  repeat' split
  all_goals simp [markInvalid]

theorem foldl_checks {β : Type} (step : DRes → β → DRes)
    (hstep : ∀ st b, (step st b).logical_checks = st.logical_checks) :
    ∀ (l : List β) (st : DRes), (l.foldl step st).logical_checks = st.logical_checks := by
  intro l
  induction l with
  | nil => intro st; rfl
  | cons b rest ih => intro st; rw [List.foldl_cons, ih, hstep]

theorem invTotalCheck_checks (r : List (String × JVal)) (st : DRes) :
    (invTotalCheck r st).logical_checks = st.logical_checks ++ invTotalMsgs r := by
  unfold invTotalCheck invTotalMsgs
  dsimp only
  repeat' split
  all_goals simp_all [markCheck]

theorem expTotalCheck_checks (r : List (String × JVal)) (st : DRes) :
    (expTotalCheck r st).logical_checks = st.logical_checks ++ expTotalMsgs r := by
  unfold expTotalCheck expTotalMsgs
  dsimp only
  repeat' split
  all_goals simp_all [markCheck]

theorem expPeriodCheck_checks (r : List (String × JVal)) (st : DRes) :
    (expPeriodCheck r st).logical_checks = st.logical_checks ++ expPeriodMsgs r := by
  unfold expPeriodCheck expPeriodMsgs
  dsimp only
  repeat' split
  all_goals simp_all [markCheck]

theorem expItemsLoop_checks (items : List JVal) :
    ∀ (st : DRes) (idx : Nat) (rep : DRes), expItemsLoop items st idx = .ok rep →
      rep.logical_checks = st.logical_checks := by
  induction items with
  | nil =>
    intro st idx rep h
    simp only [expItemsLoop] at h
    cases h
    rfl
  | cons it rest ih =>
    intro st idx rep h
    cases it with
    | obj fields =>
      simp only [expItemsLoop] at h
      split at h
      · rw [ih _ _ _ h]
        simp [markInvalid]
      · exact ih _ _ _ h
    | null => simp [expItemsLoop] at h
    | boolV b => simp [expItemsLoop] at h
    | intV n => simp [expItemsLoop] at h
    | floatV q => simp [expItemsLoop] at h
    | str s => simp [expItemsLoop] at h
    | arr xs => simp [expItemsLoop] at h

theorem validate_invoice_checks (r : List (String × JVal)) :
    (validate_invoice r).logical_checks = invTotalMsgs r := by
  unfold validate_invoice
  dsimp only
  rw [invTotalCheck_checks]
  rw [foldl_checks _ (optStepInv_checks r), foldl_checks _ (reqStepInv_checks r)]
  split <;> simp

theorem validate_expense_checks (r : List (String × JVal)) (rep : DRes)
    (h : validate_expense r = .ok rep) :
    rep.logical_checks = expTotalMsgs r ++ expPeriodMsgs r := by
  unfold validate_expense at h
  dsimp only at h
  have base : ∀ st : DRes,
      (expPeriodCheck r (expTotalCheck r
        (EXPENSE_OPTIONAL_FIELDS.foldl (optStepExp r)
          (EXPENSE_REQUIRED_FIELDS.foldl (reqStepExp r) st)))).logical_checks =
        st.logical_checks ++ (expTotalMsgs r ++ expPeriodMsgs r) := by
    intro st
    rw [expPeriodCheck_checks, expTotalCheck_checks,
      foldl_checks _ (optStepExp_checks r), foldl_checks _ (reqStepExp_checks r), List.append_assoc]
  split at h
  · rw [expItemsLoop_checks _ _ _ _ h, base]
    split <;> simp
  · cases h
    rw [base]
    split <;> simp

theorem foldl_req_spec (r : List (String × JVal)) :
    ∀ (fs : List String) (st : VSt),
      fs.foldl (reqStepN r) st =
        { valid := st.valid && (fs.filterMap (reqErrFor r)).isEmpty,
          errors := st.errors ++ fs.filterMap (reqErrFor r),
          warnings := st.warnings,
          m := { st.m with
                  reqPresent := st.m.reqPresent + fs.countP (fun f => hasNonNull r f)
                  fieldsWith := st.m.fieldsWith + fs.countP (fun f => hasNonNull r f) } } := by
  intro fs
  induction fs with
  | nil => intro st; simp
  | cons f fs ih =>
    intro st
    rw [List.foldl_cons, ih]
    by_cases hc : hasNonNull r f = true
    · simp [reqStepN, hc, reqErrFor, List.filterMap_cons, List.countP_cons, VSt.mk.injEq,
        VMetrics.mk.injEq]
      omega
    · simp [reqStepN, hc, reqErrFor, List.filterMap_cons, List.countP_cons, addErrN,
        VSt.mk.injEq, VMetrics.mk.injEq]

theorem foldl_imp_spec (r : List (String × JVal)) :
    ∀ (fs : List String) (st : VSt),
      fs.foldl (impStepN r) st =
        { valid := st.valid,
          errors := st.errors,
          warnings := st.warnings ++ fs.filterMap (impWarnFor r),
          m := { st.m with
                  impPresent := st.m.impPresent + fs.countP (fun f => hasNonNull r f)
                  fieldsWith := st.m.fieldsWith + fs.countP (fun f => hasNonNull r f) } } := by
  intro fs
  induction fs with
  | nil => intro st; simp
  | cons f fs ih =>
    intro st
    rw [List.foldl_cons, ih]
    by_cases hc : hasNonNull r f = true
    · simp [impStepN, hc, impWarnFor, List.filterMap_cons, List.countP_cons, VSt.mk.injEq,
        VMetrics.mk.injEq]
      omega
    · simp [impStepN, hc, impWarnFor, List.filterMap_cons, List.countP_cons, VSt.mk.injEq,
        VMetrics.mk.injEq]

theorem foldl_extra_spec :
    ∀ (kvs : List (String × JVal)) (st : VSt),
      kvs.foldl extraStepN st =
        { valid := st.valid,
          errors := st.errors,
          warnings := st.warnings,
          m := { st.m with fieldsWith := st.m.fieldsWith + kvs.countP extraPred } } := by
  intro kvs
  induction kvs with
  | nil => intro st; simp
  | cons kv kvs ih =>
    intro st
    rw [List.foldl_cons, ih]
    unfold extraStepN
    by_cases hc : extraPred kv = true
    · rw [if_pos hc]
      simp [List.countP_cons, hc, VSt.mk.injEq, VMetrics.mk.injEq]
      omega
    · rw [if_neg hc]
      simp [List.countP_cons, hc, VSt.mk.injEq, VMetrics.mk.injEq]

theorem typeStepN_spec (r : List (String × JVal)) (st : VSt) (ft : String × String) :
    typeStepN r st ft =
      { valid := st.valid && (typeErrFor r ft).isNone,
        errors := st.errors ++ (typeErrFor r ft).toList,
        warnings := st.warnings ++ (typeWarnFor r ft).toList,
        m := { st.m with suspicious := st.m.suspicious + (if suspiciousHit r ft then 1 else 0) } } := by
  unfold typeStepN typeErrFor typeWarnFor suspiciousHit
  by_cases hp : placeholderFieldsN.contains ft.1 = true
  all_goals
    first
      | (have hp2 : ft.1 ∈ placeholderFieldsN := by simpa using hp)
      | (have hp2 : ft.1 ∉ placeholderFieldsN := by simpa using hp)
  all_goals by_cases hn : hasNonNull r ft.1 = true
  all_goals
    cases he : typeErrMsg ft.1 ft.2 ((getField r ft.1).getD .null) <;>
    cases hw : phWarnMsg ft.1 ((getField r ft.1).getD .null) <;>
    simp [hn, hp, hp2, he, hw, addErrN, VSt.mk.injEq, VMetrics.mk.injEq]

theorem foldl_type_spec (r : List (String × JVal)) :
    ∀ (fts : List (String × String)) (st : VSt),
      fts.foldl (typeStepN r) st =
        { valid := st.valid && (fts.filterMap (typeErrFor r)).isEmpty,
          errors := st.errors ++ fts.filterMap (typeErrFor r),
          warnings := st.warnings ++ fts.filterMap (typeWarnFor r),
          m := { st.m with suspicious := st.m.suspicious + fts.countP (suspiciousHit r) } } := by
  intro fts
  induction fts with
  | nil => intro st; simp
  | cons ft fts ih =>
    intro st
    rw [List.foldl_cons, ih, typeStepN_spec]
    cases he : typeErrFor r ft with
    | none =>
      cases hw : typeWarnFor r ft with
      | none =>
        simp [he, hw, List.filterMap_cons, List.countP_cons, VSt.mk.injEq, VMetrics.mk.injEq]
        omega
      | some w =>
        simp [he, hw, List.filterMap_cons, List.countP_cons, VSt.mk.injEq, VMetrics.mk.injEq]
        omega
    | some m =>
      cases hw : typeWarnFor r ft with
      | none =>
        simp [he, hw, List.filterMap_cons, List.countP_cons, VSt.mk.injEq, VMetrics.mk.injEq]
        omega
      | some w =>
        simp [he, hw, List.filterMap_cons, List.countP_cons, VSt.mk.injEq, VMetrics.mk.injEq]
        omega

theorem isEmptyAppend {α : Type} (a b : List α) : (a ++ b).isEmpty = (a.isEmpty && b.isEmpty) := by
  cases a <;> simp

theorem bindE_ok {α β : Type} (x : Except PyErr α) (f : α → Except PyErr β) (b : β)
    (h : bindE x f = .ok b) : ∃ a, x = .ok a ∧ f a = .ok b := by
  cases x with
  | error e => exact absurd h (by simp [bindE])
  | ok a => exact ⟨a, rfl, h⟩

theorem consGo_ok_spec (r : List (String × JVal)) :
    ∀ (fs : List String) (st st' : VSt), consGo r fs st = .ok st' →
      st' = { valid := st.valid && (fs.filterMap (consErrFor r)).isEmpty,
              errors := st.errors ++ fs.filterMap (consErrFor r),
              warnings := st.warnings,
              m := st.m } := by
  intro fs
  induction fs with
  | nil =>
    intro st st' h
    simp only [consGo] at h
    cases h
    simp
  | cons f fs ih =>
    intro st st' h
    simp only [consGo, consStepN] at h
    by_cases hn : hasNonNull r f = true
    · rw [if_pos hn] at h
      cases hv : pyNumVal ((getField r f).getD .null) with
      | none =>
        rw [hv] at h
        exact absurd h (by simp)
      | some q =>
        rw [hv] at h
        dsimp only at h
        by_cases hq : q < 0
        · rw [if_pos hq] at h
          dsimp only at h
          have := ih _ _ h
          subst this
          simp [addErrN, consErrFor, hn, hv, hq, List.filterMap_cons, VSt.mk.injEq]
        · rw [if_neg hq] at h
          dsimp only at h
          have := ih _ _ h
          subst this
          simp [consErrFor, hn, hv, hq, List.filterMap_cons, VSt.mk.injEq]
    · rw [if_neg hn] at h
      dsimp only at h
      have := ih _ _ h
      subst this
      simp [consErrFor, hn, List.filterMap_cons, VSt.mk.injEq]

theorem logGo_ok_spec (r : List (String × JVal)) :
    ∀ (cs : List LCheck) (st st' : VSt), logGo r cs st = .ok st' →
      (st' = { valid := st.valid && (cs.filterMap (logErrFor r)).isEmpty,
               errors := st.errors ++ cs.filterMap (logErrFor r),
               warnings := st.warnings,
               m := { st.m with
                       logTotal := st.m.logTotal + cs.countP (applicableCheck r)
                       logValid := st.m.logValid +
                         cs.countP (fun c => applicableCheck r c && decide (runCheckN r c = .ok true)) } }) ∧
      (∀ c ∈ cs, applicableCheck r c = true → ∃ b, runCheckN r c = .ok b) := by
  intro cs
  induction cs with
  | nil =>
    intro st st' h
    simp only [logGo] at h
    cases h
    refine ⟨by simp, by simp⟩
  | cons c cs ih =>
    intro st st' h
    simp only [logGo, logStepN] at h
    have happ : (c.fields.all (hasNonNull r)) = applicableCheck r c := rfl
    rw [happ] at h
    by_cases ha : applicableCheck r c = true
    · rw [if_pos ha] at h
      cases hrc : runCheckN r c with
      | error e =>
        rw [hrc] at h
        exact absurd h (by simp)
      | ok b =>
        rw [hrc] at h
        dsimp only at h
        cases b with
        | true =>
          rw [if_pos rfl] at h
          obtain ⟨hst, hrest⟩ := ih _ _ h
          subst hst
          refine ⟨?_, ?_⟩
          · simp [logErrFor, ha, hrc, List.filterMap_cons, List.countP_cons,
              VSt.mk.injEq, VMetrics.mk.injEq]
            omega
          · intro c' hc' ha'
            rcases List.mem_cons.mp hc' with hc' | hc'
            · exact ⟨true, by rw [hc', hrc]⟩
            · exact hrest c' hc' ha'
        | false =>
          rw [if_neg (by simp)] at h
          obtain ⟨hst, hrest⟩ := ih _ _ h
          subst hst
          refine ⟨?_, ?_⟩
          · simp [logErrFor, ha, hrc, addErrN, List.filterMap_cons, List.countP_cons,
              VSt.mk.injEq, VMetrics.mk.injEq]
            omega
          · intro c' hc' ha'
            rcases List.mem_cons.mp hc' with hc' | hc'
            · exact ⟨false, by rw [hc', hrc]⟩
            · exact hrest c' hc' ha'
    · rw [if_neg ha] at h
      obtain ⟨hst, hrest⟩ := ih _ _ h
      subst hst
      refine ⟨?_, ?_⟩
      · simp [logErrFor, ha, List.filterMap_cons, List.countP_cons, VSt.mk.injEq, VMetrics.mk.injEq]
      · intro c' hc' ha'
        rcases List.mem_cons.mp hc' with hc' | hc'
        · rw [hc'] at ha'
          exact absurd ha' ha
        · exact hrest c' hc' ha'

/-- Full characterization of a successful run of the confidence-scoring
validator on a mapping: the report lists the declaratively-computed
errors and warnings in order, validity is emptiness of the errors, and
the confidence is the clamped weighted score of the declarative metric
counts; moreover every applicable logical check evaluated without an
exception. -/
theorem vid_ok_spec (r : List (String × JVal)) (rep : VRes)
    (h : validate_invoice_data (.obj r) = .ok rep) :
    rep.errors = allErrsL r ∧
    rep.warnings = allWarnsL r ∧
    rep.valid = (allErrsL r).isEmpty ∧
    rep.confidence = clamp01 (scoreOf (declaredMetrics r)) ∧
    rep.confidence_level = some (levelOf (clamp01 (scoreOf (declaredMetrics r)))) ∧
    (∀ c ∈ logicalChecksN, applicableCheck r c = true → ∃ b, runCheckN r c = .ok b) := by
  unfold validate_invoice_data at h
  dsimp only at h
  rw [foldl_req_spec, foldl_imp_spec, foldl_extra_spec, foldl_type_spec] at h
  obtain ⟨st5, hcons, h⟩ := bindE_ok _ _ _ h
  obtain ⟨st6, hlog, h⟩ := bindE_ok _ _ _ h
  have h5 := consGo_ok_spec r _ _ _ hcons
  obtain ⟨h6, hruns⟩ := logGo_ok_spec r _ _ _ hlog
  have hrep : rep = ⟨st6.valid, st6.errors, st6.warnings, clamp01 (scoreOf st6.m),
      some (levelOf (clamp01 (scoreOf st6.m)))⟩ := by
    cases h
    rfl
  subst hrep
  subst h6
  subst h5
  refine ⟨?_, ?_, ?_, ?_, ?_, hruns⟩
  · simp [allErrsL, reqMsgsL, typeErrsL, consErrsL, logErrsL, List.append_assoc]
  · simp [allWarnsL, impWarnsL, typeWarnsL]
  · simp [allErrsL, reqMsgsL, typeErrsL, consErrsL, logErrsL, isEmptyAppend,
      Bool.and_assoc]
  · simp [declaredMetrics, reqPresentCount, impPresentCount, fieldsWithCount, extraCount,
      suspiciousCount, logTotalCount, logValidCount]
  · simp [declaredMetrics, reqPresentCount, impPresentCount, fieldsWithCount, extraCount,
      suspiciousCount, logTotalCount, logValidCount]

theorem mem_reqMsgsL_cases (r : List (String × JVal)) (m : String) (h : m ∈ reqMsgsL r) :
    m = "Missing required field: invoice_number" ∨ m = "Missing required field: invoice_date" ∨
      m = "Missing required field: total_amount" := by
  obtain ⟨f, hf, hq⟩ := List.mem_filterMap.mp h
  fin_cases hf <;> simp only [reqErrFor] at hq <;> split at hq <;> simp_all

theorem typeErrMsg_eqs (f ty : String) (v : JVal) (m : String) (h : typeErrMsg f ty v = some m) :
    m = "Field \"" ++ f ++ "\" must be a string" ∨
    m = "Field \"" ++ f ++ "\" must be a number" ∨
    m = "Field \"" ++ f ++ "\" must be an array" ∨
    m = "Field \"" ++ f ++ "\" has invalid date format. Expected: YYYY-MM-DD" ∨
    m = "Field \"" ++ f ++ "\" contains an invalid date" ∨
    m = "Field \"" ++ f ++ "\" must be a date string" := by
  unfold typeErrMsg at h
  repeat' split at h
  all_goals simp_all

theorem consErrFor_eqs (r : List (String × JVal)) (f : String) (m : String)
    (h : consErrFor r f = some m) : m = "Field \"" ++ f ++ "\" must be at least 0" := by
  unfold consErrFor at h
  repeat' split at h
  all_goals simp_all

theorem logErrFor_eqs (r : List (String × JVal)) (c : LCheck) (m : String)
    (h : logErrFor r c = some m) :
    m = c.msg ∧ applicableCheck r c = true ∧ runCheckN r c = .ok false := by
  unfold logErrFor at h
  split at h
  · cases h
    exact ⟨rfl, by tauto, by tauto⟩
  · cases h

theorem mem_logErrsL_dates (r : List (String × JVal)) :
    ("Due date must be on or after invoice date" ∈ logErrsL r) ↔
      (applicableCheck r ⟨"dates_chronology", ["invoice_date", "due_date"],
          "Due date must be on or after invoice date"⟩ = true ∧
        runCheckN r ⟨"dates_chronology", ["invoice_date", "due_date"],
          "Due date must be on or after invoice date"⟩ = .ok false) := by
  constructor
  · intro h
    obtain ⟨c, hc, hq⟩ := List.mem_filterMap.mp h
    have := logErrFor_eqs r c _ hq
    fin_cases hc
    · exact ⟨this.2.1, this.2.2⟩
    · exact absurd this.1 (by decide)
    · exact absurd this.1 (by decide)
  · intro ⟨ha, hrc⟩
    refine List.mem_filterMap.mpr ⟨⟨"dates_chronology", ["invoice_date", "due_date"],
      "Due date must be on or after invoice date"⟩, by simp [logicalChecksN], ?_⟩
    simp [logErrFor, ha, hrc]

theorem mem_logErrsL_amount (r : List (String × JVal)) :
    ("Total amount should equal subtotal plus tax amount" ∈ logErrsL r) ↔
      (applicableCheck r ⟨"amount_calculation", ["subtotal", "tax_amount", "total_amount"],
          "Total amount should equal subtotal plus tax amount"⟩ = true ∧
        runCheckN r ⟨"amount_calculation", ["subtotal", "tax_amount", "total_amount"],
          "Total amount should equal subtotal plus tax amount"⟩ = .ok false) := by
  constructor
  · intro h
    obtain ⟨c, hc, hq⟩ := List.mem_filterMap.mp h
    have := logErrFor_eqs r c _ hq
    fin_cases hc
    · exact absurd this.1 (by decide)
    · exact ⟨this.2.1, this.2.2⟩
    · exact absurd this.1 (by decide)
  · intro ⟨ha, hrc⟩
    refine List.mem_filterMap.mpr ⟨⟨"amount_calculation", ["subtotal", "tax_amount", "total_amount"],
      "Total amount should equal subtotal plus tax amount"⟩, by simp [logicalChecksN], ?_⟩
    simp [logErrFor, ha, hrc]

/-- C5: on every mapping input on which the confidence validator returns
a report, the returned confidence equals the blended formula
0.5 required + 0.2 important + 0.2 logical + 0.1 min(1, completeness)
minus 0.1 per suspicious value capped at 5, clamped to the unit
interval, with a vacuous logical component scoring 1. -/
theorem confidence_formula_spec (r : List (String × JVal)) (rep : VRes)
    (h : validate_invoice_data (.obj r) = .ok rep) :
    rep.confidence = confFormula r := by
  have hs := (vid_ok_spec r rep h).2.2.2.1
  rw [hs]
  unfold confFormula scoreOf declaredMetrics logScoreQ
  norm_num [requiredFieldsN, importantFieldsN]

/-- Witness for C5 at the empty record. -/
theorem confidence_formula_spec_witness :
    (validate_invoice_data (.obj ([] : List (String × JVal)))).map (fun rep => rep.confidence) =
      .ok (confFormula []) := by
  have h : validate_invoice_data (.obj ([] : List (String × JVal))) =
      .ok ⟨false,
        ["Missing required field: invoice_number", "Missing required field: invoice_date",
         "Missing required field: total_amount"],
        ["Missing important field: vendor_name", "Missing important field: due_date",
         "Missing important field: subtotal", "Missing important field: tax_amount",
         "Missing important field: line_items"],
        clamp01 (scoreOf ⟨0, 0, 0, 0, 0, 0⟩),
        some (levelOf (clamp01 (scoreOf ⟨0, 0, 0, 0, 0, 0⟩)))⟩ := rfl
  have h2 := confidence_formula_spec [] _ h
  rw [h]
  simp only [Except.map]
  exact congrArg Except.ok h2

/-- C2 counterexample: the empty record has every required field absent,
yet the confidence validator returns confidence 0.2, not 0.0. -/
theorem missing_all_required_counterexample :
    (validate_invoice_data (.obj ([] : List (String × JVal)))).map (fun rep => rep.confidence) =
        .ok (1/5 : ℚ) ∧
      ((1 : ℚ)/5 ≠ 0) ∧
      (∀ f ∈ requiredFieldsN, hasNonNull ([] : List (String × JVal)) f = false) := by
  refine ⟨?_, by norm_num, by decide⟩
  have h : validate_invoice_data (.obj ([] : List (String × JVal))) =
      .ok ⟨false,
        ["Missing required field: invoice_number", "Missing required field: invoice_date",
         "Missing required field: total_amount"],
        ["Missing important field: vendor_name", "Missing important field: due_date",
         "Missing important field: subtotal", "Missing important field: tax_amount",
         "Missing important field: line_items"],
        clamp01 (scoreOf ⟨0, 0, 0, 0, 0, 0⟩),
        some (levelOf (clamp01 (scoreOf ⟨0, 0, 0, 0, 0, 0⟩)))⟩ := rfl
  rw [h]
  simp only [Except.map]
  have : clamp01 (scoreOf ⟨0, 0, 0, 0, 0, 0⟩) = 1/5 := by
    unfold clamp01 scoreOf
    norm_num [requiredFieldsN, importantFieldsN]
  rw [this]

/-- C2 amended: for every record in which every required field is absent
or None and on which the validator returns, the report is invalid and the
confidence is at most 0.5, so the confidence level is Low or Very Low
(the empty record concretely gets 0.2 and Very Low, not the 0.0 the
specification promises). -/
theorem all_required_missing_caps_confidence (r : List (String × JVal)) (rep : VRes)
    (hmiss : ∀ f ∈ requiredFieldsN, hasNonNull r f = false)
    (h : validate_invoice_data (.obj r) = .ok rep) :
    rep.valid = false ∧ rep.confidence ≤ 1/2 ∧
      (rep.confidence_level = some "Low" ∨ rep.confidence_level = some "Very Low") := by
  obtain ⟨herr, _hw, hval, hconf, hlev, _hrun⟩ := vid_ok_spec r rep h
  have h1 := hmiss "invoice_number" (by decide)
  have h2 := hmiss "invoice_date" (by decide)
  have h3 := hmiss "total_amount" (by decide)
  have hreq : reqMsgsL r =
      ["Missing required field: invoice_number", "Missing required field: invoice_date",
       "Missing required field: total_amount"] := by
    simp [reqMsgsL, requiredFieldsN, reqErrFor, h1, h2, h3]
  have hvalid : rep.valid = false := by
    rw [hval, allErrsL, hreq]
    simp
  have hreqcount : reqPresentCount r = 0 := by
    simp [reqPresentCount, requiredFieldsN, h1, h2, h3]
  have hscore : scoreOf (declaredMetrics r) ≤ 1/2 := by
    have himp : ((impPresentCount r : ℚ)) ≤ 5 := by
      have hle := List.countP_le_length (l := importantFieldsN) (p := fun f => hasNonNull r f)
      have h5 : importantFieldsN.length = 5 := by decide
      rw [h5] at hle
      exact_mod_cast hle
    have hmono : (logValidCount r : ℚ) ≤ (logTotalCount r : ℚ) := by
      have hm : logValidCount r ≤ logTotalCount r := by
        apply List.countP_mono_left
        intro c _ hc
        exact (Bool.and_elim_left hc)
      exact_mod_cast hm
    have hmin : min (1 : ℚ) ((fieldsWithCount r : ℚ) / 10) ≤ 1 := min_le_left _ _
    have hpen : (0 : ℚ) ≤ (min ((suspiciousCount r : ℚ)) 5) := le_min (by positivity) (by norm_num)
    unfold scoreOf declaredMetrics
    dsimp only
    simp only [hreqcount]
    simp only [requiredFieldsN, importantFieldsN, List.length_cons, List.length_nil]
    norm_num
    split
    · next hpos =>
      have hposq : (0 : ℚ) < (logTotalCount r : ℚ) := by exact_mod_cast hpos
      have hdiv : (logValidCount r : ℚ) / (logTotalCount r : ℚ) ≤ 1 := by
        rw [div_le_one hposq]
        exact hmono
      linarith
    · linarith
  have hcap : rep.confidence ≤ 1/2 := by
    rw [hconf]
    unfold clamp01
    apply max_le (by norm_num)
    exact le_trans (min_le_right _ _) hscore
  refine ⟨hvalid, hcap, ?_⟩
  rw [hlev]
  have hcle : clamp01 (scoreOf (declaredMetrics r)) ≤ 1/2 := by
    unfold clamp01
    apply max_le (by norm_num)
    exact le_trans (min_le_right _ _) hscore
  unfold levelOf
  split
  · next hge => exfalso; linarith
  · split
    · next hge => exfalso; linarith
    · split
      · exact Or.inl rfl
      · exact Or.inr rfl

/-- Witness for the amended C2 at the empty record. -/
theorem all_required_missing_caps_confidence_witness :
    (false = false) ∧ clamp01 (scoreOf ⟨0, 0, 0, 0, 0, 0⟩) ≤ 1/2 ∧
      ((some (levelOf (clamp01 (scoreOf ⟨0, 0, 0, 0, 0, 0⟩))) = some "Low") ∨
        (some (levelOf (clamp01 (scoreOf ⟨0, 0, 0, 0, 0, 0⟩))) = some "Very Low")) := by
  have h : validate_invoice_data (.obj ([] : List (String × JVal))) =
      .ok ⟨false,
        ["Missing required field: invoice_number", "Missing required field: invoice_date",
         "Missing required field: total_amount"],
        ["Missing important field: vendor_name", "Missing important field: due_date",
         "Missing important field: subtotal", "Missing important field: tax_amount",
         "Missing important field: line_items"],
        clamp01 (scoreOf ⟨0, 0, 0, 0, 0, 0⟩),
        some (levelOf (clamp01 (scoreOf ⟨0, 0, 0, 0, 0, 0⟩)))⟩ := rfl
  exact all_required_missing_caps_confidence [] _ (by decide) h

/-- C9: a non-mapping input yields a report with valid false, one error,
confidence 0 and no confidence_level entry, while every report returned
for a mapping input carries a confidence_level entry. -/
theorem confidence_level_presence :
    (∀ v : JVal, (∀ r, v ≠ .obj r) →
      validate_invoice_data v =
        .ok ⟨false, ["Invalid invoice data: must be a JSON object"], [], 0, none⟩) ∧
    (∀ (r : List (String × JVal)) (rep : VRes),
      validate_invoice_data (.obj r) = .ok rep → rep.confidence_level ≠ none) := by
  constructor
  · intro v hv
    cases v with
    | obj r => exact absurd rfl (hv r)
    | null => rfl
    | boolV b => rfl
    | intV n => rfl
    | floatV q => rfl
    | str s => rfl
    | arr xs => rfl
  · intro r rep h
    have := (vid_ok_spec r rep h).2.2.2.2.1
    rw [this]
    simp

/-- Witness for C9 at the None input and the empty record. -/
theorem confidence_level_presence_witness :
    validate_invoice_data .null =
        .ok ⟨false, ["Invalid invoice data: must be a JSON object"], [], 0, none⟩ ∧
      (some (levelOf (clamp01 (scoreOf ⟨0, 0, 0, 0, 0, 0⟩))) : Option String) ≠ none := by
  constructor
  · exact confidence_level_presence.1 .null (by intro r h; cases h)
  · exact confidence_level_presence.2 []
      ⟨false,
        ["Missing required field: invoice_number", "Missing required field: invoice_date",
         "Missing required field: total_amount"],
        ["Missing important field: vendor_name", "Missing important field: due_date",
         "Missing important field: subtotal", "Missing important field: tax_amount",
         "Missing important field: line_items"],
        clamp01 (scoreOf ⟨0, 0, 0, 0, 0, 0⟩),
        some (levelOf (clamp01 (scoreOf ⟨0, 0, 0, 0, 0, 0⟩)))⟩ rfl

theorem typeErrFor_some (r : List (String × JVal)) (ft : String × String) (m : String)
    (h : typeErrFor r ft = some m) :
    typeErrMsg ft.1 ft.2 ((getField r ft.1).getD .null) = some m := by
  unfold typeErrFor at h
  by_cases hb : hasNonNull r ft.1 = true
  · rwa [if_pos hb] at h
  · rw [if_neg hb] at h
    exact absurd h (by simp)

/-- C8: a record carrying the placeholder vendor_name "N/A" gets no
vendor_name type error, does get the suspicious-placeholder warning, and
its confidence carries the 0.1-per-occurrence penalty capped at five
occurrences (through the clamped blended formula). -/
theorem vendor_placeholder_effects (r : List (String × JVal)) (rep : VRes)
    (hv : getField r "vendor_name" = some (.str "N/A"))
    (h : validate_invoice_data (.obj r) = .ok rep) :
    ("Field \"vendor_name\" must be a string" ∉ rep.errors) ∧
    ("Field \"vendor_name\" appears to contain a placeholder value: \"N/A\"" ∈ rep.warnings) ∧
    1 ≤ suspiciousCount r ∧
    rep.confidence = confFormula r := by
  obtain ⟨herr, hw, _hval, hconf, _hlev, _hrun⟩ := vid_ok_spec r rep h
  have hnn : hasNonNull r "vendor_name" = true := by
    simp [hasNonNull, hv, isNullV]
  refine ⟨?_, ?_, ?_, ?_⟩
  · rw [herr]
    intro hmem
    rcases List.mem_append.mp hmem with hmem | hmem
    rcases List.mem_append.mp hmem with hmem | hmem
    rcases List.mem_append.mp hmem with hmem | hmem
    · rcases mem_reqMsgsL_cases r _ hmem with hq | hq | hq <;> exact absurd hq (by decide)
    · obtain ⟨ft, hft, heq⟩ := List.mem_filterMap.mp hmem
      fin_cases hft
      all_goals have heq2 := typeErrFor_some r _ _ heq
      all_goals try dsimp only at heq2
      all_goals
        first
          | (rw [show (getField r "vendor_name").getD JVal.null = .str "N/A" from by rw [hv]; rfl] at heq2
             exact absurd heq2 (by decide))
          | (rcases typeErrMsg_eqs _ _ _ _ heq2 with hq | hq | hq | hq | hq | hq <;> simp_all)
    · obtain ⟨f, hf, heq⟩ := List.mem_filterMap.mp hmem
      have := consErrFor_eqs r f _ heq
      fin_cases hf <;> simp_all
    · obtain ⟨c, hc, heq⟩ := List.mem_filterMap.mp hmem
      have := (logErrFor_eqs r c _ heq).1
      fin_cases hc <;> simp_all
  · rw [hw]
    refine List.mem_append.mpr (Or.inr ?_)
    refine List.mem_filterMap.mpr ⟨("vendor_name", "string"), by simp [fieldTypesN], ?_⟩
    unfold typeWarnFor
    rw [if_pos (by rw [hnn]; rfl)]
    rw [show (getField r "vendor_name").getD JVal.null = .str "N/A" from by rw [hv]; rfl]
    decide
  · have hhit : suspiciousHit r ("vendor_name", "string") = true := by
      unfold suspiciousHit
      rw [hnn]
      rw [show (getField r "vendor_name").getD JVal.null = .str "N/A" from by rw [hv]; rfl]
      decide
    have : 0 < suspiciousCount r := by
      rw [suspiciousCount]
      rw [List.countP_pos_iff]
      exact ⟨("vendor_name", "string"), by simp [fieldTypesN], hhit⟩
    omega
  · rw [hconf]
    unfold confFormula scoreOf declaredMetrics logScoreQ
    norm_num [requiredFieldsN, importantFieldsN]

/-- Witness for C8 at the record holding only vendor_name "N/A". -/
theorem vendor_placeholder_effects_witness :
    ("Field \"vendor_name\" must be a string" ∉
      ["Missing required field: invoice_number", "Missing required field: invoice_date",
       "Missing required field: total_amount"]) ∧
    ("Field \"vendor_name\" appears to contain a placeholder value: \"N/A\"" ∈
      ["Missing important field: due_date", "Missing important field: subtotal",
       "Missing important field: tax_amount", "Missing important field: line_items",
       "Field \"vendor_name\" appears to contain a placeholder value: \"N/A\""]) ∧
    1 ≤ suspiciousCount c8rec ∧
    clamp01 (scoreOf ⟨0, 1, 0, 0, 1, 1⟩) = confFormula c8rec := by
  have h : validate_invoice_data (.obj c8rec) =
      .ok ⟨false,
        ["Missing required field: invoice_number", "Missing required field: invoice_date",
         "Missing required field: total_amount"],
        ["Missing important field: due_date", "Missing important field: subtotal",
         "Missing important field: tax_amount", "Missing important field: line_items",
         "Field \"vendor_name\" appears to contain a placeholder value: \"N/A\""],
        clamp01 (scoreOf ⟨0, 1, 0, 0, 1, 1⟩),
        some (levelOf (clamp01 (scoreOf ⟨0, 1, 0, 0, 1, 1⟩)))⟩ := rfl
  exact vendor_placeholder_effects c8rec _ rfl h

theorem ymdLe_false_iff (a b : Ymd) : ymdLe a b = false ↔ ymdLt b a = true := by
  rcases a with ⟨y1, m1, d1⟩
  rcases b with ⟨y2, m2, d2⟩
  unfold ymdLe ymdLt
  simp [Ymd.mk.injEq]
  omega

theorem ne_of_head_ne (a b : String) (c d : Char) (ha : a.data.head? = some c)
    (hb : b.data.head? = some d) (hcd : c ≠ d) : a ≠ b := by
  intro h
  rw [h] at ha
  rw [ha] at hb
  exact hcd (Option.some.inj hb)

theorem mem_expTotalMsgs_head (r : List (String × JVal)) (m : String)
    (h : m ∈ expTotalMsgs r) :
    m.data.head? = some 'I' ∨ m = "Error in logical total calculation" := by
  unfold expTotalMsgs at h
  dsimp only at h
  split at h
  · split at h
    · split at h
      · rw [List.mem_singleton] at h
        subst h
        left
        rfl
      · exact absurd h (by simp)
    · rw [List.mem_singleton] at h
      exact Or.inr h
  · exact absurd h (by simp)

theorem strptime_ne_empty (s : String) (d : Ymd) (h : strptimeYmd s = some d) : s ≠ "" := by
  intro he
  rw [he] at h
  rw [show strptimeYmd "" = none from by decide] at h
  exact Option.noConfusion h

/-- C4 counterexample: the strict validator passes an invoice whose
invoice_date is strictly later than its due_date, recording no
logical-check failure at all. -/
theorem strict_invoice_no_date_check_counterexample :
    validate_document c4rec = .ok ⟨"pass", [], []⟩ ∧
    strptimeYmd "2024-02-02" = some ⟨2024, 2, 2⟩ ∧
    strptimeYmd "2024-01-01" = some ⟨2024, 1, 1⟩ ∧
    ymdLt ⟨2024, 1, 1⟩ ⟨2024, 2, 2⟩ = true := by
  refine ⟨by decide, by decide, by decide, by decide⟩

/-- C4 amended: the strict expense validator records the named
period-ordering logical failure exactly when both periods are valid
dates with period_start later than period_end; the strict invoice
validator runs no date-ordering check at all (without the three amount
fields its logical_checks is always empty, whatever the dates); the
confidence validator appends its dates_chronology message to the errors
sequence exactly when both ISO dates parse and the invoice date is later
than the due date. -/
theorem date_ordering_checks :
    (∀ (r : List (String × JVal)) (rep : DRes) (s1 s2 : String) (d1 d2 : Ymd),
      validate_expense r = .ok rep →
      getField r "period_start" = some (.str s1) →
      getField r "period_end" = some (.str s2) →
      strptimeYmd s1 = some d1 → strptimeYmd s2 = some d2 →
      (("period_start is after period_end" ∈ rep.logical_checks) ↔ ymdLt d2 d1 = true)) ∧
    (∀ r : List (String × JVal), invAmountsPresent r = false →
      (validate_invoice r).logical_checks = []) ∧
    (∀ (r : List (String × JVal)) (rep : VRes) (s1 s2 : String) (d1 d2 : Ymd),
      validate_invoice_data (.obj r) = .ok rep →
      getField r "invoice_date" = some (.str s1) →
      getField r "due_date" = some (.str s2) →
      fromisoformatStr s1 = some d1 → fromisoformatStr s2 = some d2 →
      (("Due date must be on or after invoice date" ∈ rep.errors) ↔ ymdLt d2 d1 = true)) := by
  refine ⟨?_, ?_, ?_⟩
  · intro r rep s1 s2 d1 d2 h hs1 hs2 hd1 hd2
    rw [validate_expense_checks r rep h]
    have hper : expPeriodMsgs r =
        if ymdLt d2 d1 then ["period_start is after period_end"] else [] := by
      unfold expPeriodMsgs
      rw [hs1, hs2]
      simp only [Option.getD_some]
      rw [if_pos]
      · rw [hd1, hd2]
      · simp [pyTruthy, date_format, hd1, hd2, strptime_ne_empty s1 d1 hd1,
          strptime_ne_empty s2 d2 hd2]
    rw [hper]
    constructor
    · intro hmem
      rcases List.mem_append.mp hmem with hm | hm
      · rcases mem_expTotalMsgs_head r _ hm with hh | hh
        · exact absurd hh (by decide)
        · exact absurd hh (by decide)
      · by_cases hlt : ymdLt d2 d1 = true
        · exact hlt
        · rw [if_neg (by simpa using hlt)] at hm
          exact absurd hm (by simp)
    · intro hlt
      refine List.mem_append.mpr (Or.inr ?_)
      rw [if_pos hlt]
      exact List.mem_singleton.mpr rfl
  · intro r hf
    rw [validate_invoice_checks]
    unfold invTotalMsgs
    unfold invAmountsPresent at hf
    dsimp only
    simp [hf]
  · intro r rep s1 s2 d1 d2 h hs1 hs2 hd1 hd2
    obtain ⟨herr, _hw, _hval, _hconf, _hlev, _hrun⟩ := vid_ok_spec r rep h
    rw [herr]
    have happ : applicableCheck r ⟨"dates_chronology", ["invoice_date", "due_date"],
        "Due date must be on or after invoice date"⟩ = true := by
      simp [applicableCheck, hasNonNull, hs1, hs2, isNullV]
    have hrun : runCheckN r ⟨"dates_chronology", ["invoice_date", "due_date"],
        "Due date must be on or after invoice date"⟩ = .ok (ymdLe d1 d2) := by
      simp [runCheckN, hs1, hs2, hd1, hd2]
    constructor
    · intro hmem
      unfold allErrsL at hmem
      rcases List.mem_append.mp hmem with hmem | hm
      · rcases List.mem_append.mp hmem with hmem | hm
        · rcases List.mem_append.mp hmem with hm | hm
          · rcases mem_reqMsgsL_cases r _ hm with hq | hq | hq <;> exact absurd hq (by decide)
          · obtain ⟨ft, _hft, heq⟩ := List.mem_filterMap.mp hm
            have heq2 := typeErrFor_some r _ _ heq
            rcases typeErrMsg_eqs _ _ _ _ heq2 with hq | hq | hq | hq | hq | hq <;>
              exact absurd hq (ne_of_head_ne _ _ 'D' 'F' rfl rfl (by decide))
        · obtain ⟨f, _hf, heq⟩ := List.mem_filterMap.mp hm
          have hq := consErrFor_eqs r f _ heq
          exact absurd hq (ne_of_head_ne _ _ 'D' 'F' rfl rfl (by decide))
      · obtain ⟨_, hrc⟩ := (mem_logErrsL_dates r).mp hm
        rw [hrun] at hrc
        have : ymdLe d1 d2 = false := by
          injection hrc
        exact (ymdLe_false_iff d1 d2).mp this
    · intro hlt
      unfold allErrsL
      refine List.mem_append.mpr (Or.inr ?_)
      refine (mem_logErrsL_dates r).mpr ⟨happ, ?_⟩
      rw [hrun, (ymdLe_false_iff d1 d2).mpr hlt]

/-- Witness for the amended C4 at three concrete records. -/
theorem date_ordering_checks_witness :
    (("period_start is after period_end" ∈
        (DRes.mk "fail" [] ["period_start is after period_end"]).logical_checks) ↔
      ymdLt ⟨2024, 1, 1⟩ ⟨2024, 2, 2⟩ = true) ∧
    (validate_invoice c4rec).logical_checks = [] ∧
    (("Due date must be on or after invoice date" ∈
        ["Missing required field: invoice_number", "Missing required field: total_amount",
         "Due date must be on or after invoice date"]) ↔
      ymdLt ⟨2023, 5, 15⟩ ⟨2023, 6, 15⟩ = true) := by
  refine ⟨?_, ?_, ?_⟩
  · exact date_ordering_checks.1 expPeriodRec ⟨"fail", [], ["period_start is after period_end"]⟩
      "2024-02-02" "2024-01-01" ⟨2024, 2, 2⟩ ⟨2024, 1, 1⟩ (by decide) rfl rfl
      (by decide) (by decide)
  · exact date_ordering_checks.2.1 c4rec (by decide)
  · have h : validate_invoice_data (.obj datesRec) =
        .ok ⟨false,
          ["Missing required field: invoice_number", "Missing required field: total_amount",
           "Due date must be on or after invoice date"],
          ["Missing important field: vendor_name", "Missing important field: subtotal",
           "Missing important field: tax_amount", "Missing important field: line_items"],
          clamp01 (scoreOf ⟨1, 1, 0, 1, 2, 0⟩),
          some (levelOf (clamp01 (scoreOf ⟨1, 1, 0, 1, 2, 0⟩)))⟩ := rfl
    exact date_ordering_checks.2.2 datesRec _ "2023-06-15" "2023-05-15"
      ⟨2023, 6, 15⟩ ⟨2023, 5, 15⟩ h rfl rfl (by decide) (by decide)

theorem mem_expPeriodMsgs (r : List (String × JVal)) (m : String)
    (h : m ∈ expPeriodMsgs r) : m = "period_start is after period_end" := by
  unfold expPeriodMsgs at h
  dsimp only at h
  split at h
  · split at h
    · split at h
      · split at h
        · exact List.mem_singleton.mp h
        · exact absurd h (by simp)
      · exact absurd h (by simp)
    · exact absurd h (by simp)
  · exact absurd h (by simp)

theorem hasNonNull_of_pyNumVal (r : List (String × JVal)) (f : String) (q : ℚ)
    (h : pyNumVal ((getField r f).getD .null) = some q) : hasNonNull r f = true := by
  unfold hasNonNull
  cases hgf : getField r f with
  | none =>
    rw [hgf] at h
    exact absurd h (by simp [pyNumVal])
  | some v =>
    rw [hgf] at h
    cases v <;> simp_all [pyNumVal, isNullV]

theorem expTolRec_ok : validate_expense expTolRec = .ok ⟨"pass", [], []⟩ := by
  unfold validate_expense
  dsimp only
  rw [if_pos (by decide : (find_empty_fields expTolRec EXPENSE_REQUIRED_FIELDS).isEmpty = true)]
  rw [show EXPENSE_OPTIONAL_FIELDS.foldl (optStepExp expTolRec)
      (EXPENSE_REQUIRED_FIELDS.foldl (reqStepExp expTolRec)
        ⟨"pass", [], []⟩) = (⟨"pass", [], []⟩ : DRes) from by decide]
  rw [show expTotalCheck expTolRec ⟨"pass", [], []⟩ =
      (if |(3:ℚ) - (1 + 2)| > 1/100 then
        markCheck ⟨"pass", [], []⟩ ("Incorrect total summary: (" ++ jrepr (.floatV 1) ++ " + " ++
          jrepr (.floatV 2) ++ " != " ++ jrepr (.floatV 3) ++ ")")
      else ⟨"pass", [], []⟩) from rfl]
  rw [if_neg (show ¬ |(3:ℚ) - (1 + 2)| > 1/100 from by
    rw [show (3:ℚ) - (1 + 2) = 0 from by norm_num, abs_zero]
    norm_num)]
  decide

theorem c7normRec_ok : validate_invoice_data (.obj c7normRec) = .ok c7rep := by
  have hb : runCheckN c7normRec ⟨"amount_calculation", ["subtotal", "tax_amount", "total_amount"],
      "Total amount should equal subtotal plus tax amount"⟩ = .ok false := by
    rw [show runCheckN c7normRec ⟨"amount_calculation", ["subtotal", "tax_amount", "total_amount"],
        "Total amount should equal subtotal plus tax amount"⟩ =
      .ok (decide (|(0:ℚ) + 1/100 - 0| < 1/100)) from rfl]
    rw [decide_eq_false (show ¬ |(0:ℚ) + 1/100 - 0| < 1/100 from by
      rw [show (0:ℚ) + 1/100 - 0 = 1/100 from by norm_num,
        abs_of_nonneg (show (0:ℚ) ≤ 1/100 from by norm_num)]
      exact lt_irrefl _)]
  have h4 : fieldTypesN.foldl (typeStepN c7normRec)
      (c7normRec.foldl extraStepN (importantFieldsN.foldl (impStepN c7normRec)
        (requiredFieldsN.foldl (reqStepN c7normRec) ⟨true, [], [], ⟨0, 0, 0, 0, 0, 0⟩⟩))) =
      ⟨false, ["Missing required field: invoice_number", "Missing required field: invoice_date"],
       ["Missing important field: vendor_name", "Missing important field: due_date",
        "Missing important field: line_items"], ⟨1, 2, 0, 0, 3, 0⟩⟩ := rfl
  have hstep : ∀ (f : String) (q : ℚ) (st : VSt), hasNonNull c7normRec f = true →
      pyNumVal ((getField c7normRec f).getD .null) = some q → ¬ q < 0 →
      consStepN c7normRec f st = .ok st := by
    intro f q st h1 h2 h3
    unfold consStepN
    rw [if_pos h1, h2]
    dsimp only
    rw [if_neg h3]
  have h5 : ∀ st : VSt, consGo c7normRec constraintFieldsN st = .ok st := by
    intro st
    show consGo c7normRec ("total_amount" :: "subtotal" :: "tax_amount" :: []) st = .ok st
    unfold consGo
    rw [hstep "total_amount" 0 st (by decide) rfl (by norm_num)]
    dsimp only
    unfold consGo
    rw [hstep "subtotal" 0 st (by decide) rfl (by norm_num)]
    dsimp only
    unfold consGo
    rw [hstep "tax_amount" (1/100) st (by decide) rfl (by norm_num)]
    rfl
  have h6 : logGo c7normRec logicalChecksN
      ⟨false, ["Missing required field: invoice_number", "Missing required field: invoice_date"],
       ["Missing important field: vendor_name", "Missing important field: due_date",
        "Missing important field: line_items"], ⟨1, 2, 0, 0, 3, 0⟩⟩ =
      .ok ⟨false, ["Missing required field: invoice_number", "Missing required field: invoice_date",
        "Total amount should equal subtotal plus tax amount"],
       ["Missing important field: vendor_name", "Missing important field: due_date",
        "Missing important field: line_items"], ⟨1, 2, 0, 1, 3, 0⟩⟩ := by
    have e2 : logStepN c7normRec
        ⟨false, ["Missing required field: invoice_number", "Missing required field: invoice_date"],
         ["Missing important field: vendor_name", "Missing important field: due_date",
          "Missing important field: line_items"], ⟨1, 2, 0, 0, 3, 0⟩⟩
        ⟨"amount_calculation", ["subtotal", "tax_amount", "total_amount"],
          "Total amount should equal subtotal plus tax amount"⟩ =
        .ok ⟨false, ["Missing required field: invoice_number", "Missing required field: invoice_date",
          "Total amount should equal subtotal plus tax amount"],
         ["Missing important field: vendor_name", "Missing important field: due_date",
          "Missing important field: line_items"], ⟨1, 2, 0, 1, 3, 0⟩⟩ := by
      unfold logStepN
      rw [hb]
      rfl
    show logGo c7normRec (⟨"dates_chronology", ["invoice_date", "due_date"],
        "Due date must be on or after invoice date"⟩ ::
      ⟨"amount_calculation", ["subtotal", "tax_amount", "total_amount"],
        "Total amount should equal subtotal plus tax amount"⟩ ::
      ⟨"line_items_sum", ["line_items", "subtotal"], "Line items should sum to subtotal"⟩ :: []) _ = _
    unfold logGo
    rw [show logStepN c7normRec
        ⟨false, ["Missing required field: invoice_number", "Missing required field: invoice_date"],
         ["Missing important field: vendor_name", "Missing important field: due_date",
          "Missing important field: line_items"], ⟨1, 2, 0, 0, 3, 0⟩⟩
        ⟨"dates_chronology", ["invoice_date", "due_date"],
          "Due date must be on or after invoice date"⟩ =
        .ok ⟨false, ["Missing required field: invoice_number", "Missing required field: invoice_date"],
         ["Missing important field: vendor_name", "Missing important field: due_date",
          "Missing important field: line_items"], ⟨1, 2, 0, 0, 3, 0⟩⟩ from rfl]
    dsimp only
    unfold logGo
    rw [e2]
    dsimp only
    unfold logGo
    rw [show logStepN c7normRec
        ⟨false, ["Missing required field: invoice_number", "Missing required field: invoice_date",
          "Total amount should equal subtotal plus tax amount"],
         ["Missing important field: vendor_name", "Missing important field: due_date",
          "Missing important field: line_items"], ⟨1, 2, 0, 1, 3, 0⟩⟩
        ⟨"line_items_sum", ["line_items", "subtotal"], "Line items should sum to subtotal"⟩ =
        .ok ⟨false, ["Missing required field: invoice_number", "Missing required field: invoice_date",
          "Total amount should equal subtotal plus tax amount"],
         ["Missing important field: vendor_name", "Missing important field: due_date",
          "Missing important field: line_items"], ⟨1, 2, 0, 1, 3, 0⟩⟩ from rfl]
    rfl
  unfold validate_invoice_data
  dsimp only
  rw [h4, h5]
  simp only [bindE]
  rw [h6]
  simp only [bindE]
  rfl

/-- C7 counterexample: with the difference between total and the expected
total exactly at the 0.01 tolerance, the strict invoice validator records
no logical-check failure (its trigger is a strict greater-than), while the
confidence-scoring validator records the amount_calculation error (its
passing test is a strict less-than, and it never consults a discount). -/
theorem tolerance_boundary_counterexample :
    (validate_invoice c7invRec).logical_checks = [] ∧
    |(0:ℚ) - (0 + 1/100 - 0)| = 1/100 ∧
    validate_invoice_data (.obj c7normRec) = .ok c7rep ∧
    "Total amount should equal subtotal plus tax amount" ∈ c7rep.errors ∧
    |(0:ℚ) + 1/100 - 0| = 1/100 := by
  have habs1 : |(0:ℚ) - (0 + 1/100 - 0)| = 1/100 := by
    rw [show (0:ℚ) - (0 + 1/100 - 0) = -(1/100) from by ring, abs_neg]
    exact abs_of_nonneg (by norm_num)
  have habs2 : |(0:ℚ) + 1/100 - 0| = 1/100 := by
    rw [show (0:ℚ) + 1/100 - 0 = 1/100 from by ring]
    exact abs_of_nonneg (by norm_num)
  refine ⟨?_, habs1, c7normRec_ok, by decide, habs2⟩
  rw [validate_invoice_checks]
  rw [show invTotalMsgs c7invRec =
      (if |(0:ℚ) - (0 + 1/100 - 0)| > 1/100 then
        [("Incorrect total summary: (" ++ jrepr (.floatV 0) ++ " + " ++ jrepr (.floatV (1/100)) ++
          " - " ++ jrepr (.floatV 0) ++ " != " ++ jrepr (.floatV 0) ++ ")")]
      else []) from rfl]
  rw [if_neg (show ¬ |(0:ℚ) - (0 + 1/100 - 0)| > 1/100 from by rw [habs1]; exact lt_irrefl _)]

/-- C7 amended: when subtotal, VAT and total are present and non-null and
all float conversions succeed, the strict invoice validator records a
logical-check failure exactly when |total − (subtotal + vat − discount)|
exceeds 0.01 strictly, a missing or None discount defaulting to 0; the
strict expense validator likewise records its named failure exactly when
|total − (subtotal + vat)| exceeds 0.01 strictly (no discount term); the
confidence-scoring validator instead records its amount_calculation error
exactly when |subtotal + tax_amount − total_amount| is at least 0.01, with
no discount involved. -/
theorem total_reconciliation_tolerance :
    (∀ (r : List (String × JVal)) (s v d t : ℚ),
      invAmountsPresent r = true →
      pyFloat ((getField r "subtotal_amount").getD .null) = some s →
      pyFloat ((getField r "vat_amount").getD .null) = some v →
      effDiscount r = some d →
      pyFloat ((getField r "total_amount").getD .null) = some t →
      ((validate_invoice r).logical_checks ≠ [] ↔ 1/100 < |t - (s + v - d)|)) ∧
    (∀ (r : List (String × JVal)) (rep : DRes) (s v t : ℚ),
      validate_expense r = .ok rep →
      isNullV ((getField r "subtotal_amount").getD .null) = false →
      isNullV ((getField r "vat_amount").getD .null) = false →
      isNullV ((getField r "total_amount").getD .null) = false →
      pyFloat ((getField r "subtotal_amount").getD .null) = some s →
      pyFloat ((getField r "vat_amount").getD .null) = some v →
      pyFloat ((getField r "total_amount").getD .null) = some t →
      ((("Incorrect total summary: (" ++ jrepr ((getField r "subtotal_amount").getD .null) ++
          " + " ++ jrepr ((getField r "vat_amount").getD .null) ++ " != " ++
          jrepr ((getField r "total_amount").getD .null) ++ ")") ∈ rep.logical_checks) ↔
        1/100 < |t - (s + v)|)) ∧
    (∀ (r : List (String × JVal)) (rep : VRes) (s tax t : ℚ),
      validate_invoice_data (.obj r) = .ok rep →
      pyNumVal ((getField r "subtotal").getD .null) = some s →
      pyNumVal ((getField r "tax_amount").getD .null) = some tax →
      pyNumVal ((getField r "total_amount").getD .null) = some t →
      (("Total amount should equal subtotal plus tax amount" ∈ rep.errors) ↔
        1/100 ≤ |s + tax - t|)) := by
  refine ⟨?_, ?_, ?_⟩
  · intro r s v d t hp hs hv hd ht
    rw [validate_invoice_checks]
    unfold invTotalMsgs
    dsimp only
    unfold invAmountsPresent at hp
    rw [if_pos hp]
    have hd2 : pyFloat (if isNullV ((getField r "total_discount").getD .null) then JVal.floatV 0
        else (getField r "total_discount").getD .null) = some d := by
      unfold effDiscount at hd
      cases hval : (getField r "total_discount").getD .null <;> (rw [hval] at hd; exact hd)
    rw [hs, hv, hd2, ht]
    dsimp only
    by_cases hq : (1:ℚ)/100 < |t - (s + v - d)|
    · rw [if_pos hq]
      exact iff_of_true (by simp) hq
    · rw [if_neg hq]
      exact iff_of_false (by simp) hq
  · intro r rep s v t h hn1 hn2 hn3 hs hv ht
    rw [validate_expense_checks r rep h]
    have htm : expTotalMsgs r = if 1/100 < |t - (s + v)| then
        [("Incorrect total summary: (" ++ jrepr ((getField r "subtotal_amount").getD .null) ++
          " + " ++ jrepr ((getField r "vat_amount").getD .null) ++ " != " ++
          jrepr ((getField r "total_amount").getD .null) ++ ")")] else [] := by
      unfold expTotalMsgs
      dsimp only
      rw [if_pos (show (!(isNullV ((getField r "subtotal_amount").getD .null)) &&
          !(isNullV ((getField r "vat_amount").getD .null)) &&
          !(isNullV ((getField r "total_amount").getD .null))) = true from by
        rw [hn1, hn2, hn3]; rfl)]
      rw [hs, hv, ht]
    rw [htm]
    constructor
    · intro hm
      rcases List.mem_append.mp hm with hm | hm
      · by_cases hq : (1:ℚ)/100 < |t - (s + v)|
        · exact hq
        · rw [if_neg hq] at hm
          exact absurd hm (by simp)
      · have hper := mem_expPeriodMsgs r _ hm
        exact absurd hper (ne_of_head_ne _ _ 'I' 'p' rfl rfl (by decide))
    · intro hq
      refine List.mem_append.mpr (Or.inl ?_)
      rw [if_pos hq]
      exact List.mem_singleton.mpr rfl
  · intro r rep s tax t h hs htax ht
    obtain ⟨herr, _hw, _hval, _hconf, _hlev, _hrun⟩ := vid_ok_spec r rep h
    rw [herr]
    have happ : applicableCheck r ⟨"amount_calculation", ["subtotal", "tax_amount", "total_amount"],
        "Total amount should equal subtotal plus tax amount"⟩ = true := by
      simp [applicableCheck, hasNonNull_of_pyNumVal r "subtotal" s hs,
        hasNonNull_of_pyNumVal r "tax_amount" tax htax,
        hasNonNull_of_pyNumVal r "total_amount" t ht]
    have hrun : runCheckN r ⟨"amount_calculation", ["subtotal", "tax_amount", "total_amount"],
        "Total amount should equal subtotal plus tax amount"⟩ =
        .ok (decide (|s + tax - t| < 1/100)) := by
      simp [runCheckN, hs, htax, ht]
    constructor
    · intro hmem
      unfold allErrsL at hmem
      rcases List.mem_append.mp hmem with hmem | hm
      · rcases List.mem_append.mp hmem with hmem | hm
        · rcases List.mem_append.mp hmem with hm | hm
          · rcases mem_reqMsgsL_cases r _ hm with hq | hq | hq <;> exact absurd hq (by decide)
          · obtain ⟨ft, _hft, heq⟩ := List.mem_filterMap.mp hm
            have heq2 := typeErrFor_some r _ _ heq
            rcases typeErrMsg_eqs _ _ _ _ heq2 with hq | hq | hq | hq | hq | hq <;>
              exact absurd hq (ne_of_head_ne _ _ 'T' 'F' rfl rfl (by decide))
        · obtain ⟨f, _hf, heq⟩ := List.mem_filterMap.mp hm
          have hq := consErrFor_eqs r f _ heq
          exact absurd hq (ne_of_head_ne _ _ 'T' 'F' rfl rfl (by decide))
      · obtain ⟨_, hrc⟩ := (mem_logErrsL_amount r).mp hm
        rw [hrun] at hrc
        have hdf : decide (|s + tax - t| < 1/100) = false := by injection hrc
        exact not_lt.mp (of_decide_eq_false hdf)
    · intro hq
      unfold allErrsL
      refine List.mem_append.mpr (Or.inr ?_)
      refine (mem_logErrsL_amount r).mpr ⟨happ, ?_⟩
      rw [hrun, decide_eq_false (not_lt.mpr hq)]

/-- Witness for the amended C7 at three concrete records. -/
theorem total_reconciliation_tolerance_witness :
    ((validate_invoice c7invRec).logical_checks ≠ [] ↔ 1/100 < |(0:ℚ) - (0 + 1/100 - 0)|) ∧
    ((("Incorrect total summary: (" ++ jrepr ((getField expTolRec "subtotal_amount").getD .null) ++
        " + " ++ jrepr ((getField expTolRec "vat_amount").getD .null) ++ " != " ++
        jrepr ((getField expTolRec "total_amount").getD .null) ++ ")") ∈
      (DRes.mk "pass" [] []).logical_checks) ↔ 1/100 < |(3:ℚ) - (1 + 2)|) ∧
    (("Total amount should equal subtotal plus tax amount" ∈ c7rep.errors) ↔
      1/100 ≤ |(0:ℚ) + 1/100 - 0|) := by
  refine ⟨?_, ?_, ?_⟩
  · exact total_reconciliation_tolerance.1 c7invRec 0 (1/100) 0 0 (by decide) rfl rfl rfl rfl
  · exact total_reconciliation_tolerance.2.1 expTolRec ⟨"pass", [], []⟩ 1 2 3 expTolRec_ok
      (by decide) (by decide) (by decide) rfl rfl rfl
  · exact total_reconciliation_tolerance.2.2 c7normRec c7rep 0 (1/100) 0 c7normRec_ok rfl rfl rfl

/-- C1: refuted on the code — both validators can raise across their
public boundary on mapping input: the confidence-scoring validator
propagates a TypeError out of the constraints loop when total_amount
holds a string (the source compares value < 0 against a str), and the
strict validator propagates an AttributeError out of the expense-items
loop when an expense_items element is not a dict (the source calls
item.get on it). -/
theorem validators_raise :
    validate_invoice_data (.obj invalidInvoiceRec) = .error .typeError ∧
    validate_document badExpenseRec = .error .attributeError := by
  exact ⟨rfl, by decide⟩

theorem dropWhile_head_not {p : Char → Bool} {l : List Char}
    (h : ∀ c, l.head? = some c → p c = false) : l.dropWhile p = l := by
  cases l with
  | nil => rfl
  | cons a t =>
    rw [List.dropWhile_cons, if_neg]
    rw [h a rfl]
    exact Bool.false_ne_true

theorem head?_dropWhile_not (p : Char → Bool) : ∀ (l : List Char) (c : Char),
    (l.dropWhile p).head? = some c → p c = false := by
  intro l
  induction l with
  | nil => intro c h; exact absurd h (by simp)
  | cons a t ih =>
    intro c h
    rw [List.dropWhile_cons] at h
    by_cases hp : p a = true
    · rw [if_pos hp] at h
      exact ih c h
    · rw [if_neg hp] at h
      have hac : a = c := by simpa using h
      rw [← hac]
      simpa using hp

theorem getLast?_dropWhile (p : Char → Bool) : ∀ (l : List Char) (c : Char),
    (l.dropWhile p).getLast? = some c → l.getLast? = some c := by
  intro l
  induction l with
  | nil => intro c h; exact absurd h (by simp)
  | cons a t ih =>
    intro c h
    rw [List.dropWhile_cons] at h
    by_cases hp : p a = true
    · rw [if_pos hp] at h
      have h2 := ih c h
      cases t with
      | nil => exact absurd h2 (by simp)
      | cons b t2 => rw [List.getLast?_cons_cons]; exact h2
    · rw [if_neg hp] at h
      exact h

theorem trimChars_head_not (cs : List Char) (c : Char)
    (h : (trimChars cs).head? = some c) : isSpaceB c = false := by
  unfold trimChars at h
  rw [List.head?_reverse] at h
  have h2 := getLast?_dropWhile isSpaceB _ _ h
  rw [List.getLast?_reverse] at h2
  exact head?_dropWhile_not isSpaceB _ _ h2

theorem trimChars_getLast_not (cs : List Char) (c : Char)
    (h : (trimChars cs).getLast? = some c) : isSpaceB c = false := by
  unfold trimChars at h
  rw [List.getLast?_reverse] at h
  exact head?_dropWhile_not isSpaceB _ _ h

theorem trimChars_of_clean (l : List Char)
    (h1 : ∀ c, l.head? = some c → isSpaceB c = false)
    (h2 : ∀ c, l.getLast? = some c → isSpaceB c = false) : trimChars l = l := by
  unfold trimChars
  rw [dropWhile_head_not h1]
  rw [dropWhile_head_not (fun c hc => h2 c (by rwa [List.head?_reverse] at hc))]
  exact List.reverse_reverse l

theorem trimChars_idem (cs : List Char) : trimChars (trimChars cs) = trimChars cs :=
  trimChars_of_clean _ (trimChars_head_not cs) (trimChars_getLast_not cs)

theorem trimChars_all_not_space (l : List Char) (h : ∀ c ∈ l, isSpaceB c = false) :
    trimChars l = l := by
  refine trimChars_of_clean l (fun c hc => h c ?_) (fun c hc => h c ?_)
  · exact List.mem_of_mem_head? hc
  · exact List.mem_of_mem_getLast? hc

theorem pyStrip_idem (s : String) : pyStrip (pyStrip s) = pyStrip s := by
  unfold pyStrip
  rw [show (⟨trimChars s.data⟩ : String).data = trimChars s.data from rfl, trimChars_idem]

theorem digCh_digit (n : Nat) : isDigitB (digCh n) = true := by
  unfold digCh
  split <;> decide

theorem digit_not_space (c : Char) (h : isDigitB c = true) : isSpaceB c = false := by
  unfold isDigitB at h
  rw [Bool.and_eq_true] at h
  have h48 : 48 ≤ c.val.toNat := of_decide_eq_true h.1
  have hne : ∀ c0 : Char, c0.val.toNat < 48 → c ≠ c0 := by
    intro c0 hc0 he
    subst he
    omega
  unfold isSpaceB
  simp [hne ' ' (by decide), hne '\t' (by decide), hne '\n' (by decide),
    hne '\r' (by decide), hne '\x0b' (by decide), hne '\x0c' (by decide)]

theorem natChars_digits : ∀ n, ∀ c ∈ natChars n, isDigitB c = true := by
  intro n
  induction n using Nat.strong_induction_on with
  | _ n ih =>
    intro c hc
    unfold natChars at hc
    by_cases h : n < 10
    · rw [dif_pos h] at hc
      rw [List.mem_singleton] at hc
      subst hc
      exact digCh_digit n
    · rw [dif_neg h] at hc
      rcases List.mem_append.mp hc with hc | hc
      · exact ih (n / 10) (Nat.div_lt_self (by omega) (by omega)) c hc
      · rw [List.mem_singleton] at hc
        subst hc
        exact digCh_digit (n % 10)

theorem natChars_len : ∀ (k : Nat), ∀ n, n < 10 ^ k → 0 < k → (natChars n).length ≤ k := by
  intro k
  induction k with
  | zero => intro n h h0; omega
  | succ j ih =>
    intro n h _h0
    unfold natChars
    by_cases h10 : n < 10
    · rw [dif_pos h10]
      simp only [List.length_singleton]
      omega
    · rw [dif_neg h10]
      rw [List.length_append, List.length_singleton]
      have hj : 0 < j := by
        by_contra hj0
        have hj1 : j = 0 := by omega
        subst hj1
        simp at h
        omega
      have hdiv : n / 10 < 10 ^ j := by
        rw [Nat.div_lt_iff_lt_mul (by norm_num)]
        calc n < 10 ^ (j + 1) := h
        _ = 10 ^ j * 10 := by ring
      have := ih (n / 10) hdiv hj
      omega

theorem padTo_len (k : Nat) (cs : List Char) (h : cs.length ≤ k) : (padTo k cs).length = k := by
  unfold padTo
  rw [List.length_append, List.length_replicate]
  omega

theorem padTo_digits (k : Nat) (cs : List Char) (h : ∀ c ∈ cs, isDigitB c = true) :
    ∀ c ∈ padTo k cs, isDigitB c = true := by
  intro c hc
  unfold padTo at hc
  rcases List.mem_append.mp hc with hc | hc
  · rw [List.eq_of_mem_replicate hc]
    decide
  · exact h c hc

theorem pad4_spec (y : Nat) (hy : y < 10000) :
    (pad4 y).length = 4 ∧ ∀ c ∈ pad4 y, isDigitB c = true :=
  ⟨padTo_len _ _ (natChars_len 4 y (by norm_num; omega) (by norm_num)),
   padTo_digits _ _ (natChars_digits y)⟩

theorem pad2_spec (m : Nat) (hm : m < 100) :
    (pad2 m).length = 2 ∧ ∀ c ∈ pad2 m, isDigitB c = true :=
  ⟨padTo_len _ _ (natChars_len 2 m (by norm_num; omega) (by norm_num)),
   padTo_digits _ _ (natChars_digits m)⟩

theorem len4_cases (l : List Char) (h : l.length = 4) : ∃ a b c d, l = [a, b, c, d] := by
  rcases l with _ | ⟨a, _ | ⟨b, _ | ⟨c, _ | ⟨d, _ | ⟨e, t⟩⟩⟩⟩⟩ <;>
    first
      | exact ⟨_, _, _, _, rfl⟩
      | (simp only [List.length_cons, List.length_nil] at h; omega)

theorem len2_cases (l : List Char) (h : l.length = 2) : ∃ a b, l = [a, b] := by
  rcases l with _ | ⟨a, _ | ⟨b, _ | ⟨c, t⟩⟩⟩ <;>
    first
      | exact ⟨_, _, rfl⟩
      | (simp only [List.length_cons, List.length_nil] at h; omega)

theorem fmtYmd_data (y m d : Nat) :
    (fmtYmd y m d).data = pad4 y ++ '-' :: (pad2 m ++ '-' :: pad2 d) := rfl

theorem isoShape_fmtYmd (y m d : Nat) (hy : y < 10000) (hm : m < 100) (hd : d < 100) :
    isoShape (fmtYmd y m d) = true := by
  obtain ⟨hl4, hd4⟩ := pad4_spec y hy
  obtain ⟨hl2m, hd2m⟩ := pad2_spec m hm
  obtain ⟨hl2d, hd2d⟩ := pad2_spec d hd
  obtain ⟨a, b, c, e, h4⟩ := len4_cases _ hl4
  obtain ⟨f, g, h2m⟩ := len2_cases _ hl2m
  obtain ⟨i, j, h2d⟩ := len2_cases _ hl2d
  have hdata : (fmtYmd y m d).data = [a, b, c, e, '-', f, g, '-', i, j] := by
    rw [fmtYmd_data, h4, h2m, h2d]
    rfl
  unfold isoShape
  rw [hdata]
  dsimp only
  rw [h4] at hd4
  rw [h2m] at hd2m
  rw [h2d] at hd2d
  simp [hd4 a (by simp), hd4 b (by simp), hd4 c (by simp), hd4 e (by simp),
    hd2m f (by simp), hd2m g (by simp), hd2d i (by simp), hd2d j (by simp)]

theorem fmtYmd_clean (y m d : Nat) (hy : y < 10000) (hm : m < 100) (hd : d < 100) :
    ∀ c ∈ (fmtYmd y m d).data, isSpaceB c = false := by
  obtain ⟨_, hd4⟩ := pad4_spec y hy
  obtain ⟨_, hd2m⟩ := pad2_spec m hm
  obtain ⟨_, hd2d⟩ := pad2_spec d hd
  intro c hc
  rw [fmtYmd_data] at hc
  rcases List.mem_append.mp hc with hc | hc
  · exact digit_not_space c (hd4 c hc)
  · rcases List.mem_cons.mp hc with rfl | hc
    · decide
    · rcases List.mem_append.mp hc with hc | hc
      · exact digit_not_space c (hd2m c hc)
      · rcases List.mem_cons.mp hc with rfl | hc
        · decide
        · exact digit_not_space c (hd2d c hc)

theorem fmtYmd_ne_empty (y m d : Nat) : (fmtYmd y m d).data.isEmpty = false := by
  rw [fmtYmd_data]
  cases pad4 y <;> rfl

theorem digits_foldl_lt : ∀ (cs : List Char) (a : Nat), (∀ c ∈ cs, isDigitB c = true) →
    cs.foldl (fun acc c => acc * 10 + digVal c) a < (a + 1) * 10 ^ cs.length := by
  intro cs
  induction cs with
  | nil =>
    intro a _
    simp
  | cons c t ih =>
    intro a h
    rw [List.foldl_cons, List.length_cons]
    have hd9 : digVal c ≤ 9 := by
      have hc := h c (List.mem_cons_self c t)
      unfold isDigitB at hc
      rw [Bool.and_eq_true] at hc
      have h57 : c.val.toNat ≤ 57 := of_decide_eq_true hc.2
      unfold digVal
      omega
    have hrec := ih (a * 10 + digVal c) (fun c hc => h c (List.mem_cons_of_mem _ hc))
    have hle : a * 10 + digVal c + 1 ≤ (a + 1) * 10 := by omega
    calc List.foldl (fun acc c => acc * 10 + digVal c) (a * 10 + digVal c) t
        < (a * 10 + digVal c + 1) * 10 ^ t.length := hrec
    _ ≤ ((a + 1) * 10) * 10 ^ t.length := Nat.mul_le_mul_right _ hle
    _ = (a + 1) * 10 ^ (t.length + 1) := by ring

theorem digitsVal_lt (cs : List Char) (h : ∀ c ∈ cs, isDigitB c = true) :
    digitsVal cs < 10 ^ cs.length := by
  have h2 := digits_foldl_lt cs 0 h
  unfold digitsVal
  simpa using h2

theorem parseTok_bound (cs : List Char) (lo hi v : Nat) (h : parseTok cs lo hi = some v) :
    v < 10 ^ hi := by
  unfold parseTok at h
  by_cases hc : cs.length ≥ lo ∧ cs.length ≤ hi
  · rw [if_pos hc] at h
    unfold parseNatDigits at h
    by_cases hc2 : cs ≠ [] ∧ cs.all isDigitB
    · rw [if_pos hc2] at h
      have hv : v = digitsVal cs := (Option.some.inj h).symm
      subst hv
      have hall : ∀ c ∈ cs, isDigitB c = true := by
        intro c hcc
        exact List.all_eq_true.mp hc2.2 c hcc
      have h1 := digitsVal_lt cs hall
      have h2 : (10 : Nat) ^ cs.length ≤ 10 ^ hi := Nat.pow_le_pow_right (by norm_num) hc.2
      omega
    · rw [if_neg hc2] at h
      exact absurd h (by simp)
  · rw [if_neg hc] at h
    exact absurd h (by simp)

theorem parseDMY_bound (sep : Char) (t : List Char) (x : Ymd) (h : parseDMY sep t = some x) :
    x.y < 10000 ∧ x.m < 100 ∧ x.d < 100 := by
  unfold parseDMY at h
  split at h
  · split at h
    · rename_i a0 ds ms ys hsp o1 o2 o3 d m y hd hm hy
      split at h
      · rename_i hcond
        cases h
        refine ⟨?_, ?_, ?_⟩
        · have hb := parseTok_bound ys 4 4 y hy
          norm_num at hb
          exact hb
        · dsimp only
          omega
        · dsimp only
          omega
      · exact absurd h (by simp)
    · exact absurd h (by simp)
  · exact absurd h (by simp)

theorem parseMDY_bound (sep : Char) (t : List Char) (x : Ymd) (h : parseMDY sep t = some x) :
    x.y < 10000 ∧ x.m < 100 ∧ x.d < 100 := by
  unfold parseMDY at h
  split at h
  · split at h
    · rename_i a0 ms ds ys hsp o1 o2 o3 m d y hm hd hy
      split at h
      · rename_i hcond
        cases h
        refine ⟨?_, ?_, ?_⟩
        · have hb := parseTok_bound ys 4 4 y hy
          norm_num at hb
          exact hb
        · dsimp only
          omega
        · dsimp only
          omega
      · exact absurd h (by simp)
    · exact absurd h (by simp)
  · exact absurd h (by simp)

theorem parseYMDsep_bound (sep : Char) (t : List Char) (x : Ymd) (h : parseYMDsep sep t = some x) :
    x.y < 10000 ∧ x.m < 100 ∧ x.d < 100 := by
  unfold parseYMDsep at h
  split at h
  · split at h
    · rename_i a0 ys ms ds hsp o1 o2 o3 y m d hy hm hd
      split at h
      · rename_i hcond
        cases h
        refine ⟨?_, ?_, ?_⟩
        · have hb := parseTok_bound ys 4 4 y hy
          norm_num at hb
          exact hb
        · dsimp only
          omega
        · dsimp only
          omega
      · exact absurd h (by simp)
    · exact absurd h (by simp)
  · exact absurd h (by simp)

theorem monthLookup_bound (cs : List Char) (m : Nat) (h : monthLookup cs = some m) : m < 100 := by
  unfold monthLookup at h
  obtain ⟨p, hp, hpm⟩ := Option.map_eq_some'.mp h
  have hmem := List.mem_of_find?_eq_some hp
  rw [← hpm]
  fin_cases hmem <;> norm_num

theorem parseMonthName_bound (t : List Char) (x : Ymd) (h : parseMonthName t = some x) :
    x.y < 10000 ∧ x.m < 100 ∧ x.d < 100 := by
  unfold parseMonthName at h
  split at h
  · split at h
    · rename_i a0 ds mn ys hsp o1 o2 o3 d m y hd hm hy
      split at h
      · rename_i hcond
        cases h
        have hb := parseTok_bound ys 4 4 y hy
        norm_num at hb
        refine ⟨?_, ?_, ?_⟩
        · dsimp only
          split <;> omega
        · dsimp only
          exact monthLookup_bound mn m hm
        · dsimp only
          omega
      · exact absurd h (by simp)
    · exact absurd h (by simp)
  · exact absurd h (by simp)

theorem normalize_date_fmt (y m d : Nat) (hy : y < 10000) (hm : m < 100) (hd : d < 100) :
    normalize_date (fmtYmd y m d) = some (fmtYmd y m d) := by
  unfold normalize_date
  dsimp only
  rw [trimChars_all_not_space _ (fmtYmd_clean y m d hy hm hd)]
  rw [show (⟨(fmtYmd y m d).data⟩ : String) = fmtYmd y m d from rfl]
  rw [if_neg (by rw [fmtYmd_ne_empty]; exact Bool.false_ne_true)]
  rw [if_pos (isoShape_fmtYmd y m d hy hm hd)]

theorem normalize_date_idem (s out : String) (h : normalize_date s = some out) :
    normalize_date out = some out := by
  unfold normalize_date at h
  dsimp only at h
  by_cases he : (trimChars s.data).isEmpty = true
  · rw [if_pos he] at h
    exact absurd h (by simp)
  · rw [if_neg he] at h
    by_cases hiso : isoShape ⟨trimChars s.data⟩ = true
    · rw [if_pos hiso] at h
      have hout : out = ⟨trimChars s.data⟩ := (Option.some.inj h).symm
      subst hout
      unfold normalize_date
      dsimp only
      rw [trimChars_idem]
      rw [if_neg he, if_pos hiso]
    · rw [if_neg hiso] at h
      cases h1 : parseDMY '/' (trimChars s.data) with
      | some x =>
        rw [h1] at h
        dsimp only at h
        have hout : out = fmtYmd x.y x.m x.d := (Option.some.inj h).symm
        subst hout
        obtain ⟨hy, hm, hd⟩ := parseDMY_bound '/' _ x h1
        exact normalize_date_fmt _ _ _ hy hm hd
      | none =>
        rw [h1] at h
        dsimp only at h
        cases h2 : parseMDY '/' (trimChars s.data) with
        | some x =>
          rw [h2] at h
          dsimp only at h
          have hout : out = fmtYmd x.y x.m x.d := (Option.some.inj h).symm
          subst hout
          obtain ⟨hy, hm, hd⟩ := parseMDY_bound '/' _ x h2
          exact normalize_date_fmt _ _ _ hy hm hd
        | none =>
          rw [h2] at h
          dsimp only at h
          cases h3 : parseDMY '-' (trimChars s.data) with
          | some x =>
            rw [h3] at h
            dsimp only at h
            have hout : out = fmtYmd x.y x.m x.d := (Option.some.inj h).symm
            subst hout
            obtain ⟨hy, hm, hd⟩ := parseDMY_bound '-' _ x h3
            exact normalize_date_fmt _ _ _ hy hm hd
          | none =>
            rw [h3] at h
            dsimp only at h
            cases h4 : parseYMDsep '/' (trimChars s.data) with
            | some x =>
              rw [h4] at h
              dsimp only at h
              have hout : out = fmtYmd x.y x.m x.d := (Option.some.inj h).symm
              subst hout
              obtain ⟨hy, hm, hd⟩ := parseYMDsep_bound '/' _ x h4
              exact normalize_date_fmt _ _ _ hy hm hd
            | none =>
              rw [h4] at h
              dsimp only at h
              cases h5 : parseMonthName (trimChars s.data) with
              | some x =>
                rw [h5] at h
                dsimp only at h
                have hout : out = fmtYmd x.y x.m x.d := (Option.some.inj h).symm
                subst hout
                obtain ⟨hy, hm, hd⟩ := parseMonthName_bound _ x h5
                exact normalize_date_fmt _ _ _ hy hm hd
              | none =>
                rw [h5] at h
                dsimp only at h
                have hout : out = ⟨trimChars s.data⟩ := (Option.some.inj h).symm
                subst hout
                unfold normalize_date
                dsimp only
                rw [trimChars_idem]
                rw [if_neg he, if_neg hiso, h1, h2, h3, h4, h5]

theorem deepTrim_null : deepTrim .null = .null := by unfold deepTrim; rfl

theorem deepTrim_bool (b : Bool) : deepTrim (.boolV b) = .boolV b := by unfold deepTrim; rfl

theorem deepTrim_int (n : Int) : deepTrim (.intV n) = .intV n := by unfold deepTrim; rfl

theorem deepTrim_float (q : ℚ) : deepTrim (.floatV q) = .floatV q := by unfold deepTrim; rfl

theorem deepTrim_str (s : String) : deepTrim (.str s) = .str (pyStrip s) := by unfold deepTrim; rfl

theorem deepTrim_arr (xs : List JVal) : deepTrim (.arr xs) = .arr (xs.map deepTrim) := by
  unfold deepTrim
  simp

theorem deepTrim_obj (kvs : List (String × JVal)) :
    deepTrim (.obj kvs) = .obj (kvs.map (fun kv => (kv.1, deepTrim kv.2))) := by
  conv_lhs => unfold deepTrim
  rw [List.map_attach]
  simp

theorem deepTrim_idem_aux : ∀ (n : Nat), ∀ (v : JVal), sizeOf v < n →
    deepTrim (deepTrim v) = deepTrim v := by
  intro n
  induction n using Nat.strong_induction_on with
  | _ n ih =>
    intro v hv
    cases v with
    | null => rw [deepTrim_null, deepTrim_null]
    | boolV b => rw [deepTrim_bool, deepTrim_bool]
    | intV k => rw [deepTrim_int, deepTrim_int]
    | floatV q => rw [deepTrim_float, deepTrim_float]
    | str s => rw [deepTrim_str, deepTrim_str, pyStrip_idem]
    | arr xs =>
      rw [deepTrim_arr, deepTrim_arr, List.map_map]
      congr 1
      apply List.map_congr_left
      intro x hx
      have h1 := List.sizeOf_lt_of_mem hx
      have h2 := JVal.arr.sizeOf_spec xs
      exact ih (sizeOf x + 1) (by omega) x (by omega)
    | obj kvs =>
      rw [deepTrim_obj, deepTrim_obj, List.map_map]
      congr 1
      apply List.map_congr_left
      intro kv hkv
      have h1 := List.sizeOf_lt_of_mem hkv
      have h2 := JVal.obj.sizeOf_spec kvs
      have h3 : sizeOf kv = 1 + sizeOf kv.1 + sizeOf kv.2 := by
        rcases kv with ⟨a, b⟩
        rfl
      dsimp only [Function.comp]
      rw [ih (sizeOf kv.2 + 1) (by omega) kv.2 (by omega)]

theorem deepTrim_idem (v : JVal) : deepTrim (deepTrim v) = deepTrim v :=
  deepTrim_idem_aux (sizeOf v + 1) v (Nat.lt_succ_self _)

theorem normNumField_float (q : ℚ) : normNumField (.floatV q) = (.floatV q, none) := rfl

theorem normNumField_null : normNumField .null = (.null, none) := rfl

theorem normNumField_fst_cases (v : JVal) :
    (∃ q, (normNumField v).1 = .floatV q) ∨ (normNumField v).1 = .null := by
  unfold normNumField
  rcases h : normalize_numeric v with ⟨o, c⟩
  cases o with
  | some q => exact Or.inl ⟨q, rfl⟩
  | none => exact Or.inr rfl

theorem normNumField_idem (v : JVal) :
    normNumField (normNumField v).1 = ((normNumField v).1, none) := by
  rcases normNumField_fst_cases v with ⟨q, hq⟩ | hq <;> rw [hq]
  · exact normNumField_float q
  · exact normNumField_null

theorem normDateField_idem (v : JVal) : normDateField (normDateField v) = normDateField v := by
  cases v with
  | null => rfl
  | boolV b =>
    show normDateField (deepTrim (.boolV b)) = deepTrim (.boolV b)
    rw [deepTrim_bool]
    show deepTrim (.boolV b) = _
    rw [deepTrim_bool]
  | intV n =>
    show normDateField (deepTrim (.intV n)) = deepTrim (.intV n)
    rw [deepTrim_int]
    show deepTrim (.intV n) = _
    rw [deepTrim_int]
  | floatV q =>
    show normDateField (deepTrim (.floatV q)) = deepTrim (.floatV q)
    rw [deepTrim_float]
    show deepTrim (.floatV q) = _
    rw [deepTrim_float]
  | str s =>
    cases h : normalize_date s with
    | none =>
      rw [show normDateField (.str s) = .null from by unfold normDateField; dsimp only; rw [h]]
      rfl
    | some out =>
      rw [show normDateField (.str s) = .str out from by unfold normDateField; dsimp only; rw [h]]
      unfold normDateField
      dsimp only
      rw [normalize_date_idem s out h]
  | arr xs =>
    show normDateField (deepTrim (.arr xs)) = deepTrim (.arr xs)
    obtain ⟨ys, hy⟩ : ∃ ys, deepTrim (.arr xs) = .arr ys := ⟨_, deepTrim_arr xs⟩
    rw [hy]
    show deepTrim (.arr ys) = _
    rw [← hy, deepTrim_idem]
  | obj kvs =>
    show normDateField (deepTrim (.obj kvs)) = deepTrim (.obj kvs)
    obtain ⟨ys, hy⟩ : ∃ ys, deepTrim (.obj kvs) = .obj ys := ⟨_, deepTrim_obj kvs⟩
    rw [hy]
    show deepTrim (.obj ys) = _
    rw [← hy, deepTrim_idem]

theorem normDateField_null : normDateField .null = .null := rfl

theorem normItemField_idem (k : String) (v : JVal) :
    normItemField k (normItemField k v).1 = ((normItemField k v).1, none) := by
  unfold normItemField
  by_cases h1 : itemNumericFieldsS.contains k = true
  · rw [if_pos h1, if_pos h1]
    exact normNumField_idem v
  · rw [if_neg h1, if_neg h1]
    by_cases h2 : itemDateFieldsS.contains k = true
    · rw [if_pos h2, if_pos h2]
      dsimp only
      rw [normDateField_idem]
    · rw [if_neg h2, if_neg h2]
      dsimp only
      rw [deepTrim_idem]

theorem normFieldsGo_fst (f : String → JVal → JVal × Option String) :
    ∀ l : List (String × JVal),
      (normFieldsGo f l).1 = l.map (fun kv => (kv.1, (f kv.1 kv.2).1)) := by
  intro l
  induction l with
  | nil => rfl
  | cons kv rest ih =>
    rcases kv with ⟨k, v⟩
    unfold normFieldsGo
    dsimp only
    rw [List.map_cons]
    rw [← ih]

theorem normFieldsGo_pointwise (f : String → JVal → JVal × Option String) :
    ∀ l : List (String × JVal), (∀ kv ∈ l, f kv.1 kv.2 = (kv.2, none)) →
      normFieldsGo f l = (l, none) := by
  intro l
  induction l with
  | nil => intro _; rfl
  | cons kv rest ih =>
    intro h
    rcases kv with ⟨k, v⟩
    unfold normFieldsGo
    dsimp only
    rw [h (k, v) (List.mem_cons_self _ _)]
    rw [ih (fun kv hkv => h kv (List.mem_cons_of_mem _ hkv))]
    rfl

theorem normFieldsGo_snd_ex (f : String → JVal → JVal × Option String) :
    ∀ (l : List (String × JVal)) (c : String), (normFieldsGo f l).2 = some c →
      ∃ kv ∈ l, (f kv.1 kv.2).2 = some c := by
  intro l
  induction l with
  | nil => intro c h; exact absurd h (by simp [normFieldsGo])
  | cons kv rest ih =>
    intro c h
    unfold normFieldsGo at h
    dsimp only at h
    cases hfst : (f kv.1 kv.2).2 with
    | some c0 =>
      rw [hfst] at h
      have hc : c0 = c := by simpa [Option.orElse] using h
      subst hc
      exact ⟨kv, List.mem_cons_self _ _, hfst⟩
    | none =>
      rw [hfst] at h
      have h2 : (normFieldsGo f rest).2 = some c := by simpa [Option.orElse] using h
      obtain ⟨kv0, hkv0, hq⟩ := ih c h2
      exact ⟨kv0, List.mem_cons_of_mem _ hkv0, hq⟩

theorem normItemsGo_fst : ∀ items : List JVal,
    (normItemsGo items).1 = items.map (fun it => (normItem it).1) := by
  intro items
  induction items with
  | nil => rfl
  | cons it rest ih =>
    unfold normItemsGo
    dsimp only
    rw [List.map_cons, ← ih]

theorem normItemsGo_pointwise : ∀ items : List JVal,
    (∀ it ∈ items, normItem it = (it, none)) → normItemsGo items = (items, none) := by
  intro items
  induction items with
  | nil => intro _; rfl
  | cons it rest ih =>
    intro h
    unfold normItemsGo
    dsimp only
    rw [h it (List.mem_cons_self _ _)]
    rw [ih (fun it hit => h it (List.mem_cons_of_mem _ hit))]
    rfl

theorem normItemsGo_snd_ex : ∀ (items : List JVal) (c : String),
    (normItemsGo items).2 = some c → ∃ it ∈ items, (normItem it).2 = some c := by
  intro items
  induction items with
  | nil => intro c h; exact absurd h (by simp [normItemsGo])
  | cons it rest ih =>
    intro c h
    unfold normItemsGo at h
    dsimp only at h
    cases hfst : (normItem it).2 with
    | some c0 =>
      rw [hfst] at h
      have hc : c0 = c := by simpa [Option.orElse] using h
      subst hc
      exact ⟨it, List.mem_cons_self _ _, hfst⟩
    | none =>
      rw [hfst] at h
      have h2 : (normItemsGo rest).2 = some c := by simpa [Option.orElse] using h
      obtain ⟨it0, hit0, hq⟩ := ih c h2
      exact ⟨it0, List.mem_cons_of_mem _ hit0, hq⟩

theorem normItem_idem (it : JVal) : normItem (normItem it).1 = ((normItem it).1, none) := by
  cases it with
  | obj kvs =>
    have h1 : (normItem (.obj kvs)).1 = .obj ((normFieldsGo normItemField kvs).1) := rfl
    rw [h1]
    have h2 : normFieldsGo normItemField ((normFieldsGo normItemField kvs).1) =
        ((normFieldsGo normItemField kvs).1, none) := by
      apply normFieldsGo_pointwise
      intro kv hkv
      rw [normFieldsGo_fst] at hkv
      obtain ⟨kv0, _, rfl⟩ := List.mem_map.mp hkv
      exact normItemField_idem kv0.1 kv0.2
    show (JVal.obj ((normFieldsGo normItemField ((normFieldsGo normItemField kvs).1)).1),
      (normFieldsGo normItemField ((normFieldsGo normItemField kvs).1)).2) = _
    rw [h2]
  | null =>
    show normItem (deepTrim .null) = (deepTrim .null, none)
    rw [deepTrim_null]
    show ((deepTrim .null, none) : JVal × Option String) = _
    rw [deepTrim_null]
  | boolV b =>
    show normItem (deepTrim (.boolV b)) = (deepTrim (.boolV b), none)
    rw [deepTrim_bool]
    show (deepTrim (.boolV b), none) = _
    rw [deepTrim_bool]
  | intV n =>
    show normItem (deepTrim (.intV n)) = (deepTrim (.intV n), none)
    rw [deepTrim_int]
    show (deepTrim (.intV n), none) = _
    rw [deepTrim_int]
  | floatV q =>
    show normItem (deepTrim (.floatV q)) = (deepTrim (.floatV q), none)
    rw [deepTrim_float]
    show (deepTrim (.floatV q), none) = _
    rw [deepTrim_float]
  | str s =>
    show normItem (deepTrim (.str s)) = (deepTrim (.str s), none)
    rw [deepTrim_str]
    show (deepTrim (.str (pyStrip s)), none) = _
    rw [deepTrim_str, pyStrip_idem]
  | arr xs =>
    show normItem (deepTrim (.arr xs)) = (deepTrim (.arr xs), none)
    obtain ⟨ys, hy⟩ : ∃ ys, deepTrim (.arr xs) = .arr ys := ⟨_, deepTrim_arr xs⟩
    rw [hy]
    show (deepTrim (.arr ys), none) = _
    rw [← hy, deepTrim_idem]

theorem bne_true {b : Bool} (h : b = false) : ¬ b = true := by
  rw [h]
  exact Bool.false_ne_true

theorem normTopField_num (k : String) (v : JVal) (h : numericFieldsS.contains k = true) :
    normTopField k v = normNumField v := by
  unfold normTopField
  rw [if_pos h]

theorem normTopField_date (k : String) (v : JVal) (h1 : numericFieldsS.contains k = false)
    (h2 : dateFieldsS.contains k = true) :
    normTopField k v = (normDateField v, none) := by
  unfold normTopField
  rw [if_neg (bne_true h1), if_pos h2]

theorem normTopField_other (k : String) (v : JVal) (h1 : numericFieldsS.contains k = false)
    (h2 : dateFieldsS.contains k = false) (h3 : ¬ k = "line_items") :
    normTopField k v = (deepTrim v, none) := by
  unfold normTopField
  rw [if_neg (bne_true h1), if_neg (bne_true h2), if_neg h3]

theorem normTopField_li (v : JVal) :
    normTopField "line_items" v = (match v with
      | .arr items => (.arr (normItemsGo items).1, (normItemsGo items).2)
      | other => (deepTrim other, none)) := by
  unfold normTopField
  rw [if_neg (bne_true (by decide)), if_neg (bne_true (by decide)), if_pos rfl]

theorem normTopField_idem (k : String) (v : JVal) :
    normTopField k (normTopField k v).1 = ((normTopField k v).1, none) := by
  cases h1 : numericFieldsS.contains k with
  | true =>
    rw [normTopField_num k v h1, normTopField_num k _ h1]
    exact normNumField_idem v
  | false =>
    cases h2 : dateFieldsS.contains k with
    | true =>
      rw [normTopField_date k v h1 h2, normTopField_date k _ h1 h2]
      dsimp only
      rw [normDateField_idem]
    | false =>
      by_cases h3 : k = "line_items"
      · subst h3
        rw [normTopField_li v, normTopField_li _]
        cases v with
        | arr items =>
          dsimp only
          have hpt : normItemsGo ((normItemsGo items).1) = ((normItemsGo items).1, none) := by
            apply normItemsGo_pointwise
            intro it hit
            rw [normItemsGo_fst] at hit
            obtain ⟨it0, _, rfl⟩ := List.mem_map.mp hit
            exact normItem_idem it0
          rw [hpt]
        | null =>
          dsimp only
          rw [deepTrim_null]
          dsimp only
          rw [deepTrim_null]
        | boolV b =>
          dsimp only
          rw [deepTrim_bool]
          dsimp only
          rw [deepTrim_bool]
        | intV n =>
          dsimp only
          rw [deepTrim_int]
          dsimp only
          rw [deepTrim_int]
        | floatV q =>
          dsimp only
          rw [deepTrim_float]
          dsimp only
          rw [deepTrim_float]
        | str s =>
          dsimp only
          rw [deepTrim_str]
          dsimp only
          rw [deepTrim_str, pyStrip_idem]
        | obj kvs =>
          dsimp only
          obtain ⟨ys, hy⟩ : ∃ ys, deepTrim (.obj kvs) = .obj ys := ⟨_, deepTrim_obj kvs⟩
          rw [hy]
          dsimp only
          rw [← hy, deepTrim_idem]
      · rw [normTopField_other k v h1 h2 h3, normTopField_other k _ h1 h2 h3]
        dsimp only
        rw [deepTrim_idem]

theorem normTopField_null (k : String) : normTopField k .null = (.null, none) := by
  cases h1 : numericFieldsS.contains k with
  | true =>
    rw [normTopField_num k _ h1]
    exact normNumField_null
  | false =>
    cases h2 : dateFieldsS.contains k with
    | true =>
      rw [normTopField_date k _ h1 h2]
      rw [normDateField_null]
    | false =>
      by_cases h3 : k = "line_items"
      · subst h3
        rw [normTopField_li]
        dsimp only
        rw [deepTrim_null]
      · rw [normTopField_other k _ h1 h2 h3, deepTrim_null]

theorem getField_dictSet_self (l : List (String × JVal)) (k : String) (v : JVal) :
    getField (dictSet l k v) k = some v := by
  induction l with
  | nil => simp [getField, dictSet]
  | cons kv rest ih =>
    unfold dictSet
    by_cases h : kv.1 = k
    · rw [if_pos h]
      unfold getField
      rw [List.find?_cons_of_pos _ (by simp)]
      rfl
    · rw [if_neg h]
      unfold getField
      rw [List.find?_cons_of_neg _ (by simp [h])]
      exact ih

theorem getField_dictSet_ne (l : List (String × JVal)) (k k' : String) (v : JVal)
    (h : k' ≠ k) : getField (dictSet l k v) k' = getField l k' := by
  induction l with
  | nil =>
    unfold dictSet getField
    rw [List.find?_cons_of_neg _ (by simp [Ne.symm h])]
  | cons kv rest ih =>
    unfold dictSet
    by_cases hh : kv.1 = k
    · rw [if_pos hh]
      unfold getField
      rw [List.find?_cons_of_neg _ (by simp [Ne.symm h]),
        List.find?_cons_of_neg _ (by simp [hh, Ne.symm h])]
    · rw [if_neg hh]
      unfold getField
      by_cases hk' : kv.1 = k'
      · rw [List.find?_cons_of_pos _ (by simp [hk']), List.find?_cons_of_pos _ (by simp [hk'])]
      · rw [List.find?_cons_of_neg _ (by simp [hk']), List.find?_cons_of_neg _ (by simp [hk'])]
        exact ih

theorem dictSet_self (l : List (String × JVal)) (k : String) (v : JVal)
    (h : getField l k = some v) : dictSet l k v = l := by
  induction l with
  | nil => exact absurd h (by simp [getField])
  | cons kv rest ih =>
    unfold dictSet
    by_cases hh : kv.1 = k
    · rw [if_pos hh]
      unfold getField at h
      rw [List.find?_cons_of_pos _ (by simp [hh])] at h
      have h2 : kv.2 = v := by simpa using h
      rw [← h2, ← hh]
    · rw [if_neg hh]
      unfold getField at h
      rw [List.find?_cons_of_neg _ (by simp [hh])] at h
      rw [ih h]

theorem mem_dictSet (l : List (String × JVal)) (k : String) (v : JVal) :
    ∀ kv ∈ dictSet l k v, kv = (k, v) ∨ kv ∈ l := by
  induction l with
  | nil =>
    intro kv hkv
    simp [dictSet] at hkv
    exact Or.inl hkv
  | cons kv0 rest ih =>
    intro kv hkv
    unfold dictSet at hkv
    by_cases h : kv0.1 = k
    · rw [if_pos h] at hkv
      rcases List.mem_cons.mp hkv with rfl | hkv
      · exact Or.inl rfl
      · exact Or.inr (List.mem_cons_of_mem _ hkv)
    · rw [if_neg h] at hkv
      rcases List.mem_cons.mp hkv with rfl | hkv
      · exact Or.inr (List.mem_cons_self _ _)
      · rcases ih kv hkv with h1 | h1
        · exact Or.inl h1
        · exact Or.inr (List.mem_cons_of_mem _ h1)

theorem getField_nulling (l : List (String × JVal)) (k : String) :
    getField (nullingPhase l) k = (getField l k).map (nullFieldVal k) := by
  induction l with
  | nil => rfl
  | cons kv rest ih =>
    unfold nullingPhase at *
    rw [List.map_cons]
    unfold getField at *
    by_cases h : kv.1 = k
    · rw [List.find?_cons_of_pos _ (by simp [h]), List.find?_cons_of_pos _ (by simp [h])]
      rw [h]
      rfl
    · rw [List.find?_cons_of_neg _ (by simp [h]), List.find?_cons_of_neg _ (by simp [h])]
      exact ih

theorem nullFieldVal_idem (k : String) (v : JVal) :
    nullFieldVal k (nullFieldVal k v) = nullFieldVal k v := by
  unfold nullFieldVal
  by_cases h : optionalFieldsS.contains k = true
  · rw [if_pos h, if_pos h]
    cases v with
    | str s =>
      dsimp only
      by_cases hs : s = ""
      · rw [if_pos hs]
      · rw [if_neg hs]
        dsimp only
        rw [if_neg hs]
    | null => rfl
    | boolV b => rfl
    | intV n => rfl
    | floatV q => rfl
    | arr xs => rfl
    | obj kvs => rfl
  · rw [if_neg h, if_neg h]

theorem nullFieldVal_currency (v : JVal) : nullFieldVal "currency" v = v := rfl

theorem nullingPhase_of_fixed (l : List (String × JVal))
    (h : ∀ kv ∈ l, nullFieldVal kv.1 kv.2 = kv.2) : nullingPhase l = l := by
  unfold nullingPhase
  have h2 : l.map (fun kv => (kv.1, nullFieldVal kv.1 kv.2)) = l.map id := by
    apply List.map_congr_left
    intro kv hkv
    rw [h kv hkv]
    rfl
  rw [h2, List.map_id]

theorem currencyTable_strip (pred : String × String → Bool) (c : String)
    (h : (currencyTable.find? pred).map (fun p => p.2) = some c) : pyStrip c = c := by
  obtain ⟨p, hp, hpc⟩ := Option.map_eq_some'.mp h
  have hmem := List.mem_of_find?_eq_some hp
  rw [← hpc]
  fin_cases hmem <;> decide

theorem parseMagCur_strip (t : List Char) (c : String) (h : (parseMagCur t).2 = some c) :
    pyStrip c = c := by
  unfold parseMagCur at h
  dsimp only at h
  cases hm : parseMagnitude (t.takeWhile (fun c => isDigitB c || c = ',' || c = '.')) with
  | some q =>
    rw [hm] at h
    exact currencyTable_strip _ c h
  | none =>
    rw [hm] at h
    exact absurd h (by simp)

theorem normalize_numeric_strip (v : JVal) (c : String)
    (h : (normalize_numeric v).2 = some c) : pyStrip c = c := by
  cases v with
  | str s =>
    unfold normalize_numeric at h
    dsimp only at h
    by_cases he : (trimChars s.data).isEmpty = true
    · rw [if_pos he] at h
      exact absurd h (by simp)
    · rw [if_neg he] at h
      exact parseMagCur_strip _ c h
  | null => exact absurd h (by simp [normalize_numeric])
  | boolV b => exact absurd h (by simp [normalize_numeric])
  | intV n => exact absurd h (by simp [normalize_numeric])
  | floatV q => exact absurd h (by simp [normalize_numeric])
  | arr xs => exact absurd h (by simp [normalize_numeric])
  | obj kvs => exact absurd h (by simp [normalize_numeric])

theorem normNumField_strip (v : JVal) (c : String) (h : (normNumField v).2 = some c) :
    pyStrip c = c := by
  unfold normNumField at h
  rcases hn : normalize_numeric v with ⟨o, cc⟩
  rw [hn] at h
  cases o with
  | some q =>
    dsimp only at h
    apply normalize_numeric_strip v c
    rw [hn]
    exact h
  | none =>
    dsimp only at h
    exact absurd h (by simp)

theorem normItemField_strip (k : String) (v : JVal) (c : String)
    (h : (normItemField k v).2 = some c) : pyStrip c = c := by
  unfold normItemField at h
  by_cases h1 : itemNumericFieldsS.contains k = true
  · rw [if_pos h1] at h
    exact normNumField_strip v c h
  · rw [if_neg h1] at h
    by_cases h2 : itemDateFieldsS.contains k = true
    · rw [if_pos h2] at h
      exact absurd h (by simp)
    · rw [if_neg h2] at h
      exact absurd h (by simp)

theorem normItem_strip (it : JVal) (c : String) (h : (normItem it).2 = some c) :
    pyStrip c = c := by
  cases it with
  | obj kvs =>
    have h2 : (normFieldsGo normItemField kvs).2 = some c := h
    obtain ⟨kv, _, hq⟩ := normFieldsGo_snd_ex _ _ c h2
    exact normItemField_strip kv.1 kv.2 c hq
  | null => exact absurd h (by simp [normItem])
  | boolV b => exact absurd h (by simp [normItem])
  | intV n => exact absurd h (by simp [normItem])
  | floatV q => exact absurd h (by simp [normItem])
  | str s => exact absurd h (by simp [normItem])
  | arr xs => exact absurd h (by simp [normItem])

theorem normTopField_strip (k : String) (v : JVal) (c : String)
    (h : (normTopField k v).2 = some c) : pyStrip c = c := by
  cases h1 : numericFieldsS.contains k with
  | true =>
    rw [normTopField_num k v h1] at h
    exact normNumField_strip v c h
  | false =>
    cases h2 : dateFieldsS.contains k with
    | true =>
      rw [normTopField_date k v h1 h2] at h
      exact absurd h (by simp)
    | false =>
      by_cases h3 : k = "line_items"
      · subst h3
        rw [normTopField_li v] at h
        cases v with
        | arr items =>
          dsimp only at h
          obtain ⟨it, _, hq⟩ := normItemsGo_snd_ex items c h
          exact normItem_strip it c hq
        | null => exact absurd h (by simp)
        | boolV b => exact absurd h (by simp)
        | intV n => exact absurd h (by simp)
        | floatV q => exact absurd h (by simp)
        | str s => exact absurd h (by simp)
        | obj kvs => exact absurd h (by simp)
      · rw [normTopField_other k v h1 h2 h3] at h
        exact absurd h (by simp)

theorem normFieldsGo_top_strip (r : List (String × JVal)) (c : String)
    (h : (normFieldsGo normTopField r).2 = some c) : pyStrip c = c := by
  obtain ⟨kv, _, hq⟩ := normFieldsGo_snd_ex _ _ c h
  exact normTopField_strip kv.1 kv.2 c hq

theorem vendorCurrency_strip (r : List (String × JVal)) (c : String)
    (h : vendorCurrency r = some c) : pyStrip c = c := by
  unfold vendorCurrency at h
  cases hv : (getField r "vendor_name").getD .null with
  | str s =>
    rw [hv] at h
    dsimp only at h
    by_cases hth : thaiMarkers.any (fun mk => containsSeg mk.data s.data) = true
    · rw [if_pos hth] at h
      have hc : c = "THB" := (Option.some.inj h).symm
      subst hc
      decide
    · rw [if_neg hth] at h
      exact absurd h (by simp)
  | null => rw [hv] at h; exact absurd h (by simp)
  | boolV b => rw [hv] at h; exact absurd h (by simp)
  | intV n => rw [hv] at h; exact absurd h (by simp)
  | floatV q => rw [hv] at h; exact absurd h (by simp)
  | arr xs => rw [hv] at h; exact absurd h (by simp)
  | obj kvs => rw [hv] at h; exact absurd h (by simp)

theorem canon_num_float (k : String) (q : ℚ) (hk : numericFieldsS.contains k = true) :
    normTopField k (.floatV q) = (.floatV q, none) := by
  rw [normTopField_num k _ hk]
  exact normNumField_float q

theorem canon_nullFieldVal (k : String) (v : JVal) (h : normTopField k v = (v, none)) :
    normTopField k (nullFieldVal k v) = (nullFieldVal k v, none) := by
  unfold nullFieldVal
  by_cases hopt : optionalFieldsS.contains k = true
  · rw [if_pos hopt]
    cases v with
    | str s =>
      dsimp only
      by_cases hs : s = ""
      · rw [if_pos hs]
        exact normTopField_null k
      · rw [if_neg hs]
        exact h
    | null => exact h
    | boolV b => exact h
    | intV n => exact h
    | floatV q => exact h
    | arr xs => exact h
    | obj kvs => exact h
  · rw [if_neg hopt]
    exact h

theorem canon_derived (l : List (String × JVal))
    (h : ∀ kv ∈ l, normTopField kv.1 kv.2 = (kv.2, none)) :
    ∀ kv ∈ derivedPhase l, normTopField kv.1 kv.2 = (kv.2, none) := by
  intro kv hkv
  unfold derivedPhase at hkv
  cases hli : (getField l "line_items").getD .null with
  | arr items =>
    rw [hli] at hkv
    dsimp only at hkv
    cases htax : (getField (dictSet l "subtotal" (.floatV (sumAmounts items)))
        "tax_amount").getD .null with
    | floatV t =>
      rw [htax] at hkv
      rcases mem_dictSet _ _ _ kv hkv with rfl | hkv2
      · exact canon_num_float "total_amount" _ (by decide)
      · rcases mem_dictSet _ _ _ kv hkv2 with rfl | hkv3
        · exact canon_num_float "subtotal" _ (by decide)
        · exact h kv hkv3
    | intV t =>
      rw [htax] at hkv
      rcases mem_dictSet _ _ _ kv hkv with rfl | hkv2
      · exact canon_num_float "total_amount" _ (by decide)
      · rcases mem_dictSet _ _ _ kv hkv2 with rfl | hkv3
        · exact canon_num_float "subtotal" _ (by decide)
        · exact h kv hkv3
    | null =>
      rw [htax] at hkv
      rcases mem_dictSet _ _ _ kv hkv with rfl | hkv2
      · exact canon_num_float "subtotal" _ (by decide)
      · exact h kv hkv2
    | boolV b =>
      rw [htax] at hkv
      rcases mem_dictSet _ _ _ kv hkv with rfl | hkv2
      · exact canon_num_float "subtotal" _ (by decide)
      · exact h kv hkv2
    | str s =>
      rw [htax] at hkv
      rcases mem_dictSet _ _ _ kv hkv with rfl | hkv2
      · exact canon_num_float "subtotal" _ (by decide)
      · exact h kv hkv2
    | arr xs =>
      rw [htax] at hkv
      rcases mem_dictSet _ _ _ kv hkv with rfl | hkv2
      · exact canon_num_float "subtotal" _ (by decide)
      · exact h kv hkv2
    | obj kvs =>
      rw [htax] at hkv
      rcases mem_dictSet _ _ _ kv hkv with rfl | hkv2
      · exact canon_num_float "subtotal" _ (by decide)
      · exact h kv hkv2
  | null => rw [hli] at hkv; exact h kv hkv
  | boolV b => rw [hli] at hkv; exact h kv hkv
  | intV n => rw [hli] at hkv; exact h kv hkv
  | floatV q => rw [hli] at hkv; exact h kv hkv
  | str s => rw [hli] at hkv; exact h kv hkv
  | obj kvs => rw [hli] at hkv; exact h kv hkv

theorem canon_nulling (l : List (String × JVal))
    (h : ∀ kv ∈ l, normTopField kv.1 kv.2 = (kv.2, none)) :
    ∀ kv ∈ nullingPhase l, normTopField kv.1 kv.2 = (kv.2, none) := by
  intro kv hkv
  unfold nullingPhase at hkv
  obtain ⟨kv0, hkv0, rfl⟩ := List.mem_map.mp hkv
  exact canon_nullFieldVal kv0.1 kv0.2 (h kv0 hkv0)

theorem canon_cur_str (c : String) (hc : pyStrip c = c) :
    normTopField "currency" (.str c) = (.str c, none) := by
  rw [normTopField_other "currency" _ (by decide) (by decide) (by decide)]
  rw [deepTrim_str, hc]

theorem canon_currency (l : List (String × JVal)) (holder : Option String)
    (hh : ∀ c, holder = some c → pyStrip c = c)
    (h : ∀ kv ∈ l, normTopField kv.1 kv.2 = (kv.2, none)) :
    ∀ kv ∈ currencyPhase l holder, normTopField kv.1 kv.2 = (kv.2, none) := by
  intro kv hkv
  unfold currencyPhase at hkv
  cases hge : (getField l "currency").getD .null with
  | null =>
    rw [hge] at hkv
    dsimp only at hkv
    cases holder with
    | some c =>
      dsimp only at hkv
      rcases mem_dictSet _ _ _ kv hkv with rfl | hkv2
      · exact canon_cur_str c (hh c rfl)
      · exact h kv hkv2
    | none =>
      dsimp only at hkv
      cases hvc : vendorCurrency l with
      | some c =>
        rw [hvc] at hkv
        rcases mem_dictSet _ _ _ kv hkv with rfl | hkv2
        · exact canon_cur_str c (vendorCurrency_strip l c hvc)
        · exact h kv hkv2
      | none =>
        rw [hvc] at hkv
        rcases mem_dictSet _ _ _ kv hkv with rfl | hkv2
        · exact normTopField_null "currency"
        · exact h kv hkv2
  | str s => rw [hge] at hkv; exact h kv hkv
  | boolV b => rw [hge] at hkv; exact h kv hkv
  | intV n => rw [hge] at hkv; exact h kv hkv
  | floatV q => rw [hge] at hkv; exact h kv hkv
  | arr xs => rw [hge] at hkv; exact h kv hkv
  | obj kvs => rw [hge] at hkv; exact h kv hkv

theorem nulled_nulling (l : List (String × JVal)) :
    ∀ kv ∈ nullingPhase l, nullFieldVal kv.1 kv.2 = kv.2 := by
  intro kv hkv
  unfold nullingPhase at hkv
  obtain ⟨kv0, _, rfl⟩ := List.mem_map.mp hkv
  exact nullFieldVal_idem kv0.1 kv0.2

theorem nulled_currency (l : List (String × JVal)) (holder : Option String)
    (h : ∀ kv ∈ l, nullFieldVal kv.1 kv.2 = kv.2) :
    ∀ kv ∈ currencyPhase l holder, nullFieldVal kv.1 kv.2 = kv.2 := by
  intro kv hkv
  unfold currencyPhase at hkv
  cases hge : (getField l "currency").getD .null with
  | null =>
    rw [hge] at hkv
    dsimp only at hkv
    cases holder with
    | some c =>
      dsimp only at hkv
      rcases mem_dictSet _ _ _ kv hkv with rfl | hkv2
      · exact nullFieldVal_currency _
      · exact h kv hkv2
    | none =>
      dsimp only at hkv
      cases hvc : vendorCurrency l with
      | some c =>
        rw [hvc] at hkv
        rcases mem_dictSet _ _ _ kv hkv with rfl | hkv2
        · exact nullFieldVal_currency _
        · exact h kv hkv2
      | none =>
        rw [hvc] at hkv
        rcases mem_dictSet _ _ _ kv hkv with rfl | hkv2
        · exact nullFieldVal_currency _
        · exact h kv hkv2
  | str s => rw [hge] at hkv; exact h kv hkv
  | boolV b => rw [hge] at hkv; exact h kv hkv
  | intV n => rw [hge] at hkv; exact h kv hkv
  | floatV q => rw [hge] at hkv; exact h kv hkv
  | arr xs => rw [hge] at hkv; exact h kv hkv
  | obj kvs => rw [hge] at hkv; exact h kv hkv

theorem canon_num_shape (k : String) (v : JVal) (hk : numericFieldsS.contains k = true)
    (h : normTopField k v = (v, none)) : (∃ q, v = .floatV q) ∨ v = .null := by
  rw [normTopField_num k v hk] at h
  have h1 : (normNumField v).1 = v := by rw [h]
  rcases normNumField_fst_cases v with ⟨q, hq⟩ | hq
  · exact Or.inl ⟨q, by rw [← h1, hq]⟩
  · exact Or.inr (by rw [← h1, hq])

theorem getField_mem (l : List (String × JVal)) (k : String) (v : JVal)
    (h : getField l k = some v) : (k, v) ∈ l := by
  unfold getField at h
  obtain ⟨kv, hfind, hsnd⟩ := Option.map_eq_some'.mp h
  have hmem := List.mem_of_find?_eq_some hfind
  have hp := List.find?_some hfind
  have hk : kv.1 = k := by simpa using hp
  have hkv : kv = (k, v) := by
    rcases kv with ⟨a, b⟩
    dsimp only at hk hsnd
    rw [hk, hsnd]
  rwa [hkv] at hmem

theorem getField_curPhase_ne (l : List (String × JVal)) (holder : Option String) (k : String)
    (h : k ≠ "currency") : getField (currencyPhase l holder) k = getField l k := by
  unfold currencyPhase
  cases hge : (getField l "currency").getD .null with
  | null =>
    dsimp only
    cases holder with
    | some c => exact getField_dictSet_ne l "currency" k (.str c) h
    | none =>
      dsimp only
      cases vendorCurrency l with
      | some c => exact getField_dictSet_ne _ _ _ _ h
      | none => exact getField_dictSet_ne _ _ _ _ h
  | str s => rfl
  | boolV b => rfl
  | intV n => rfl
  | floatV q => rfl
  | arr xs => rfl
  | obj kvs => rfl

theorem nullFieldVal_arr (k : String) (v : JVal) (items : List JVal) :
    nullFieldVal k v = .arr items ↔ v = .arr items := by
  unfold nullFieldVal
  by_cases h : optionalFieldsS.contains k = true
  · rw [if_pos h]
    cases v with
    | str s =>
      dsimp only
      by_cases hs : s = ""
      · rw [if_pos hs]
        constructor
        · intro hh; exact absurd hh (by simp)
        · intro hh; exact absurd hh (by simp)
      · rw [if_neg hs]
    | null => exact Iff.rfl
    | boolV b => exact Iff.rfl
    | intV n => exact Iff.rfl
    | floatV q => exact Iff.rfl
    | arr xs => exact Iff.rfl
    | obj kvs => exact Iff.rfl
  · rw [if_neg h]

theorem derivedPhase_fix_notax (R : List (String × JVal)) (items : List JVal)
    (hli : (getField R "line_items").getD .null = .arr items)
    (hsub : getField R "subtotal" = some (.floatV (sumAmounts items)))
    (htx : (getField R "tax_amount").getD .null = .null) :
    derivedPhase R = R := by
  unfold derivedPhase
  rw [hli]
  dsimp only
  rw [dictSet_self _ _ _ hsub]
  rw [htx]

theorem derivedPhase_fix_tax (R : List (String × JVal)) (items : List JVal) (t : ℚ)
    (hli : (getField R "line_items").getD .null = .arr items)
    (hsub : getField R "subtotal" = some (.floatV (sumAmounts items)))
    (htx : (getField R "tax_amount").getD .null = .floatV t)
    (htot : getField R "total_amount" = some (.floatV (sumAmounts items + t))) :
    derivedPhase R = R := by
  unfold derivedPhase
  rw [hli]
  dsimp only
  rw [dictSet_self _ _ _ hsub]
  rw [htx]
  dsimp only
  rw [dictSet_self _ _ _ htot]

theorem derivedPhase_fix (P : List (String × JVal)) (holder : Option String)
    (htax : ∀ v, getField P "tax_amount" = some v → (∃ q, v = .floatV q) ∨ v = .null) :
    derivedPhase (currencyPhase (nullingPhase (derivedPhase P)) holder) =
      currencyPhase (nullingPhase (derivedPhase P)) holder := by
  have getR : ∀ (D : List (String × JVal)) (k : String), k ≠ "currency" →
      getField (currencyPhase (nullingPhase D) holder) k =
        (getField D k).map (nullFieldVal k) := by
    intro D k hk
    rw [getField_curPhase_ne _ _ _ hk, getField_nulling]
  by_cases harr : ∃ items, (getField P "line_items").getD .null = .arr items
  · obtain ⟨items, hli⟩ := harr
    have hgli : getField P "line_items" = some (.arr items) := by
      cases hg : getField P "line_items" with
      | none =>
        rw [hg] at hli
        exact absurd hli (by simp)
      | some w =>
        rw [hg] at hli
        have hw : w = .arr items := by simpa using hli
        rw [hw]
    have htxS : getField (dictSet P "subtotal" (.floatV (sumAmounts items))) "tax_amount"
        = getField P "tax_amount" := getField_dictSet_ne _ _ _ _ (by decide)
    have hDexp : derivedPhase P =
        (match (getField P "tax_amount").getD .null with
         | .floatV t => dictSet (dictSet P "subtotal" (.floatV (sumAmounts items)))
             "total_amount" (.floatV (sumAmounts items + t))
         | .intV t => dictSet (dictSet P "subtotal" (.floatV (sumAmounts items)))
             "total_amount" (.floatV (sumAmounts items + (t : ℚ)))
         | _ => dictSet P "subtotal" (.floatV (sumAmounts items))) := by
      unfold derivedPhase
      rw [show (getField P "line_items").getD JVal.null = .arr items from hli]
      dsimp only
      rw [htxS]
    cases hPt : getField P "tax_amount" with
    | none =>
      have hD2 : derivedPhase P = dictSet P "subtotal" (.floatV (sumAmounts items)) := by
        rw [hDexp, hPt]
        rfl
      rw [hD2]
      apply derivedPhase_fix_notax _ items
      · rw [getR _ _ (by decide), getField_dictSet_ne _ _ _ _ (by decide), hgli]
        rfl
      · rw [getR _ _ (by decide), getField_dictSet_self]
        rfl
      · rw [getR _ _ (by decide), getField_dictSet_ne _ _ _ _ (by decide), hPt]
        rfl
    | some v =>
      rcases htax v hPt with ⟨t, rfl⟩ | rfl
      · have hD2 : derivedPhase P = dictSet (dictSet P "subtotal" (.floatV (sumAmounts items)))
            "total_amount" (.floatV (sumAmounts items + t)) := by
          rw [hDexp, hPt]
          rfl
        rw [hD2]
        apply derivedPhase_fix_tax _ items t
        · rw [getR _ _ (by decide), getField_dictSet_ne _ _ _ _ (by decide),
            getField_dictSet_ne _ _ _ _ (by decide), hgli]
          rfl
        · rw [getR _ _ (by decide), getField_dictSet_ne _ _ _ _ (by decide),
            getField_dictSet_self]
          rfl
        · rw [getR _ _ (by decide), getField_dictSet_ne _ _ _ _ (by decide),
            getField_dictSet_ne _ _ _ _ (by decide), hPt]
          rfl
        · rw [getR _ _ (by decide), getField_dictSet_self]
          rfl
      · have hD2 : derivedPhase P = dictSet P "subtotal" (.floatV (sumAmounts items)) := by
          rw [hDexp, hPt]
          rfl
        rw [hD2]
        apply derivedPhase_fix_notax _ items
        · rw [getR _ _ (by decide), getField_dictSet_ne _ _ _ _ (by decide), hgli]
          rfl
        · rw [getR _ _ (by decide), getField_dictSet_self]
          rfl
        · rw [getR _ _ (by decide), getField_dictSet_ne _ _ _ _ (by decide), hPt]
          rfl
  · have hD : derivedPhase P = P := by
      unfold derivedPhase
      cases hli : (getField P "line_items").getD .null with
      | arr items => exact absurd ⟨items, hli⟩ harr
      | null => rfl
      | boolV b => rfl
      | intV n => rfl
      | floatV q => rfl
      | str s => rfl
      | obj kvs => rfl
    rw [hD]
    unfold derivedPhase
    cases hli2 : (getField (currencyPhase (nullingPhase P) holder) "line_items").getD .null with
    | arr items2 =>
      exfalso
      rw [getField_curPhase_ne _ _ _ (by decide), getField_nulling] at hli2
      cases hg : getField P "line_items" with
      | none =>
        rw [hg] at hli2
        exact absurd hli2 (by simp)
      | some w =>
        rw [hg] at hli2
        have hw : nullFieldVal "line_items" w = .arr items2 := by simpa using hli2
        have hw2 : w = .arr items2 := (nullFieldVal_arr _ _ _).mp hw
        exact harr ⟨items2, by rw [hg, hw2]; rfl⟩
    | null => rfl
    | boolV b => rfl
    | intV n => rfl
    | floatV q => rfl
    | str s => rfl
    | obj kvs => rfl

theorem currencyPhase_fix (X : List (String × JVal)) (holder : Option String) :
    currencyPhase (currencyPhase X holder) none = currencyPhase X holder := by
  cases hge : (getField X "currency").getD .null with
  | null =>
    cases holder with
    | some c =>
      have hR : currencyPhase X (some c) = dictSet X "currency" (.str c) := by
        unfold currencyPhase
        rw [hge]
      rw [hR]
      unfold currencyPhase
      rw [getField_dictSet_self]
      rfl
    | none =>
      cases hvc : vendorCurrency X with
      | some c =>
        have hR : currencyPhase X none = dictSet X "currency" (.str c) := by
          unfold currencyPhase
          rw [hge]
          dsimp only
          rw [hvc]
        rw [hR]
        unfold currencyPhase
        rw [getField_dictSet_self]
        rfl
      | none =>
        have hR : currencyPhase X none = dictSet X "currency" .null := by
          unfold currencyPhase
          rw [hge]
          dsimp only
          rw [hvc]
        rw [hR]
        unfold currencyPhase
        rw [getField_dictSet_self]
        have hvc2 : vendorCurrency (dictSet X "currency" .null) = vendorCurrency X := by
          unfold vendorCurrency
          rw [getField_dictSet_ne _ _ _ _ (by decide)]
        rw [show (some JVal.null).getD JVal.null = JVal.null from rfl]
        dsimp only
        rw [hvc2, hvc]
        exact dictSet_self _ _ _ (getField_dictSet_self X "currency" .null)
  | str s =>
    have hR : currencyPhase X holder = X := by
      unfold currencyPhase
      rw [hge]
    rw [hR]
    unfold currencyPhase
    rw [hge]
  | boolV b =>
    have hR : currencyPhase X holder = X := by
      unfold currencyPhase
      rw [hge]
    rw [hR]
    unfold currencyPhase
    rw [hge]
  | intV n =>
    have hR : currencyPhase X holder = X := by
      unfold currencyPhase
      rw [hge]
    rw [hR]
    unfold currencyPhase
    rw [hge]
  | floatV q =>
    have hR : currencyPhase X holder = X := by
      unfold currencyPhase
      rw [hge]
    rw [hR]
    unfold currencyPhase
    rw [hge]
  | arr xs =>
    have hR : currencyPhase X holder = X := by
      unfold currencyPhase
      rw [hge]
    rw [hR]
    unfold currencyPhase
    rw [hge]
  | obj kvs =>
    have hR : currencyPhase X holder = X := by
      unfold currencyPhase
      rw [hge]
    rw [hR]
    unfold currencyPhase
    rw [hge]

/-- C3: Modelled from the spec: normalize of the missing normalizer module
is idempotent — normalizing an already-normalized record returns it
unchanged, every field value being a fixed point of its per-field
routine and the derived, nulling and currency phases finding nothing
further to change. -/
theorem normalizeRecord_idempotent (r : List (String × JVal)) :
    normalizeRecord (normalizeRecord r) = normalizeRecord r := by
  have hexp : ∀ l : List (String × JVal), normalizeRecord l =
      currencyPhase (nullingPhase (derivedPhase (normFieldsGo normTopField l).1))
        (normFieldsGo normTopField l).2 := fun l => rfl
  have hPc : ∀ kv ∈ (normFieldsGo normTopField r).1, normTopField kv.1 kv.2 = (kv.2, none) := by
    intro kv hkv
    rw [normFieldsGo_fst] at hkv
    obtain ⟨kv0, _, rfl⟩ := List.mem_map.mp hkv
    exact normTopField_idem kv0.1 kv0.2
  have hRc : ∀ kv ∈ normalizeRecord r, normTopField kv.1 kv.2 = (kv.2, none) := by
    rw [hexp r]
    exact canon_currency _ _ (normFieldsGo_top_strip r) (canon_nulling _ (canon_derived _ hPc))
  have htaxshape : ∀ v, getField (normFieldsGo normTopField r).1 "tax_amount" = some v →
      (∃ q, v = .floatV q) ∨ v = .null := by
    intro v hv
    have hkv := getField_mem _ _ _ hv
    exact canon_num_shape "tax_amount" v (by decide) (hPc _ hkv)
  rw [hexp (normalizeRecord r)]
  rw [normFieldsGo_pointwise _ _ hRc]
  dsimp only
  rw [hexp r]
  rw [derivedPhase_fix _ _ htaxshape]
  rw [nullingPhase_of_fixed _ (nulled_currency _ _ (nulled_nulling _))]
  exact currencyPhase_fix _ _
